import Mathlib

/-!
# g2o_frontend: generalized RANSAC and cylindrical point projector

A shallow embedding of

* `g2o_frontend/ransac/ransac.h` (`Correspondence::operator<`,
  `GeneralizedRansac::computeMinimalSet`, `GeneralizedRansac::operator()`),
* `g2o_frontend/pwn2/cylindricalpointprojector.cpp`
  (`CylindricalPointProjector::project`, the two `unProject` methods and
  `_updateMatrices`), and
* `g2o_frontend/pwn_core/linearizer.h` (`Linearizer::setT`),

followed by theorems about them.

Conventions of the embedding.

* C++ `int` values are `Int`; container sizes are `Nat`.
* `double` / `float` quantities are rationals or elements of a linear order
  (exact arithmetic, no NaN, no infinities).
* The virtual collaborators (validators, minimal-set solver, edge error
  function) are parameters.  Validators and solver may be stateful: they
  thread a state of an arbitrary type `σ`.
* The recursion of `computeMinimalSet` is bounded by a step budget; running
  out of budget is reported as `Outcome.timeout`, an access outside a vector
  or a failed assertion as `Outcome.fault`.
* Every call of a validator or of the solver is appended to a ghost trace.
* Diagnostic output (`cerr`, `cout`, the `.dat` dump files of lines 187-238
  and the listing of lines 293-303 of `ransac.h`, with the reads it makes) is
  not modelled.
* The index values stay between 0 and `_correspondences.size() + 1` in every
  run considered, so `int` overflow plays no role.

The file has three parts: the embedding of the source, the notions used to
state the properties together with concrete inputs, and the theorems.
-/

namespace G2oFrontend

/-! ## Definitions: generalized RANSAC (`ransac.h`) -/

/-- Result of running a piece of the program with a bounded step budget. -/
inductive Outcome (α : Type) where
  /-- The code ran to completion and produced a value. -/
  | ok (a : α) : Outcome α
  /-- The code read or wrote outside a vector, or an assertion failed. -/
  | fault : Outcome α
  /-- The step budget was exhausted. -/
  | timeout : Outcome α

/-- Ghost record of one call to a collaborator of the RANSAC engine. -/
inductive Event where
  /-- The call `validateCorrespondences(k)` of line 135, with the index
  vector it was evaluated on and its result. -/
  | validate (k : Nat) (indices : List Int) (accepted : Bool) : Event
  /-- The call `_alignmentAlgorithm(t,_correspondences,_indices)` of line 141,
  with the index vector passed and its result. -/
  | solve (indices : List Int) (found : Bool) : Event
  /-- The call `_alignmentAlgorithm(bestTransform,_correspondences,bestInliers)`
  of line 404, with the index vector passed and its result. -/
  | refine (indices : List Int) (found : Bool) : Event
  deriving DecidableEq

/-- Mutable state of a `GeneralizedRansac` object and of the graph it works
on: `_indices`, `_errors`, the estimates of the graph vertices, the state of
the validators and of the solver, and the ghost trace. -/
structure RansacState (σ V P : Type) where
  /-- The member `_indices`. -/
  indices : List Int
  /-- The member `_errors`. -/
  errors : List ℚ
  /-- The estimate of every vertex of the graph. -/
  est : V → P
  /-- The state of the validators and of the alignment algorithm. -/
  ext : σ
  /-- The calls made so far, oldest first. -/
  trace : List Event

/-- Configuration and collaborators of a `GeneralizedRansac` object.
`σ` is the state of validators and solver, `T` the transform type, `V` the
vertices of the graph and `P` the type of vertex estimates. -/
structure Env (σ T V P : Type) where
  /-- The value of `_correspondences.size()`. -/
  n : Nat
  /-- The member `_minimalSetSize`. -/
  minimalSetSize : Int
  /-- The member `_maxIterations`. -/
  maxIterations : Int
  /-- The member `_inlierErrorTheshold`. -/
  inlierErrorThreshold : ℚ
  /-- The member `_inlierStopFraction`. -/
  inlierStopFraction : ℚ
  /-- The value of `std::numeric_limits<double>::max()`. -/
  dblMax : ℚ
  /-- The validators as run by `validateCorrespondences(k)` (declared at line
  76, defined outside `ransac.h`) on the index vector `_indices` and depth
  `k`: result and new collaborator state. -/
  validators : σ → List Int → Nat → Bool × σ
  /-- The minimal-set solver `_alignmentAlgorithm(t, _correspondences, indices)`:
  result, transform left in `t`, new collaborator state. -/
  solver : σ → T → List Int → Bool × T × σ
  /-- The value of a default-constructed `TransformType`. -/
  defaultTransform : T
  /-- The vertex `edge()->vertex(1)` of correspondence `k`. -/
  vertex2 : Nat → V
  /-- The product `t*ebackup` of a transform and a vertex estimate. -/
  act : T → P → P
  /-- The value `chi2()` of the edge of correspondence `k` after
  `computeError()`, as a function of the current vertex estimates. -/
  chi2 : Nat → (V → P) → ℚ
  /-- The effect of the virtual method `keepBestFriend` (declared at line 88,
  defined outside `ransac.h`) on its third argument, given the second. -/
  keepBestFriend : List ℚ → List Int → List Int
  /-- The index vector left by `_init()` (declared at line 91, defined
  outside `ransac.h`); `none` when `_init()` returns false. -/
  initIndices : Option (List Int)
  /-- The result of `_cleanup()` (declared at line 92). -/
  cleanupOk : Bool

section Ransac

variable {σ T V P : Type}

/-- Assignment `_indices[k] = v`. -/
def RansacState.setIndex (s : RansacState σ V P) (k : Nat) (v : Int) : RansacState σ V P :=
  { s with indices := s.indices.set k v }

/-- The call `validateCorrespondences(k)` of line 135, recorded in the trace. -/
def validateCorrespondences (env : Env σ T V P) (k : Nat) (s : RansacState σ V P) :
    Bool × RansacState σ V P :=
  let v := env.validators s.ext s.indices k
  (v.1, { s with ext := v.2, trace := s.trace ++ [Event.validate k s.indices v.1] })

/-- The call `_alignmentAlgorithm(t,_correspondences,_indices)` of line 141,
recorded in the trace. -/
def alignmentAlgorithm (env : Env σ T V P) (t : T) (s : RansacState σ V P) :
    Bool × T × RansacState σ V P :=
  let r := env.solver s.ext t s.indices
  (r.1, r.2.1, { s with ext := r.2.2, trace := s.trace ++ [Event.solve s.indices r.1] })

/-- Lines 152-155 of `computeMinimalSet`, with `jk1` and `jk` the values of
`_indices[k+1]` and `_indices[k]`. -/
def carry (env : Env σ T V P) (k : Nat) (jk1 jk : Int) (s : RansacState σ V P) :
    RansacState σ V P :=
  if jk1 > (env.n : Int) - ((s.indices.length : Int) - (k : Int)) then
    (s.setIndex k (jk + 1)).setIndex (k + 1) (jk + 1 + 1)
  else s

/-- The `while` loop of `computeMinimalSet` (lines 134-158), entered with the
current value of the local `transformFound`.  The first argument is the step
budget; `k` is the recursion depth and `t` the transform passed by
reference. -/
def computeMinimalSetLoop (env : Env σ T V P) :
    Nat → Nat → Bool → T → RansacState σ V P → Outcome (Bool × T × RansacState σ V P)
  | 0, _, _, _, _ => Outcome.timeout
  | fuel + 1, k, transformFound, t, s =>
    match s.indices[k]? with
    | none => Outcome.fault
    | some ik =>
      if ik < (env.n : Int) ∧ transformFound = false then
        let v := validateCorrespondences env k s
        if v.1 = false then
          computeMinimalSetLoop env fuel k transformFound t (v.2.setIndex k (ik + 1))
        else if (k : Int) = env.minimalSetSize - 1 then
          let r := alignmentAlgorithm env t v.2
          computeMinimalSetLoop env fuel k r.1 r.2.1 (r.2.2.setIndex k (ik + 1))
        else
          match v.2.indices[k + 1]? with
          | none => Outcome.fault
          | some ik1 =>
            let s2 := if ik1 < ik then v.2.setIndex (k + 1) (ik + 1) else v.2
            match computeMinimalSetLoop env fuel (k + 1) false t s2 with
            | Outcome.ok (found, t3, s3) =>
              match s3.indices[k + 1]?, s3.indices[k]? with
              | some jk1, some jk =>
                computeMinimalSetLoop env fuel k found t3 (carry env k jk1 jk s3)
              | _, _ => Outcome.fault
            | Outcome.fault => Outcome.fault
            | Outcome.timeout => Outcome.timeout
      else
        Outcome.ok (transformFound, t, s)

/-- The method `computeMinimalSet(t, k)` (lines 130-160): the local
`transformFound` starts as `false`. -/
def computeMinimalSet (env : Env σ T V P) (fuel k : Nat) (t : T) (s : RansacState σ V P) :
    Outcome (Bool × T × RansacState σ V P) :=
  computeMinimalSetLoop env fuel k false t s

/-- Loop variables of the scoring loop of `operator()` (lines 243-280):
the locals `inliers`, `currentErrors`, `error`, and the vertex estimates. -/
structure Score (V P : Type) where
  /-- The local `inliers`. -/
  inliers : List Int
  /-- The local `currentErrors`. -/
  currentErrors : List ℚ
  /-- The local `error`. -/
  error : ℚ
  /-- The estimate of every vertex of the graph. -/
  est : V → P

/-- One iteration of the scoring loop (lines 250-279) for correspondence `k`
and hypothesis `t`. `setEstimate` overwrites the estimate of the second
vertex; `chi2()` returns the value cached by `computeError()`. -/
def scoreCorrespondence [DecidableEq V] (env : Env σ T V P) (debug : Bool) (t : T) (k : Nat)
    (a : Score V P) : Score V P :=
  let v2 := env.vertex2 k
  let ebackup := a.est v2
  let est1 := Function.update a.est v2 (env.act t ebackup)
  let c := env.chi2 k est1
  let errs := a.currentErrors.set k c
  if c < env.inlierErrorThreshold then
    let est2 :=
      if debug = true then
        Function.update (Function.update est1 v2 ebackup) v2 (env.act t ebackup)
      else est1
    { inliers := a.inliers ++ [(k : Int)]
      currentErrors := errs
      error := a.error + c
      est := Function.update est2 v2 ebackup }
  else
    { inliers := a.inliers
      currentErrors := errs
      error := a.error
      est := Function.update est1 v2 ebackup }

/-- The scoring loop of `operator()` (lines 243-280): `inliers` starts
empty, `currentErrors` has one zero per correspondence, `error` is 0, and
`k` runs over `0 .. _correspondences.size()-1`. -/
def scoreHypothesis [DecidableEq V] (env : Env σ T V P) (debug : Bool) (t : T) (est : V → P) :
    Score V P :=
  (List.range env.n).foldl (fun a k => scoreCorrespondence env debug t k a)
    { inliers := [], currentErrors := List.replicate env.n 0, error := 0, est := est }

/-- Lines 304-308 of `operator()`: the local `inliers` after the optional
call `keepBestFriend(bestFriendInliers, currentErrors, inliers)`. -/
def applyBestFriendFilter (env : Env σ T V P) (bestFriendFilter : Int) (sc : Score V P) :
    List Int :=
  if bestFriendFilter ≠ 0 then env.keepBestFriend sc.currentErrors sc.inliers else sc.inliers

/-- The locals of `operator()` that describe the incumbent: `bestInliers`,
`bestError`, `bestTransform` and `transformFound`. -/
structure Best (T : Type) where
  /-- The local `bestInliers`. -/
  bestInliers : List Int
  /-- The local `bestError`. -/
  bestError : ℚ
  /-- The local `bestTransform`. -/
  bestTransform : T
  /-- The local `transformFound`. -/
  transformFound : Bool

/-- Lines 342-369 of `operator()`: the retention test for a scored
hypothesis `t` with inlier list `inliers`, error sum `error` and errors
`currentErrors`, and the stop test.  The first component of the result is
`true` when the `for` loop goes on and `false` after `break`. -/
def retain (env : Env σ T V P) (t : T) (inliers : List Int) (error : ℚ)
    (currentErrors : List ℚ) (b : Best T) (s : RansacState σ V P) :
    Bool × Best T × RansacState σ V P :=
  if inliers.length > b.bestInliers.length then
    let currentError := error / (inliers.length : ℚ)
    let bs : Best T × RansacState σ V P :=
      if currentError < b.bestError then
        ({ bestInliers := inliers, bestError := currentError, bestTransform := t,
           transformFound := true },
         { s with errors := currentErrors })
      else (b, s)
    if (bs.1.bestInliers.length : ℚ) / (env.n : ℚ) > env.inlierStopFraction then
      (false, { bs.1 with transformFound := true }, bs.2)
    else (true, bs.1, bs.2)
  else (true, b, s)

/-- The body of the `for` loop of `operator()` (lines 176-369).  The first
component of the result is `true` when the loop goes on (end of the body or
`continue`) and `false` after `break`. -/
def iteration [DecidableEq V] (env : Env σ T V P) (fuel : Nat) (debug : Bool)
    (bestFriendFilter : Int) (b : Best T) (s : RansacState σ V P) :
    Outcome (Bool × Best T × RansacState σ V P) :=
  match computeMinimalSet env fuel 0 env.defaultTransform s with
  | Outcome.ok (false, _, s1) => Outcome.ok (true, b, s1)
  | Outcome.ok (true, t, s1) =>
    let sc := scoreHypothesis env debug t s1.est
    let inliers := applyBestFriendFilter env bestFriendFilter sc
    let s2 : RansacState σ V P := { s1 with est := sc.est }
    if (inliers.length : Int) < env.minimalSetSize then Outcome.ok (true, b, s2)
    else Outcome.ok (retain env t inliers sc.error sc.currentErrors b s2)
  | Outcome.fault => Outcome.fault
  | Outcome.timeout => Outcome.timeout

/-- The `for` loop of `operator()` (line 175).  The counter argument is the
number of values of `i` still below `_maxIterations`. -/
def searchLoop [DecidableEq V] (env : Env σ T V P) (fuel : Nat) (debug : Bool)
    (bestFriendFilter : Int) :
    Nat → Best T → RansacState σ V P → Outcome (Best T × RansacState σ V P)
  | 0, b, s => Outcome.ok (b, s)
  | remaining + 1, b, s =>
    match s.indices[0]? with
    | none => Outcome.fault
    | some i0 =>
      if i0 > (env.n : Int) - (s.indices.length : Int) then Outcome.ok (b, s)
      else
        match iteration env fuel debug bestFriendFilter b s with
        | Outcome.ok (true, b1, s1) => searchLoop env fuel debug bestFriendFilter remaining b1 s1
        | Outcome.ok (false, b1, s1) => Outcome.ok (b1, s1)
        | Outcome.fault => Outcome.fault
        | Outcome.timeout => Outcome.timeout

/-- Lines 169-174 of `operator()`: the incumbent before the `for` loop. -/
def initialBest (env : Env σ T V P) (treturn : T) : Best T :=
  { bestInliers := [], bestError := env.dblMax, bestTransform := treturn,
    transformFound := false }

/-- What a call of `operator()` leaves behind: the return value, the
arguments `treturn` and `inliers_` passed by reference, and the object. -/
structure CallResult (σ T V P : Type) where
  /-- The value returned. -/
  returned : Bool
  /-- The argument `treturn` on return. -/
  treturn : T
  /-- The argument `inliers_` on return. -/
  inliers : List Int
  /-- The object and graph on return. -/
  state : RansacState σ V P

/-- Lines 399-409 of `operator()`: what happens after the `for` loop. -/
def finish (env : Env σ T V P) (b : Best T) (s : RansacState σ V P) :
    Outcome (CallResult σ T V P) :=
  let ts : T × RansacState σ V P :=
    if b.transformFound = true then
      let r := env.solver s.ext b.bestTransform b.bestInliers
      (r.2.1, { s with ext := r.2.2, trace := s.trace ++ [Event.refine b.bestInliers r.1] })
    else (b.bestTransform, s)
  if env.cleanupOk = true then
    Outcome.ok { returned := b.transformFound, treturn := ts.1, inliers := b.bestInliers,
                 state := ts.2 }
  else Outcome.fault

/-- The method `GeneralizedRansac::operator()` (lines 163-410), called with
the arguments `treturn`, `inliers_`, `debug` and `bestFriendFilter` on an
object in state `s`. -/
def operator [DecidableEq V] (env : Env σ T V P) (fuel : Nat) (treturn : T)
    (inliers_ : List Int) (debug : Bool) (bestFriendFilter : Int) (s : RansacState σ V P) :
    Outcome (CallResult σ T V P) :=
  if (env.n : Int) < env.minimalSetSize then
    Outcome.ok { returned := false, treturn := treturn, inliers := inliers_, state := s }
  else
    match env.initIndices with
    | none => Outcome.fault
    | some idx =>
      match searchLoop env fuel debug bestFriendFilter env.maxIterations.toNat
          (initialBest env treturn) { s with indices := idx } with
      | Outcome.ok (b, s1) => finish env b s1
      | Outcome.fault => Outcome.fault
      | Outcome.timeout => Outcome.timeout

end Ransac

/-! ## Definitions: cylindrical point projector (`cylindricalpointprojector.cpp`) -/

/-- An Eigen matrix used as an image: its dimensions and its coefficients.
Only the coefficients inside the dimensions are meaningful. -/
structure Image (α : Type) where
  /-- The value of `rows()`. -/
  rows : Nat
  /-- The value of `cols()`. -/
  cols : Nat
  /-- The value of `coeffRef(x,y)`. -/
  coeff : Int → Int → α

/-- The method `resize(rows, cols)`; the coefficients it leaves are not
specified and are overwritten by `fill` before they are read. -/
def Image.resize {α : Type} (im : Image α) (rows cols : Nat) : Image α :=
  { im with rows := rows, cols := cols }

/-- The method `fill(v)`: every coefficient becomes `v`. -/
def Image.fill {α : Type} (im : Image α) (v : α) : Image α :=
  { im with coeff := fun _ _ => v }

/-- Assignment through `coeffRef(x,y)`. -/
def Image.set {α : Type} (im : Image α) (x y : Int) (v : α) : Image α :=
  { im with coeff := fun a b => if a = x ∧ b = y then v else im.coeff a b }

/-- The members of a `CylindricalPointProjector` read by `project`.  `Pt` is
the type of points, `D` the type of depths (`float`, ordered by `<`). -/
structure CylindricalPointProjector (Pt D : Type) where
  /-- The member `_minDistance`. -/
  minDistance : D
  /-- The member `_maxDistance`. -/
  maxDistance : D
  /-- The value of `std::numeric_limits<float>::max()`. -/
  floatMax : D
  /-- The inline method `_project(x, y, d, p)` (defined in the header, outside
  the sources at hand): `none` when it returns false, else the values written
  to `x`, `y` and `d`. -/
  _project : Pt → Option (Int × Int × D)

section Projector

variable {Pt D : Type} [LinearOrder D]

/-- The body of the loop of `project` (lines 59-72) for point number `i`. -/
def projectPoint (pp : CylindricalPointProjector Pt D) (i : Nat) (p : Pt)
    (im : Image Int × Image D) : Image Int × Image D :=
  match pp._project p with
  | none => im
  | some (x, y, d) =>
    if d < pp.minDistance ∨ d > pp.maxDistance ∨
        x < 0 ∨ x ≥ (im.1.rows : Int) ∨ y < 0 ∨ y ≥ (im.1.cols : Int) then im
    else if im.2.coeff x y > d then (im.1.set x y (i : Int), im.2.set x y d)
    else im

/-- The loop of `project` (line 58) from point number `i` on. -/
def projectLoop (pp : CylindricalPointProjector Pt D) :
    Nat → List Pt → Image Int × Image D → Image Int × Image D
  | _, [], im => im
  | i, p :: ps, im => projectLoop pp (i + 1) ps (projectPoint pp i p im)

/-- The method `CylindricalPointProjector::project(indexImage, depthImage, points)`
(lines 51-74); the result is the pair of `indexImage` and `depthImage` on
return. -/
def project (pp : CylindricalPointProjector Pt D) (indexImage : Image Int)
    (depthImage : Image D) (points : List Pt) : Image Int × Image D :=
  projectLoop pp 0 points
    (indexImage.fill (-1),
     (depthImage.resize indexImage.rows indexImage.cols).fill pp.floatMax)

/-- Point `p` projects successfully to pixel `(x, y)` of a `rows × cols`
image with depth `d` inside `[minDistance, maxDistance]`. -/
def ProjectsTo (pp : CylindricalPointProjector Pt D) (rows cols : Nat) (p : Pt)
    (x y : Int) (d : D) : Prop :=
  pp._project p = some (x, y, d) ∧ pp.minDistance ≤ d ∧ d ≤ pp.maxDistance ∧
    0 ≤ x ∧ x < (rows : Int) ∧ 0 ≤ y ∧ y < (cols : Int)

end Projector

/-! ## Definitions: back-projection (`cylindricalpointprojector.cpp`) -/

/-- A `Gaussian3f`: its mean and its covariance matrix. -/
structure Gaussian3f (D : Type) where
  /-- The mean. -/
  mean : Fin 3 → D
  /-- The covariance matrix. -/
  covariance : Matrix (Fin 3) (Fin 3) D

/-- The members of a `CylindricalPointProjector` read by the two `unProject`
methods.  A `Point` is a vector of four coefficients. -/
structure BackProjector (D : Type) where
  /-- The inline method `_unProject(p, x, y, d)` (defined in the header,
  outside the sources at hand): `none` when it returns false, else the point
  written to `p`. -/
  _unProject : Int → Int → D → Option (Fin 4 → D)
  /-- The member `_baseline`. -/
  _baseline : D
  /-- The member `_alpha`. -/
  _alpha : D
  /-- The member `_cameraMatrix`. -/
  _cameraMatrix : Matrix (Fin 3) (Fin 3) D
  /-- The member `_iK`. -/
  _iK : Matrix (Fin 3) (Fin 3) D

/-- The loop variables of `unProject(points, indexImage, depthImage)`: the
part of `points` written so far (the vector is written at the cursor `point`
and cut to `count` elements at the end), `indexImage`, and `count`. -/
structure UnProjectState (D : Type) where
  /-- The elements of `points` before the cursor `point`. -/
  points : List (Fin 4 → D)
  /-- The image `indexImage`. -/
  indexImage : Image Int
  /-- The local `count`. -/
  count : Nat

/-- The loop variables of the `unProject` that also produces Gaussians. -/
structure UnProjectGaussianState (D : Type) where
  /-- The elements of `points` before the cursor `point`. -/
  points : List (Fin 4 → D)
  /-- The elements of `gaussians` before the cursor `gaussian`. -/
  gaussians : List (Gaussian3f D)
  /-- The image `indexImage`. -/
  indexImage : Image Int
  /-- The local `count`. -/
  count : Nat

section BackProjection

variable {D : Type}

/-- The Eigen expression `head<3>()` of a point. -/
def head3 (p : Fin 4 → D) : Fin 3 → D :=
  fun i => p i.castSucc

/-- The body of the inner loop of `unProject(points, indexImage, depthImage)`
(lines 103-110) at pixel `(r, c)`. -/
def unProjectPixel (bp : BackProjector D) (depthImage : Image D) (c : Nat)
    (st : UnProjectState D) (r : Nat) : UnProjectState D :=
  match bp._unProject (r : Int) (c : Int) (depthImage.coeff (r : Int) (c : Int)) with
  | none => { st with indexImage := st.indexImage.set (r : Int) (c : Int) (-1) }
  | some p =>
    { points := st.points ++ [p]
      indexImage := st.indexImage.set (r : Int) (c : Int) (st.count : Int)
      count := st.count + 1 }

/-- The method `unProject(points, indexImage, depthImage)` (lines 91-114); the
result is the pair of `points` and `indexImage` on return.  The content of
`points` at the call is dropped by the two `resize`. -/
def unProject (bp : BackProjector D) (_points : List (Fin 4 → D)) (indexImage : Image Int)
    (depthImage : Image D) : List (Fin 4 → D) × Image Int :=
  let st0 : UnProjectState D :=
    { points := [], indexImage := indexImage.resize depthImage.rows depthImage.cols, count := 0 }
  let st := (List.range depthImage.cols).foldl
    (fun st c => (List.range depthImage.rows).foldl (unProjectPixel bp depthImage c) st) st0
  (st.points, st.indexImage)

variable [Field D]

/-- The local `zVariation` of line 138 for depth `z`. -/
def zVariation (bp : BackProjector D) (z : D) : D :=
  (bp._alpha * z * z) / (bp._baseline * bp._cameraMatrix 0 0 + z * bp._alpha)

/-- The local `imageCovariance` of line 144 for depth `z`. -/
def imageCovariance (bp : BackProjector D) (z : D) : Matrix (Fin 3) (Fin 3) D :=
  Matrix.diagonal ![1, 1, zVariation bp z]

/-- The matrix `J` after line 143 at pixel `(r, c)` with depth `z`. -/
def pixelJacobian (bp : BackProjector D) (r c : Nat) (z : D) : Matrix (Fin 3) (Fin 3) D :=
  bp._iK * !![z, 0, (r : D); 0, z, (c : D); 0, 0, 1]

/-- The Gaussian written at line 146 for the point `p` back-projected from
pixel `(r, c)` with depth `z`. -/
def pixelGaussian (bp : BackProjector D) (r c : Nat) (z : D) (p : Fin 4 → D) : Gaussian3f D :=
  { mean := head3 p
    covariance := pixelJacobian bp r c z * imageCovariance bp z *
      (pixelJacobian bp r c z).transpose }

/-- The body of the inner loop of the `unProject` with Gaussians (lines
133-151) at pixel `(r, c)`. -/
def unProjectGaussianPixel (bp : BackProjector D) (depthImage : Image D) (c : Nat)
    (st : UnProjectGaussianState D) (r : Nat) : UnProjectGaussianState D :=
  match bp._unProject (r : Int) (c : Int) (depthImage.coeff (r : Int) (c : Int)) with
  | none => { st with indexImage := st.indexImage.set (r : Int) (c : Int) (-1) }
  | some p =>
    { points := st.points ++ [p]
      gaussians := st.gaussians ++
        [pixelGaussian bp r c (depthImage.coeff (r : Int) (c : Int)) p]
      indexImage := st.indexImage.set (r : Int) (c : Int) (st.count : Int)
      count := st.count + 1 }

/-- The method `unProject(points, gaussians, indexImage, depthImage)` (lines
116-156); the result is `points`, `gaussians` and `indexImage` on return. -/
def unProjectGaussian (bp : BackProjector D) (_points : List (Fin 4 → D))
    (_gaussians : List (Gaussian3f D)) (indexImage : Image Int) (depthImage : Image D) :
    List (Fin 4 → D) × List (Gaussian3f D) × Image Int :=
  let st0 : UnProjectGaussianState D :=
    { points := [], gaussians := []
      indexImage := indexImage.resize depthImage.rows depthImage.cols, count := 0 }
  let st := (List.range depthImage.cols).foldl
    (fun st c => (List.range depthImage.rows).foldl (unProjectGaussianPixel bp depthImage c) st)
    st0
  (st.points, st.gaussians, st.indexImage)

end BackProjection

/-! ## Definitions: homogeneous transforms (`linearizer.h`, `_updateMatrices`) -/

section Transforms

variable {D : Type}

/-- The assignment `m.block<1, 4>(3, 0) << 0, 0, 0, 1` on a 4 by 4 matrix. -/
def setLastRow [Zero D] [One D] (m : Matrix (Fin 4) (Fin 4) D) : Matrix (Fin 4) (Fin 4) D :=
  fun i j => if i = 3 then (if j = 3 then 1 else 0) else m i j

/-- The part of a `Linearizer` that `setT` and `T` touch: the member `_T`. -/
structure Linearizer (D : Type) where
  /-- The matrix of the member `_T`. -/
  _T : Matrix (Fin 4) (Fin 4) D

/-- The method `Linearizer::setT` (lines 62-65 of `linearizer.h`). -/
def Linearizer.setT [Zero D] [One D] (l : Linearizer D) (T_ : Matrix (Fin 4) (Fin 4) D) :
    Linearizer D :=
  { l with _T := setLastRow T_ }

/-- The method `Linearizer::T` (line 55 of `linearizer.h`). -/
def Linearizer.T (l : Linearizer D) : Matrix (Fin 4) (Fin 4) D :=
  l._T

/-- The matrix members of a `CylindricalPointProjector` read and written by
`_updateMatrices`. -/
structure ProjectorMatrices (D : Type) where
  /-- The matrix of the member `_transform`. -/
  _transform : Matrix (Fin 4) (Fin 4) D
  /-- The member `_cameraMatrix`. -/
  _cameraMatrix : Matrix (Fin 3) (Fin 3) D
  /-- The matrix of the member `_iT`. -/
  _iT : Matrix (Fin 4) (Fin 4) D
  /-- The member `_iK`. -/
  _iK : Matrix (Fin 3) (Fin 3) D
  /-- The member `_KR`. -/
  _KR : Matrix (Fin 3) (Fin 3) D
  /-- The member `_Kt`. -/
  _Kt : Fin 3 → D
  /-- The member `_iKR`. -/
  _iKR : Matrix (Fin 3) (Fin 3) D
  /-- The member `_iKt`. -/
  _iKt : Fin 3 → D
  /-- The member `_KRt`. -/
  _KRt : Matrix (Fin 4) (Fin 4) D
  /-- The member `_iKRt`. -/
  _iKRt : Matrix (Fin 4) (Fin 4) D

/-- The Eigen expression `linear()` of a transform: its upper left 3 by 3
block. -/
def linear (m : Matrix (Fin 4) (Fin 4) D) : Matrix (Fin 3) (Fin 3) D :=
  fun i j => m i.castSucc j.castSucc

/-- The Eigen expression `translation()` of a transform: the first three
coefficients of its last column. -/
def translation (m : Matrix (Fin 4) (Fin 4) D) : Fin 3 → D :=
  fun i => m i.castSucc 3

/-- The assignment `m.block<3, 3>(0, 0) = b`. -/
def setBlock33 (m : Matrix (Fin 4) (Fin 4) D) (b : Matrix (Fin 3) (Fin 3) D) :
    Matrix (Fin 4) (Fin 4) D :=
  fun i j => if h : i.val < 3 ∧ j.val < 3 then b ⟨i.val, h.1⟩ ⟨j.val, h.2⟩ else m i j

/-- The assignment `m.block<3, 1>(0, 3) = v`. -/
def setBlock31 (m : Matrix (Fin 4) (Fin 4) D) (v : Fin 3 → D) : Matrix (Fin 4) (Fin 4) D :=
  fun i j => if h : i.val < 3 ∧ j = 3 then v ⟨i.val, h.1⟩ else m i j

/-- The method `CylindricalPointProjector::_updateMatrices` (lines 23-37).
The Eigen operations `Isometry3f::inverse()` and `Matrix3f::inverse()` are the
parameters `transformInverse` and `matrixInverse`. -/
def _updateMatrices [CommRing D]
    (transformInverse : Matrix (Fin 4) (Fin 4) D → Matrix (Fin 4) (Fin 4) D)
    (matrixInverse : Matrix (Fin 3) (Fin 3) D → Matrix (Fin 3) (Fin 3) D)
    (p : ProjectorMatrices D) : ProjectorMatrices D :=
  let iT := setLastRow (transformInverse p._transform)
  let iK := matrixInverse p._cameraMatrix
  let KR := p._cameraMatrix * linear iT
  let Kt := p._cameraMatrix.mulVec (translation iT)
  let iKR := linear p._transform * iK
  let iKt := translation p._transform
  { p with
    _iT := iT
    _iK := iK
    _KR := KR
    _Kt := Kt
    _iKR := iKR
    _iKt := iKt
    _KRt := setBlock31 (setBlock33 1 KR) Kt
    _iKRt := setBlock31 (setBlock33 1 iKR) iKt }

/-- The 4 by 4 matrix `[M | v; 0 0 0 1]` with upper left block `M`, last
column `v` in its first three rows, and last row `[0,0,0,1]`. -/
def homogeneous [Zero D] [One D] (M : Matrix (Fin 3) (Fin 3) D) (v : Fin 3 → D) :
    Matrix (Fin 4) (Fin 4) D :=
  !![M 0 0, M 0 1, M 0 2, v 0;
     M 1 0, M 1 1, M 1 2, v 1;
     M 2 0, M 2 1, M 2 2, v 2;
     0, 0, 0, 1]

/-- Modelled from the spec: the member `_transform` is declared in the header
of the projector, outside the sources at hand.  The spec describes the sensor
offset as a rigid transform, and the sources at hand hold such transforms in
an `Eigen::Isometry3f` (line 134 of `linearizer.h`, line 174 of
`pwn_gui.cpp`).  On that type the Eigen operation `inverse()` transposes the
linear part: for the transform with linear part `R` and translation `t` it
returns `[Rᵀ | -Rᵀ t; 0 0 0 1]`. -/
def isometryInverse [CommRing D] (m : Matrix (Fin 4) (Fin 4) D) : Matrix (Fin 4) (Fin 4) D :=
  homogeneous (linear m).transpose (-((linear m).transpose.mulVec (translation m)))

end Transforms

/-! ## Definitions: correspondences (`ransac.h`, lines 18-27) -/

/-- A `Correspondence`: the members `_edge` and `_score`.  `E` is the type of
edge pointers, `D` the type of scores (`double`, ordered by `<`). -/
structure Correspondence (E D : Type) where
  /-- The member `_edge`. -/
  _edge : E
  /-- The member `_score`. -/
  _score : D

/-- The method `Correspondence::score` (line 22). -/
def Correspondence.score {E D : Type} (c : Correspondence E D) : D :=
  c._score

/-- The method `Correspondence::operator<` (line 23): `score()>c2.score()`. -/
def Correspondence.operatorLess {E D : Type} [LinearOrder D] (c c2 : Correspondence E D) : Bool :=
  decide (c.score > c2.score)

/-! ## Notions used to state the properties -/

/-- The value produced by a run, if it produced one. -/
def Outcome.toOption {α : Type} : Outcome α → Option α
  | Outcome.ok a => some a
  | _ => none

/-- The index vectors passed to the minimal-set solver by `computeMinimalSet`
(line 141), in the order of the calls. -/
def solveCalls : List Event → List (List Int)
  | [] => []
  | Event.solve i _ :: tr => i :: solveCalls tr
  | _ :: tr => solveCalls tr

/-- Number of calls of the minimal-set solver by `computeMinimalSet` (line
141) that returned true, that is, the number of hypotheses produced. -/
def hypothesesFound : List Event → Nat
  | [] => 0
  | Event.solve _ true :: tr => hypothesesFound tr + 1
  | _ :: tr => hypothesesFound tr

/-- Whether an event is the refinement call of line 404. -/
def Event.isRefine : Event → Bool
  | Event.refine _ _ => true
  | _ => false

/-- Index vectors `J` and `I` agree on positions `0..k`. -/
def AgreeUpTo (k : Nat) (J I : List Int) : Prop :=
  ∀ i, i ≤ k → J[i]? = I[i]?

/-- Every call of the solver in `tr` is preceded, for every depth `j` below
`m`, by an accepting validation at depth `j` (in `ctx` or earlier in `tr`) on
an index vector that agrees with the solver's on positions `0..j`. -/
def SolvesJustified (m : Int) (ctx tr : List Event) : Prop :=
  ∀ pre I r post, tr = pre ++ Event.solve I r :: post →
    ∀ j : Nat, (j : Int) < m →
      ∃ J, Event.validate j J true ∈ ctx ++ pre ∧ AgreeUpTo j J I

section RansacNotions

variable {σ T V P : Type}

/-- The error `chi2()` of correspondence `k` recomputed under hypothesis `t`:
the error of its edge when the estimate of its second vertex is replaced by
`t` applied to it. -/
def chi2Under [DecidableEq V] (env : Env σ T V P) (t : T) (est : V → P) (k : Nat) : ℚ :=
  env.chi2 k (Function.update est (env.vertex2 k) (env.act t (est (env.vertex2 k))))

/-- The correspondence positions `0 ≤ k < n` whose recomputed error is
strictly below `inlierErrorThreshold`, in increasing order. -/
def inlierPositions [DecidableEq V] (env : Env σ T V P) (t : T) (est : V → P) : List Nat :=
  (List.range env.n).filter (fun k => decide (chi2Under env t est k < env.inlierErrorThreshold))

/-- The `for` loop of `operator()`, started in the first configuration (number of
iterations left, incumbent, object state), arrives at the head of the loop
in the second configuration after zero or more complete iterations. -/
inductive LoopReaches [DecidableEq V] (env : Env σ T V P) (fuel : Nat) (debug : Bool)
    (bestFriendFilter : Int) :
    Nat × Best T × RansacState σ V P → Nat × Best T × RansacState σ V P → Prop where
  /-- No iteration. -/
  | here (x : Nat × Best T × RansacState σ V P) : LoopReaches env fuel debug bestFriendFilter x x
  /-- One iteration that passes the loop test and does not `break`, then more. -/
  | step (remaining : Nat) (b b1 : Best T) (s s1 : RansacState σ V P) (i0 : Int)
      (y : Nat × Best T × RansacState σ V P) :
      s.indices[0]? = some i0 → ¬ i0 > (env.n : Int) - (s.indices.length : Int) →
      iteration env fuel debug bestFriendFilter b s = Outcome.ok (true, b1, s1) →
      LoopReaches env fuel debug bestFriendFilter (remaining, b1, s1) y →
      LoopReaches env fuel debug bestFriendFilter (remaining + 1, b, s) y

end RansacNotions

/-- Membership in `ProjectsTo` can be computed. -/
instance instDecidableProjectsTo {Pt D : Type} [LinearOrder D]
    (pp : CylindricalPointProjector Pt D) (rows cols : Nat) (p : Pt) (x y : Int) (d : D) :
    Decidable (ProjectsTo pp rows cols p x y d) := by
  unfold ProjectsTo
  infer_instance

/-- The pixels `(r, c)` of a `rows × cols` image in the order of the two
nested loops of `unProject`: column after column, rows increasing inside a
column. -/
def scanOrder (rows cols : Nat) : List (Nat × Nat) :=
  (List.range cols).flatMap (fun c => (List.range rows).map (fun r => (r, c)))

/-- Number of elements of the list that satisfy `ok` and stand before the
first occurrence of `x`. -/
def successesBefore {α : Type} [DecidableEq α] (ok : α → Bool) : List α → α → Nat
  | [], _ => 0
  | a :: l, x => if a = x then 0 else (if ok a then 1 else 0) + successesBefore ok l x

/-- The per-pixel back-projection of pixel `q = (r, c)` at the depth the depth
image holds there. -/
def backProjection {D : Type} (bp : BackProjector D) (depthImage : Image D) (q : Nat × Nat) :
    Option (Fin 4 → D) :=
  bp._unProject (q.1 : Int) (q.2 : Int) (depthImage.coeff (q.1 : Int) (q.2 : Int))

/-- A vector is arranged by a comparison `less` the way `std::sort` leaves
it: no element is `less` than an element that stands before it. -/
def ArrangedBy {α : Type} (less : α → α → Bool) (l : List α) : Prop :=
  List.Pairwise (fun a b => less b a = false) l

/-- Lexicographic order on index vectors: `lexLess I J` is true when `I`
stands strictly before `J`, that is, at the first position where they differ
`I` has the smaller entry (or `I` is a proper initial part of `J`). -/
def lexLess : List Int → List Int → Bool
  | [], [] => false
  | [], _ :: _ => true
  | _ :: _, [] => false
  | a :: l, b :: l' => decide (a < b) || (decide (a = b) && lexLess l l')

/-! ## Concrete inputs -/

/-- A RANSAC object over integer estimates: vertex `k` is the second vertex
of correspondence `k`, a transform `t` shifts an estimate by `t`, the error of
correspondence `k` is the absolute value of the estimate of vertex `k`, and
the solver `solve` maps an index vector to its result and the transform it
leaves. -/
def exampleEnv (n : Nat) (m maxIter : Int) (accept : List Int → Nat → Bool)
    (solve : List Int → Bool × Int) (init : List Int) : Env Unit Int Nat Int :=
  { n := n, minimalSetSize := m, maxIterations := maxIter,
    inlierErrorThreshold := 1, inlierStopFraction := 1 / 2, dblMax := 1000,
    validators := fun _ idx k => (accept idx k, ()),
    solver := fun _ _ idx => ((solve idx).1, (solve idx).2, ()),
    defaultTransform := 0,
    vertex2 := fun k => k,
    act := fun t p => t + p,
    chi2 := fun k est => ((est k).natAbs : ℚ),
    keepBestFriend := fun _ l => l,
    initIndices := some init,
    cleanupOk := true }

/-- An object state with index vector `idx`, empty trace, and estimates `-5`
for vertices 0, 1, 2 and `0` for the others. -/
def exampleState (idx : List Int) : RansacState Unit Nat Int :=
  { indices := idx, errors := [], est := fun k => if k < 3 then -5 else 0, ext := (),
    trace := [] }

/-- Four correspondences, minimal sets of size 2, everything accepted and
solved with transform `5`. -/
def envOk : Env Unit Int Nat Int :=
  exampleEnv 4 2 10 (fun _ _ => true) (fun _ => (true, 5)) [0, 1]

/-- As `envOk`, but the solver leaves transform `0` on the minimal set `[0,1]`
and transform `5` on every other one. -/
def envTwoRounds : Env Unit Int Nat Int :=
  exampleEnv 4 2 10 (fun _ _ => true) (fun idx => (true, if idx = [0, 1] then 0 else 5)) [0, 1]

/-- No correspondence, minimal sets of size 1. -/
def envDegenerate : Env Unit Int Nat Int :=
  exampleEnv 0 1 10 (fun _ _ => true) (fun _ => (true, 5)) [0]

/-- Three correspondences, minimal sets of size 2; the validators reject at
depth 0 every index vector that starts with 0; the solver always fails. -/
def envRejectFirst : Env Unit Int Nat Int :=
  exampleEnv 3 2 10 (fun idx k => !(k == 0 && idx.head? == some 0)) (fun _ => (false, 5)) [0, 1]

/-- Four correspondences, minimal sets of size 3, everything accepted, the
solver always fails. -/
def envAllFail : Env Unit Int Nat Int :=
  exampleEnv 4 3 10 (fun _ _ => true) (fun _ => (false, 5)) [0, 1, 2]

/-- Three correspondences, minimal sets of size 2, `_maxIterations = 1`,
everything accepted, the solver always fails. -/
def envCapOne : Env Unit Int Nat Int :=
  exampleEnv 3 2 1 (fun _ _ => true) (fun _ => (false, 5)) [0, 1]

/-- The object state after `computeMinimalSet(t, 0)` on `envOk` from
`exampleState [0, 1]`. -/
def exampleHypothesisState : RansacState Unit Nat Int :=
  { exampleState [0, 2] with
    trace := [Event.validate 0 [0, 1] true, Event.validate 1 [0, 1] true,
      Event.solve [0, 1] true] }

/-- The state after `computeMinimalSet(t, 0)` on `envRejectFirst` from
`exampleState [0, 1]`. -/
def exampleRejectState : RansacState Unit Nat Int :=
  { exampleState [3, 4] with
    trace := [Event.validate 0 [0, 1] false, Event.validate 0 [1, 1] true,
      Event.validate 1 [1, 1] true, Event.solve [1, 1] false, Event.validate 1 [1, 2] true,
      Event.solve [1, 2] false, Event.validate 0 [2, 3] true] }

/-- The scoring of hypothesis `5` on `envOk`. -/
def exampleScore : Score Nat Int :=
  scoreHypothesis envOk false 5 exampleHypothesisState.est

/-- What `operator()` leaves on `envOk` from `exampleState []`. -/
def exampleCallResult : CallResult Unit Int Nat Int :=
  { returned := true
    treturn := 5
    inliers := [0, 1, 2]
    state :=
      { indices := [0, 2]
        errors := exampleScore.currentErrors
        est := exampleScore.est
        ext := ()
        trace := [Event.validate 0 [0, 1] true, Event.validate 1 [0, 1] true,
          Event.solve [0, 1] true, Event.refine [0, 1, 2] true] } }

/-- The object state after the first iteration of the `for` loop on
`envTwoRounds` from `exampleState [0, 1]`: hypothesis `0` has a single inlier
and is dropped. -/
def exampleFirstRoundState : RansacState Unit Nat Int :=
  { indices := [0, 2]
    errors := []
    est := (scoreHypothesis envTwoRounds false 0 (exampleState []).est).est
    ext := ()
    trace := [Event.validate 0 [0, 1] true, Event.validate 1 [0, 1] true,
      Event.solve [0, 1] true] }

/-- The object state after the second call of `computeMinimalSet(t, 0)` on
`envTwoRounds`. -/
def exampleSecondRoundState : RansacState Unit Nat Int :=
  { exampleFirstRoundState with
    indices := [1, 2]
    trace := [Event.validate 0 [0, 1] true, Event.validate 1 [0, 1] true,
      Event.solve [0, 1] true, Event.validate 0 [0, 2] true, Event.validate 1 [0, 2] true,
      Event.solve [0, 2] true] }

/-- The scoring of the second hypothesis, `5`, on `envTwoRounds`. -/
def exampleSecondScore : Score Nat Int :=
  scoreHypothesis envTwoRounds false 5 exampleSecondRoundState.est

/-- A projector over points that carry their own pixel and depth; a point of
depth 0 does not project.  Valid depths are 1 to 10, the sentinel is 100. -/
def exampleProjector : CylindricalPointProjector (Int × Int × Int) Int :=
  { minDistance := 1, maxDistance := 10, floatMax := 100,
    _project := fun p => if p.2.2 = 0 then none else some p }

/-- A 2 by 2 image of zeros. -/
def exampleImage : Image Int := { rows := 2, cols := 2, coeff := fun _ _ => 0 }

/-- As `envOk`, but with inlier threshold 0: no correspondence is ever an
inlier. -/
def envNoInliers : Env Unit Int Nat Int :=
  { envOk with inlierErrorThreshold := 0 }

/-- One correspondence, minimal sets of size 1, everything accepted and
solved; the error of the correspondence is always 1000, which is also the
value standing for `std::numeric_limits<double>::max()`; the inlier threshold
2000 lies above it and the stop fraction is negative. -/
def envEmptySuccess : Env Unit Int Nat Int :=
  { exampleEnv 1 1 10 (fun _ _ => true) (fun _ => (true, 5)) [0] with
    inlierErrorThreshold := 2000
    inlierStopFraction := -1
    chi2 := fun _ _ => 1000 }

/-- A back-projector over the rationals: pixel `(x, y)` with depth `d` gives
the point `(x, y, d, 1)`, depth 0 does not back-project; baseline 2, alpha 3,
identity camera matrix. -/
def exampleBackProjector : BackProjector ℚ :=
  { _unProject := fun x y d => if d = 0 then none else some ![(x : ℚ), (y : ℚ), d, 1]
    _baseline := 2
    _alpha := 3
    _cameraMatrix := 1
    _iK := 1 }

/-- A 2 by 2 depth image with depth 0 at pixel (0,0) and depth 5 elsewhere. -/
def exampleDepthImage : Image ℚ :=
  { rows := 2, cols := 2, coeff := fun x y => if x = 0 ∧ y = 0 then 0 else 5 }

/-- Two correspondences with scores 1 and 2, in this order. -/
def exampleCorrespondences : List (Correspondence Unit Int) :=
  [{ _edge := (), _score := 1 }, { _edge := (), _score := 2 }]

/-- An object state with empty index vector and trace, and estimates `-5` for
vertices 0 and 1 and `-3` for the others. -/
def exampleMixedState : RansacState Unit Nat Int :=
  { indices := [], errors := [], est := fun k => if k < 2 then -5 else -3, ext := (),
    trace := [] }

/-- Four correspondences, minimal sets of size 2, everything accepted; the
solver leaves transform `5` on the minimal set `[0,1]` and transform `4` on
every other one; the inlier threshold is 2.  On `exampleMixedState` transform
`5` gives the errors 0, 0, 2, 2 and transform `4` the errors 1, 1, 1, 1. -/
def envMoreInliers : Env Unit Int Nat Int :=
  { exampleEnv 4 2 10 (fun _ _ => true) (fun idx => (true, if idx = [0, 1] then 5 else 4)) [0, 1]
    with inlierErrorThreshold := 2 }

/-- The incumbent on `envMoreInliers` after the first iteration of the `for`
loop: hypothesis `5` with its two inliers. -/
def exampleIncumbent : Best Int :=
  { bestInliers := (scoreHypothesis envMoreInliers false 5 exampleMixedState.est).inliers
    bestError := (scoreHypothesis envMoreInliers false 5 exampleMixedState.est).error /
      ((scoreHypothesis envMoreInliers false 5 exampleMixedState.est).inliers.length : ℚ)
    bestTransform := 5
    transformFound := true }

/-- The object state on `envMoreInliers` after the first iteration of the
`for` loop. -/
def exampleIncumbentState : RansacState Unit Nat Int :=
  { indices := [0, 2]
    errors := (scoreHypothesis envMoreInliers false 5 exampleMixedState.est).currentErrors
    est := (scoreHypothesis envMoreInliers false 5 exampleMixedState.est).est
    ext := ()
    trace := [Event.validate 0 [0, 1] true, Event.validate 1 [0, 1] true,
      Event.solve [0, 1] true] }

/-- The object state on `envMoreInliers` after the second call of
`computeMinimalSet(t, 0)`. -/
def exampleChallengerState : RansacState Unit Nat Int :=
  { exampleIncumbentState with
    indices := [1, 2]
    trace := [Event.validate 0 [0, 1] true, Event.validate 1 [0, 1] true,
      Event.solve [0, 1] true, Event.validate 0 [0, 2] true, Event.validate 1 [0, 2] true,
      Event.solve [0, 2] true] }

/-- The inverse of the camera matrix of `exampleProjectorMatrices`, whatever
the argument. -/
def exampleCameraInverse (_ : Matrix (Fin 3) (Fin 3) ℚ) : Matrix (Fin 3) (Fin 3) ℚ :=
  !![1 / 2, 0, -1 / 2; 0, 1 / 2, -1 / 2; 0, 0, 1]

/-- A projector whose sensor transform is a quarter turn about the third axis
followed by the translation `(1, 2, 3)`, with focal length 2 and principal
point `(1, 1)`; the cached matrices are all zero. -/
def exampleProjectorMatrices : ProjectorMatrices ℚ :=
  { _transform := homogeneous !![0, -1, 0; 1, 0, 0; 0, 0, 1] ![1, 2, 3]
    _cameraMatrix := !![2, 0, 1; 0, 2, 1; 0, 0, 1]
    _iT := 0, _iK := 0, _KR := 0, _Kt := 0, _iKR := 0, _iKt := 0, _KRt := 0, _iKRt := 0 }

/-- The projector `exampleProjectorMatrices` after `_updateMatrices`. -/
def exampleUpdatedMatrices : ProjectorMatrices ℚ :=
  _updateMatrices isometryInverse exampleCameraInverse exampleProjectorMatrices

/-- As `exampleProjectorMatrices`, but the linear part of the sensor transform
is the stretch `diag(2, 1, 1)`: invertible, not a rotation. -/
def exampleStretchedMatrices : ProjectorMatrices ℚ :=
  { exampleProjectorMatrices with
    _transform := homogeneous !![2, 0, 0; 0, 1, 0; 0, 0, 1] ![1, 2, 3] }

/-! ## Auxiliary facts: the search of `computeMinimalSet` -/

section SearchFacts

variable {σ T V P : Type}

/-- Induction over the runs of the `while` loop of `computeMinimalSet` that
produce a result: a relation between the configuration at the loop head and
the result holds for every run once it holds when the loop exits and is
carried backwards over each of the three shapes of an iteration (validation
rejected, solver called at the last depth, recursive call). -/
theorem computeMinimalSetLoop_induct (env : Env σ T V P)
    (R : Nat → Bool → T → RansacState σ V P → Bool × T × RansacState σ V P → Prop)
    (hexit : ∀ k tf t s ik, s.indices[k]? = some ik → ¬ (ik < (env.n : Int) ∧ tf = false) →
      R k tf t s (tf, t, s))
    (hreject : ∀ k t s ik res, s.indices[k]? = some ik → ik < (env.n : Int) →
      (validateCorrespondences env k s).1 = false →
      (∃ fuel, computeMinimalSetLoop env fuel k false t
        ((validateCorrespondences env k s).2.setIndex k (ik + 1)) = Outcome.ok res) →
      R k false t ((validateCorrespondences env k s).2.setIndex k (ik + 1)) res →
      R k false t s res)
    (hsolve : ∀ k t s ik res, s.indices[k]? = some ik → ik < (env.n : Int) →
      (validateCorrespondences env k s).1 = true → (k : Int) = env.minimalSetSize - 1 →
      (∃ fuel, computeMinimalSetLoop env fuel k
          (alignmentAlgorithm env t (validateCorrespondences env k s).2).1
          (alignmentAlgorithm env t (validateCorrespondences env k s).2).2.1
          ((alignmentAlgorithm env t (validateCorrespondences env k s).2).2.2.setIndex k (ik + 1))
          = Outcome.ok res) →
      R k (alignmentAlgorithm env t (validateCorrespondences env k s).2).1
          (alignmentAlgorithm env t (validateCorrespondences env k s).2).2.1
          ((alignmentAlgorithm env t (validateCorrespondences env k s).2).2.2.setIndex k (ik + 1))
          res →
      R k false t s res)
    (hrec : ∀ k t s ik ik1 found t3 s3 jk1 jk res, s.indices[k]? = some ik →
      ik < (env.n : Int) →
      (validateCorrespondences env k s).1 = true → (k : Int) ≠ env.minimalSetSize - 1 →
      (validateCorrespondences env k s).2.indices[k + 1]? = some ik1 →
      (∃ fuel, computeMinimalSetLoop env fuel (k + 1) false t
        (if ik1 < ik then (validateCorrespondences env k s).2.setIndex (k + 1) (ik + 1)
          else (validateCorrespondences env k s).2) = Outcome.ok (found, t3, s3)) →
      R (k + 1) false t
        (if ik1 < ik then (validateCorrespondences env k s).2.setIndex (k + 1) (ik + 1)
          else (validateCorrespondences env k s).2) (found, t3, s3) →
      s3.indices[k + 1]? = some jk1 → s3.indices[k]? = some jk →
      (∃ fuel, computeMinimalSetLoop env fuel k found t3 (carry env k jk1 jk s3)
        = Outcome.ok res) →
      R k found t3 (carry env k jk1 jk s3) res →
      R k false t s res) :
    ∀ fuel k tf t s res,
      computeMinimalSetLoop env fuel k tf t s = Outcome.ok res → R k tf t s res := by
  intro fuel
  induction fuel with
  | zero => intro k tf t s res h; simp [computeMinimalSetLoop] at h
  | succ fuel ih =>
    intro k tf t s res h
    rw [computeMinimalSetLoop] at h
    cases hk : s.indices[k]? with
    | none => simp [hk] at h
    | some ik =>
      simp only [hk] at h
      by_cases hc : ik < (env.n : Int) ∧ tf = false
      · obtain ⟨hlt, htf⟩ := hc
        subst htf
        simp only [hlt, and_self, if_true] at h
        by_cases hv : (validateCorrespondences env k s).1 = false
        · simp only [hv, if_true] at h
          exact hreject k t s ik res hk hlt hv ⟨fuel, h⟩ (ih _ _ _ _ _ h)
        · simp only [hv, if_false] at h
          have hv' : (validateCorrespondences env k s).1 = true := by simpa using hv
          by_cases hm : (k : Int) = env.minimalSetSize - 1
          · simp only [hm, if_true] at h
            exact hsolve k t s ik res hk hlt hv' hm ⟨fuel, h⟩ (ih _ _ _ _ _ h)
          · simp only [hm, if_false] at h
            cases hk1 : (validateCorrespondences env k s).2.indices[k + 1]? with
            | none => simp [hk1] at h
            | some ik1 =>
              simp only [hk1] at h
              cases hcall : computeMinimalSetLoop env fuel (k + 1) false t
                  (if ik1 < ik then (validateCorrespondences env k s).2.setIndex (k + 1) (ik + 1)
                    else (validateCorrespondences env k s).2) with
              | fault => simp [hcall] at h
              | timeout => simp [hcall] at h
              | ok r =>
                obtain ⟨found, t3, s3⟩ := r
                simp only [hcall] at h
                cases hj1 : s3.indices[k + 1]? with
                | none => simp [hj1] at h
                | some jk1 =>
                  cases hj : s3.indices[k]? with
                  | none => simp [hj1, hj] at h
                  | some jk =>
                    simp only [hj1, hj] at h
                    exact hrec k t s ik ik1 found t3 s3 jk1 jk res hk hlt hv' hm hk1
                      ⟨fuel, hcall⟩ (ih _ _ _ _ _ hcall) hj1 hj ⟨fuel, h⟩ (ih _ _ _ _ _ h)
      · simp only [hc, if_false] at h
        cases h
        exact hexit k tf t s ik hk hc

/-- Assigning an index changes the index vector at that position. -/
@[simp] theorem setIndex_indices (s : RansacState σ V P) (k : Nat) (v : Int) :
    (s.setIndex k v).indices = s.indices.set k v := rfl

/-- Assigning an index adds no event. -/
@[simp] theorem setIndex_trace (s : RansacState σ V P) (k : Nat) (v : Int) :
    (s.setIndex k v).trace = s.trace := rfl

/-- Assigning an index leaves the vertex estimates alone. -/
@[simp] theorem setIndex_est (s : RansacState σ V P) (k : Nat) (v : Int) :
    (s.setIndex k v).est = s.est := rfl

/-- Assigning an index leaves `_errors` alone. -/
@[simp] theorem setIndex_errors (s : RansacState σ V P) (k : Nat) (v : Int) :
    (s.setIndex k v).errors = s.errors := rfl

/-- Calling the validators leaves the index vector alone. -/
@[simp] theorem validate_indices (env : Env σ T V P) (k : Nat) (s : RansacState σ V P) :
    (validateCorrespondences env k s).2.indices = s.indices := rfl

/-- Calling the validators leaves the vertex estimates alone. -/
@[simp] theorem validate_est (env : Env σ T V P) (k : Nat) (s : RansacState σ V P) :
    (validateCorrespondences env k s).2.est = s.est := rfl

/-- Calling the validators leaves `_errors` alone. -/
@[simp] theorem validate_errors (env : Env σ T V P) (k : Nat) (s : RansacState σ V P) :
    (validateCorrespondences env k s).2.errors = s.errors := rfl

/-- Calling the validators adds one validation event. -/
theorem validate_trace (env : Env σ T V P) (k : Nat) (s : RansacState σ V P) :
    (validateCorrespondences env k s).2.trace =
      s.trace ++ [Event.validate k s.indices (validateCorrespondences env k s).1] := rfl

/-- Calling the solver leaves the index vector alone. -/
@[simp] theorem solver_indices (env : Env σ T V P) (t : T) (s : RansacState σ V P) :
    (alignmentAlgorithm env t s).2.2.indices = s.indices := rfl

/-- Calling the solver leaves the vertex estimates alone. -/
@[simp] theorem solver_est (env : Env σ T V P) (t : T) (s : RansacState σ V P) :
    (alignmentAlgorithm env t s).2.2.est = s.est := rfl

/-- Calling the solver leaves `_errors` alone. -/
@[simp] theorem solver_errors (env : Env σ T V P) (t : T) (s : RansacState σ V P) :
    (alignmentAlgorithm env t s).2.2.errors = s.errors := rfl

/-- Calling the solver from the search adds one solve event. -/
theorem solver_trace (env : Env σ T V P) (t : T) (s : RansacState σ V P) :
    (alignmentAlgorithm env t s).2.2.trace =
      s.trace ++ [Event.solve s.indices (alignmentAlgorithm env t s).1] := rfl

/-- Lines 152-155 add no event. -/
@[simp] theorem carry_trace (env : Env σ T V P) (k : Nat) (a b : Int) (s : RansacState σ V P) :
    (carry env k a b s).trace = s.trace := by
  unfold carry; split <;> rfl

/-- Lines 152-155 leave the vertex estimates alone. -/
@[simp] theorem carry_est (env : Env σ T V P) (k : Nat) (a b : Int) (s : RansacState σ V P) :
    (carry env k a b s).est = s.est := by
  unfold carry; split <;> rfl

/-- Lines 152-155 leave `_errors` alone. -/
@[simp] theorem carry_errors (env : Env σ T V P) (k : Nat) (a b : Int) (s : RansacState σ V P) :
    (carry env k a b s).errors = s.errors := by
  unfold carry; split <;> rfl

/-- Lines 152-155 keep the length of the index vector. -/
@[simp] theorem carry_length (env : Env σ T V P) (k : Nat) (a b : Int) (s : RansacState σ V P) :
    (carry env k a b s).indices.length = s.indices.length := by
  unfold carry; split <;> simp

/-- Lines 152-155 at depth `k` leave the positions below `k` alone. -/
theorem carry_get_lt (env : Env σ T V P) (k : Nat) (a b : Int) (s : RansacState σ V P)
    (j : Nat) (hj : j < k) : (carry env k a b s).indices[j]? = s.indices[j]? := by
  unfold carry
  split
  · simp only [setIndex_indices]
    rw [List.getElem?_set_ne (by omega), List.getElem?_set_ne (by omega)]
  · rfl

/-- The number of hypotheses of a concatenated trace is the sum. -/
theorem hypothesesFound_append (a b : List Event) :
    hypothesesFound (a ++ b) = hypothesesFound a + hypothesesFound b := by
  induction a with
  | nil => simp [hypothesesFound]
  | cons e a ih =>
    cases e with
    | validate k i r => simp [hypothesesFound, ih]
    | refine i r => simp [hypothesesFound, ih]
    | solve i r =>
      cases r
      · simp [hypothesesFound, ih]
      · simp [hypothesesFound, ih]; omega

/-- Frame of the search loop: the trace grows by validation and solve events
only; it contains one successful solve exactly when the loop turns
`transformFound` from false to true; the loop never resets `transformFound`;
vertex estimates and `_errors` are untouched. -/
theorem computeMinimalSetLoop_trace (env : Env σ T V P) (fuel k : Nat) (tf : Bool) (t : T)
    (s : RansacState σ V P) (res : Bool × T × RansacState σ V P)
    (h : computeMinimalSetLoop env fuel k tf t s = Outcome.ok res) :
    ∃ tr, res.2.2.trace = s.trace ++ tr ∧ (∀ e ∈ tr, e.isRefine = false) ∧
      hypothesesFound tr = (if res.1 = true ∧ tf = false then 1 else 0) ∧
      (tf = true → res.1 = true) ∧
      res.2.2.est = s.est ∧ res.2.2.errors = s.errors := by
  refine computeMinimalSetLoop_induct env
    (fun _ tf _ s res => ∃ tr, res.2.2.trace = s.trace ++ tr ∧ (∀ e ∈ tr, e.isRefine = false) ∧
      hypothesesFound tr = (if res.1 = true ∧ tf = false then 1 else 0) ∧
      (tf = true → res.1 = true) ∧
      res.2.2.est = s.est ∧ res.2.2.errors = s.errors) ?_ ?_ ?_ ?_ fuel k tf t s res h
  · intro k tf t s ik _ hc
    refine ⟨[], by simp, by simp, ?_, by simp, rfl, rfl⟩
    cases tf <;> simp [hypothesesFound]
  · intro k t s ik res _ _ hv _ ⟨tr, h1, h2, h3, _, h5, h6⟩
    refine ⟨Event.validate k s.indices false :: tr, ?_, ?_, ?_, by simp, ?_, ?_⟩
    · rw [h1, setIndex_trace, validate_trace, hv]; simp
    · intro e he
      rcases List.mem_cons.mp he with rfl | he
      · rfl
      · exact h2 e he
    · simpa [hypothesesFound] using h3
    · simpa using h5
    · simpa using h6
  · intro k t s ik res _ _ hv _ _ ⟨tr, h1, h2, h3, h4, h5, h6⟩
    refine ⟨Event.validate k s.indices true ::
      Event.solve s.indices (alignmentAlgorithm env t (validateCorrespondences env k s).2).1 :: tr,
      ?_, ?_, ?_, by simp, ?_, ?_⟩
    · rw [h1, setIndex_trace, solver_trace, validate_trace, hv]; simp
    · intro e he
      rcases List.mem_cons.mp he with rfl | he
      · rfl
      · rcases List.mem_cons.mp he with rfl | he
        · rfl
        · exact h2 e he
    · cases hr : (alignmentAlgorithm env t (validateCorrespondences env k s).2).1
      · simp only [hr] at h3
        simpa [hypothesesFound] using h3
      · have hres : res.1 = true := h4 hr
        simp only [hr] at h3
        simp [hypothesesFound, hres] at h3 ⊢
        exact h3
    · simpa using h5
    · simpa using h6
  · intro k t s ik ik1 found t3 s3 jk1 jk res _ _ hv _ _ _ ⟨tr1, a1, a2, a3, _, a5, a6⟩ _ _ _
      ⟨tr2, b1, b2, b3, b4, b5, b6⟩
    refine ⟨Event.validate k s.indices true :: (tr1 ++ tr2), ?_, ?_, ?_, by simp, ?_, ?_⟩
    · rw [b1, carry_trace, a1]
      have : (if ik1 < ik then (validateCorrespondences env k s).2.setIndex (k + 1) (ik + 1)
          else (validateCorrespondences env k s).2).trace
            = s.trace ++ [Event.validate k s.indices true] := by
        split
        · rw [setIndex_trace, validate_trace, hv]
        · rw [validate_trace, hv]
      rw [this]; simp
    · intro e he
      rcases List.mem_cons.mp he with rfl | he
      · rfl
      · rcases List.mem_append.mp he with he | he
        · exact a2 e he
        · exact b2 e he
    · simp only [hypothesesFound, hypothesesFound_append, a3, b3]
      cases found
      · simp
      · have := b4 rfl
        simp [this]
    · rw [b5, carry_est, a5]; split <;> simp
    · rw [b6, carry_errors, a6]; split <;> simp

/-- The search at depth `k` keeps the length of the index vector and never
writes the positions below `k`. -/
theorem computeMinimalSetLoop_indices (env : Env σ T V P) (fuel k : Nat) (tf : Bool) (t : T)
    (s : RansacState σ V P) (res : Bool × T × RansacState σ V P)
    (h : computeMinimalSetLoop env fuel k tf t s = Outcome.ok res) :
    res.2.2.indices.length = s.indices.length ∧
      ∀ j, j < k → res.2.2.indices[j]? = s.indices[j]? := by
  refine computeMinimalSetLoop_induct env
    (fun k _ _ s res => res.2.2.indices.length = s.indices.length ∧
      ∀ j, j < k → res.2.2.indices[j]? = s.indices[j]?) ?_ ?_ ?_ ?_ fuel k tf t s res h
  · intro k tf t s ik _ _
    exact ⟨rfl, fun _ _ => rfl⟩
  · intro k t s ik res _ _ _ _ ⟨h1, h2⟩
    refine ⟨by simpa using h1, fun j hj => ?_⟩
    rw [h2 j hj]
    simp only [setIndex_indices, validate_indices]
    exact List.getElem?_set_ne (by omega)
  · intro k t s ik res _ _ _ _ _ ⟨h1, h2⟩
    refine ⟨by simpa using h1, fun j hj => ?_⟩
    rw [h2 j hj]
    simp only [setIndex_indices, validate_indices, solver_indices]
    exact List.getElem?_set_ne (by omega)
  · intro k t s ik ik1 found t3 s3 jk1 jk res _ _ _ _ _ _ ⟨a1, a2⟩ _ _ _ ⟨b1, b2⟩
    have hs2 : (if ik1 < ik then (validateCorrespondences env k s).2.setIndex (k + 1) (ik + 1)
          else (validateCorrespondences env k s).2).indices.length = s.indices.length ∧
        ∀ j, j < k + 1 →
          (if ik1 < ik then (validateCorrespondences env k s).2.setIndex (k + 1) (ik + 1)
            else (validateCorrespondences env k s).2).indices[j]? = s.indices[j]? := by
      split
      · refine ⟨by simp, fun j hj => ?_⟩
        simp only [setIndex_indices, validate_indices]
        exact List.getElem?_set_ne (by omega)
      · exact ⟨by simp, fun j _ => by simp⟩
    refine ⟨?_, fun j hj => ?_⟩
    · rw [b1, carry_length, a1, hs2.1]
    · rw [b2 j hj, carry_get_lt env k jk1 jk s3 j hj, a2 j (by omega), hs2.2 j (by omega)]

/-- An empty trace calls no solver. -/
theorem solvesJustified_nil (m : Int) (ctx : List Event) : SolvesJustified m ctx [] := by
  intro pre I r post h
  simp at h

/-- Justification of solver calls composes along concatenation of traces. -/
theorem solvesJustified_append (m : Int) (ctx tr1 tr2 : List Event)
    (h1 : SolvesJustified m ctx tr1) (h2 : SolvesJustified m (ctx ++ tr1) tr2) :
    SolvesJustified m ctx (tr1 ++ tr2) := by
  intro pre I r post h j hj
  rcases List.append_eq_append_iff.mp h with ⟨a, ha, hb⟩ | ⟨c, ha, hb⟩
  · obtain ⟨J, hJ, hag⟩ := h2 a I r post hb j hj
    refine ⟨J, ?_, hag⟩
    rw [ha, ← List.append_assoc]; exact hJ
  · cases c with
    | nil =>
      simp only [List.append_nil] at ha
      simp only [List.nil_append] at hb
      obtain ⟨J, hJ, hag⟩ := h2 [] I r post hb.symm j hj
      refine ⟨J, ?_, hag⟩
      rw [← ha]; simpa using hJ
    | cons e c =>
      simp only [List.cons_append, List.cons.injEq] at hb
      obtain ⟨rfl, -⟩ := hb
      exact h1 pre I r c ha j hj

/-- A single validation event calls no solver. -/
theorem solvesJustified_validate (m : Int) (ctx : List Event) (k : Nat) (J : List Int) (b : Bool) :
    SolvesJustified m ctx [Event.validate k J b] := by
  intro pre I r post h
  cases pre with
  | nil => simp at h
  | cons e pre => simp at h

/-- A single solver call is justified when the context holds the accepting
validations for its index vector. -/
theorem solvesJustified_solve (m : Int) (ctx : List Event) (I : List Int) (r : Bool)
    (h : ∀ j : Nat, (j : Int) < m → ∃ J, Event.validate j J true ∈ ctx ∧ AgreeUpTo j J I) :
    SolvesJustified m ctx [Event.solve I r] := by
  intro pre I' r' post he j hj
  cases pre with
  | nil =>
    simp only [List.nil_append, List.cons.injEq, Event.solve.injEq] at he
    obtain ⟨⟨rfl, rfl⟩, -⟩ := he
    simpa using h j hj
  | cons e pre => simp at he

/-- Agreement up to `k` transfers to a vector with the same first `k+1` entries. -/
theorem agreeUpTo_of_get (k : Nat) (J I I' : List Int) (h : AgreeUpTo k J I)
    (h' : ∀ j, j < k + 1 → I'[j]? = I[j]?) : AgreeUpTo k J I' := by
  intro i hi
  rw [h i hi, h' i (by omega)]

/-- Every solver call made by the search at depth `k` is justified, provided
the context already holds accepting validations for the depths below `k` on the
current index vector. -/
theorem computeMinimalSetLoop_justified (env : Env σ T V P) (fuel k : Nat) (tf : Bool) (t : T)
    (s : RansacState σ V P) (res : Bool × T × RansacState σ V P)
    (h : computeMinimalSetLoop env fuel k tf t s = Outcome.ok res) :
    ∀ ctx : List Event,
      (∀ j, j < k → ∃ J, Event.validate j J true ∈ ctx ∧ AgreeUpTo j J s.indices) →
      ∀ tr, res.2.2.trace = s.trace ++ tr → SolvesJustified env.minimalSetSize ctx tr := by
  refine computeMinimalSetLoop_induct env
    (fun k _ _ s res => ∀ ctx : List Event,
      (∀ j, j < k → ∃ J, Event.validate j J true ∈ ctx ∧ AgreeUpTo j J s.indices) →
      ∀ tr, res.2.2.trace = s.trace ++ tr → SolvesJustified env.minimalSetSize ctx tr)
    ?_ ?_ ?_ ?_ fuel k tf t s res h
  · intro k tf t s ik _ _ ctx _ tr htr
    have : tr = [] := by simpa using htr
    subst this
    exact solvesJustified_nil _ _
  · intro k t s ik res _ _ hv ⟨f, hrun⟩ ih ctx hctx tr htr
    obtain ⟨tr', h1, -⟩ := computeMinimalSetLoop_trace env f k false t _ res hrun
    rw [setIndex_trace, validate_trace, hv, List.append_assoc] at h1
    have : tr = [Event.validate k s.indices false] ++ tr' :=
      List.append_cancel_left (htr.symm.trans h1)
    subst this
    refine solvesJustified_append _ _ _ _ (solvesJustified_validate _ _ _ _ _) ?_
    refine ih _ ?_ tr' ?_
    · intro j hj
      obtain ⟨J, hJ, hag⟩ := hctx j hj
      refine ⟨J, List.mem_append_left _ hJ, agreeUpTo_of_get j J s.indices _ hag ?_⟩
      intro i hi
      simp only [setIndex_indices, validate_indices]
      exact List.getElem?_set_ne (by omega)
    · rw [h1, setIndex_trace, validate_trace, hv, List.append_assoc]
  · intro k t s ik res _ _ hv hm ⟨f, hrun⟩ ih ctx hctx tr htr
    obtain ⟨tr', h1, -⟩ := computeMinimalSetLoop_trace env f k _ _ _ res hrun
    rw [setIndex_trace, solver_trace, validate_trace, hv, validate_indices, List.append_assoc,
      List.append_assoc] at h1
    have : tr = [Event.validate k s.indices true] ++
        ([Event.solve s.indices (alignmentAlgorithm env t (validateCorrespondences env k s).2).1]
          ++ tr') :=
      List.append_cancel_left (htr.symm.trans h1)
    subst this
    refine solvesJustified_append _ _ _ _ (solvesJustified_validate _ _ _ _ _) ?_
    refine solvesJustified_append _ _ _ _ (solvesJustified_solve _ _ _ _ ?_) ?_
    · intro j hj
      by_cases hjk : j < k
      · obtain ⟨J, hJ, hag⟩ := hctx j hjk
        exact ⟨J, List.mem_append_left _ hJ, hag⟩
      · have : j = k := by omega
        subst this
        exact ⟨s.indices, by simp, fun _ _ => rfl⟩
    · refine ih _ ?_ tr' ?_
      · intro j hj
        obtain ⟨J, hJ, hag⟩ := hctx j hj
        refine ⟨J, List.mem_append_left _ (List.mem_append_left _ hJ),
          agreeUpTo_of_get j J s.indices _ hag ?_⟩
        intro i hi
        simp only [setIndex_indices, validate_indices, solver_indices]
        exact List.getElem?_set_ne (by omega)
      · rw [h1, setIndex_trace, solver_trace, validate_trace, hv, validate_indices,
          List.append_assoc, List.append_assoc]
  · intro k t s ik ik1 found t3 s3 jk1 jk res _ _ hv _ _ ⟨f1, hrun1⟩ ih1 _ _ ⟨f2, hrun2⟩ ih2
      ctx hctx tr htr
    obtain ⟨tr1, a1, -⟩ := computeMinimalSetLoop_trace env f1 _ _ _ _ _ hrun1
    obtain ⟨tr2, b1, -⟩ := computeMinimalSetLoop_trace env f2 _ _ _ _ _ hrun2
    obtain ⟨-, a2⟩ := computeMinimalSetLoop_indices env f1 _ _ _ _ _ hrun1
    have hs2t : (if ik1 < ik then (validateCorrespondences env k s).2.setIndex (k + 1) (ik + 1)
          else (validateCorrespondences env k s).2).trace
            = s.trace ++ [Event.validate k s.indices true] := by
      split
      · rw [setIndex_trace, validate_trace, hv]
      · rw [validate_trace, hv]
    have hs2i : ∀ j, j < k + 1 →
          (if ik1 < ik then (validateCorrespondences env k s).2.setIndex (k + 1) (ik + 1)
            else (validateCorrespondences env k s).2).indices[j]? = s.indices[j]? := by
      split
      · intro j hj
        simp only [setIndex_indices, validate_indices]
        exact List.getElem?_set_ne (by omega)
      · intro j _; simp
    simp only at a1 a2 b1
    rw [hs2t] at a1
    rw [carry_trace, a1, List.append_assoc, List.append_assoc] at b1
    have : tr = [Event.validate k s.indices true] ++ (tr1 ++ tr2) :=
      List.append_cancel_left (htr.symm.trans b1)
    subst this
    refine solvesJustified_append _ _ _ _ (solvesJustified_validate _ _ _ _ _) ?_
    refine solvesJustified_append _ _ _ _ ?_ ?_
    · refine ih1 _ ?_ tr1 ?_
      · intro j hj
        by_cases hjk : j < k
        · obtain ⟨J, hJ, hag⟩ := hctx j hjk
          refine ⟨J, List.mem_append_left _ hJ, agreeUpTo_of_get j J s.indices _ hag ?_⟩
          intro i hi
          exact hs2i i (by omega)
        · have : j = k := by omega
          subst this
          refine ⟨s.indices, by simp, ?_⟩
          intro i hi
          exact (hs2i i (by omega)).symm
      · simp only; rw [a1, hs2t]
    · refine ih2 _ ?_ tr2 ?_
      · intro j hj
        obtain ⟨J, hJ, hag⟩ := hctx j hj
        refine ⟨J, List.mem_append_left _ (List.mem_append_left _ hJ),
          agreeUpTo_of_get j J s.indices _ hag ?_⟩
        intro i hi
        rw [carry_get_lt env k jk1 jk s3 i (by omega), a2 i (by omega), hs2i i (by omega)]
      · rw [b1, carry_trace, a1, List.append_assoc, List.append_assoc]

/-- Every validation event recorded by the search carries the value the
validators returned on the recorded index vector and depth. -/
theorem computeMinimalSetLoop_truthful (env : Env σ T V P) (fuel k : Nat) (tf : Bool) (t : T)
    (s : RansacState σ V P) (res : Bool × T × RansacState σ V P)
    (h : computeMinimalSetLoop env fuel k tf t s = Outcome.ok res) :
    ∀ tr, res.2.2.trace = s.trace ++ tr →
      ∀ j J b, Event.validate j J b ∈ tr → ∃ x, (env.validators x J j).1 = b := by
  refine computeMinimalSetLoop_induct env
    (fun _ _ _ s res => ∀ tr, res.2.2.trace = s.trace ++ tr →
      ∀ j J b, Event.validate j J b ∈ tr → ∃ x, (env.validators x J j).1 = b)
    ?_ ?_ ?_ ?_ fuel k tf t s res h
  · intro k tf t s ik _ _ tr htr j J b hmem
    have : tr = [] := by simpa using htr
    subst this
    simp at hmem
  · intro k t s ik res _ _ hv ⟨f, hrun⟩ ih tr htr j J b hmem
    obtain ⟨tr', h1, -⟩ := computeMinimalSetLoop_trace env f k false t _ res hrun
    have h1' := h1
    rw [setIndex_trace, validate_trace, List.append_assoc] at h1
    have : tr = [Event.validate k s.indices (validateCorrespondences env k s).1] ++ tr' :=
      List.append_cancel_left (htr.symm.trans h1)
    subst this
    rcases List.mem_append.mp hmem with hm | hm
    · simp only [List.mem_singleton, Event.validate.injEq] at hm
      obtain ⟨rfl, rfl, rfl⟩ := hm
      exact ⟨s.ext, rfl⟩
    · exact ih tr' h1' j J b hm
  · intro k t s ik res _ _ hv hm ⟨f, hrun⟩ ih tr htr j J b hmem
    obtain ⟨tr', h1, -⟩ := computeMinimalSetLoop_trace env f k _ _ _ res hrun
    have h1' := h1
    rw [setIndex_trace, solver_trace, validate_trace, validate_indices, List.append_assoc,
      List.append_assoc] at h1
    have : tr = [Event.validate k s.indices (validateCorrespondences env k s).1] ++
        ([Event.solve s.indices (alignmentAlgorithm env t (validateCorrespondences env k s).2).1]
          ++ tr') :=
      List.append_cancel_left (htr.symm.trans h1)
    subst this
    rcases List.mem_append.mp hmem with hm | hm
    · simp only [List.mem_singleton, Event.validate.injEq] at hm
      obtain ⟨rfl, rfl, rfl⟩ := hm
      exact ⟨s.ext, rfl⟩
    · rcases List.mem_append.mp hm with hm | hm
      · simp at hm
      · exact ih tr' h1' j J b hm
  · intro k t s ik ik1 found t3 s3 jk1 jk res _ _ hv _ _ ⟨f1, hrun1⟩ ih1 _ _ ⟨f2, hrun2⟩ ih2
      tr htr j J b hmem
    obtain ⟨tr1, a1, -⟩ := computeMinimalSetLoop_trace env f1 _ _ _ _ _ hrun1
    obtain ⟨tr2, b1, -⟩ := computeMinimalSetLoop_trace env f2 _ _ _ _ _ hrun2
    have a1' := a1
    have b1' := b1
    have hs2t : (if ik1 < ik then (validateCorrespondences env k s).2.setIndex (k + 1) (ik + 1)
          else (validateCorrespondences env k s).2).trace
            = s.trace ++ [Event.validate k s.indices (validateCorrespondences env k s).1] := by
      split
      · rw [setIndex_trace, validate_trace]
      · rw [validate_trace]
    simp only at a1 b1
    rw [hs2t] at a1
    rw [carry_trace, a1, List.append_assoc, List.append_assoc] at b1
    have : tr = [Event.validate k s.indices (validateCorrespondences env k s).1] ++ (tr1 ++ tr2) :=
      List.append_cancel_left (htr.symm.trans b1)
    subst this
    rcases List.mem_append.mp hmem with hm | hm
    · simp only [List.mem_singleton, Event.validate.injEq] at hm
      obtain ⟨rfl, rfl, rfl⟩ := hm
      exact ⟨s.ext, rfl⟩
    · rcases List.mem_append.mp hm with hm | hm
      · exact ih1 tr1 a1' j J b hm
      · exact ih2 tr2 b1' j J b hm

/-- The retention test of lines 342-369 adds no event. -/
@[simp] theorem retain_trace (env : Env σ T V P) (t : T) (inl : List Int) (e : ℚ) (ce : List ℚ)
    (b : Best T) (s : RansacState σ V P) : (retain env t inl e ce b s).2.2.trace = s.trace := by
  unfold retain
  by_cases h1 : inl.length > b.bestInliers.length
  · simp only [h1, if_true]
    by_cases h2 : e / (inl.length : ℚ) < b.bestError
    · simp only [h2, if_true]
      split <;> rfl
    · simp only [h2, if_false]
      split <;> rfl
  · simp only [h1, if_false]

/-- The retention test of lines 342-369: the incumbent is overwritten when the
candidate has strictly more inliers and a strictly lower mean error, and is
kept otherwise. -/
theorem retain_spec (env : Env σ T V P) (t : T) (inl : List Int) (e : ℚ) (ce : List ℚ)
    (b : Best T) (s : RansacState σ V P) :
    ((inl.length > b.bestInliers.length ∧ e / (inl.length : ℚ) < b.bestError) →
      (retain env t inl e ce b s).2.1.bestInliers = inl ∧
      (retain env t inl e ce b s).2.1.bestError = e / (inl.length : ℚ) ∧
      (retain env t inl e ce b s).2.1.bestTransform = t ∧
      (retain env t inl e ce b s).2.2.errors = ce) ∧
    (¬ (inl.length > b.bestInliers.length ∧ e / (inl.length : ℚ) < b.bestError) →
      (retain env t inl e ce b s).2.1.bestInliers = b.bestInliers ∧
      (retain env t inl e ce b s).2.1.bestError = b.bestError ∧
      (retain env t inl e ce b s).2.1.bestTransform = b.bestTransform ∧
      (retain env t inl e ce b s).2.2.errors = s.errors) := by
  unfold retain
  by_cases h1 : inl.length > b.bestInliers.length
  · simp only [h1, if_true, true_and]
    by_cases h2 : e / (inl.length : ℚ) < b.bestError
    · simp only [h2, if_true, not_true_eq_false, false_implies, and_true, true_implies]
      split <;> simp
    · simp only [h2, if_false, false_implies, true_and, not_false_eq_true, true_implies]
      split <;> simp
  · simp [h1]

end SearchFacts

/-! ## Auxiliary facts: scoring and the loop of `operator()` -/

section LoopFacts

variable {σ T V P : Type} [DecidableEq V]

/-- One scoring step restores the vertex estimates, appends `k` to the inliers
and adds its error to the sum exactly when the recomputed error is below the
threshold. -/
theorem scoreCorrespondence_spec (env : Env σ T V P) (debug : Bool) (t : T) (k : Nat)
    (a : Score V P) :
    (scoreCorrespondence env debug t k a).est = a.est ∧
    (scoreCorrespondence env debug t k a).inliers =
      (if chi2Under env t a.est k < env.inlierErrorThreshold then a.inliers ++ [(k : Int)]
        else a.inliers) ∧
    (scoreCorrespondence env debug t k a).error =
      (if chi2Under env t a.est k < env.inlierErrorThreshold
        then a.error + chi2Under env t a.est k else a.error) := by
  unfold scoreCorrespondence chi2Under
  by_cases hc : env.chi2 k (Function.update a.est (env.vertex2 k)
      (env.act t (a.est (env.vertex2 k)))) < env.inlierErrorThreshold
  · cases debug <;> simp [hc, Function.update_idem, Function.update_eq_self]
  · simp [hc, Function.update_idem, Function.update_eq_self]

/-- The scoring loop over the first `j` correspondences. -/
theorem scoreFold_spec (env : Env σ T V P) (debug : Bool) (t : T) (a0 : Score V P) (j : Nat) :
    ((List.range j).foldl (fun a k => scoreCorrespondence env debug t k a) a0).est = a0.est ∧
    ((List.range j).foldl (fun a k => scoreCorrespondence env debug t k a) a0).inliers =
      a0.inliers ++ ((List.range j).filter
        (fun k => decide (chi2Under env t a0.est k < env.inlierErrorThreshold))).map
          (fun k : Nat => (k : Int)) ∧
    ((List.range j).foldl (fun a k => scoreCorrespondence env debug t k a) a0).error =
      a0.error + (((List.range j).filter
        (fun k => decide (chi2Under env t a0.est k < env.inlierErrorThreshold))).map
          (chi2Under env t a0.est)).sum := by
  induction j with
  | zero => simp
  | succ j ih =>
    obtain ⟨h1, h2, h3⟩ := ih
    rw [List.range_succ, List.foldl_append, List.filter_append, List.map_append,
      List.map_append, List.sum_append]
    simp only [List.foldl_cons, List.foldl_nil]
    obtain ⟨g1, g2, g3⟩ := scoreCorrespondence_spec env debug t j
      ((List.range j).foldl (fun a k => scoreCorrespondence env debug t k a) a0)
    rw [h1] at g1 g2 g3
    refine ⟨g1, ?_, ?_⟩
    · rw [g2, h2]
      by_cases hc : chi2Under env t a0.est j < env.inlierErrorThreshold
      · simp [hc, List.filter_cons]
      · simp [hc, List.filter_cons]
    · rw [g3, h3]
      by_cases hc : chi2Under env t a0.est j < env.inlierErrorThreshold
      · simp [hc, List.filter_cons, add_assoc]
      · simp [hc, List.filter_cons]

/-- The scoring loop restores the vertex estimates and returns the inlier
positions and the sum of their errors. -/
theorem scoreHypothesis_spec (env : Env σ T V P) (debug : Bool) (t : T) (est : V → P) :
    (scoreHypothesis env debug t est).est = est ∧
    (scoreHypothesis env debug t est).inliers =
      (inlierPositions env t est).map (fun k : Nat => (k : Int)) ∧
    (scoreHypothesis env debug t est).error =
      ((inlierPositions env t est).map (chi2Under env t est)).sum := by
  obtain ⟨h1, h2, h3⟩ := scoreFold_spec env debug t
    { inliers := [], currentErrors := List.replicate env.n 0, error := 0, est := est } env.n
  unfold scoreHypothesis inlierPositions
  refine ⟨h1, ?_, ?_⟩
  · rw [h2]; simp
  · rw [h3]; simp

/-- One iteration of the `for` loop adds validation and solve events only, at
most one of them a successful solve. -/
theorem iteration_trace (env : Env σ T V P) (fuel : Nat) (debug : Bool) (bff : Int)
    (b : Best T) (s : RansacState σ V P) (res : Bool × Best T × RansacState σ V P)
    (h : iteration env fuel debug bff b s = Outcome.ok res) :
    ∃ tr, res.2.2.trace = s.trace ++ tr ∧ (∀ e ∈ tr, e.isRefine = false) ∧
      hypothesesFound tr ≤ 1 := by
  unfold iteration at h
  cases hc : computeMinimalSet env fuel 0 env.defaultTransform s with
  | fault => simp [hc] at h
  | timeout => simp [hc] at h
  | ok r =>
    obtain ⟨found, t, s1⟩ := r
    obtain ⟨tr, h1, h2, h3, -⟩ := computeMinimalSetLoop_trace env fuel 0 false _ s _ hc
    have h3' : hypothesesFound tr ≤ 1 := by rw [h3]; split <;> omega
    cases found with
    | false =>
      simp only [hc, Outcome.ok.injEq] at h
      subst h
      exact ⟨tr, h1, h2, h3'⟩
    | true =>
      simp only [hc] at h
      split at h
      · simp only [Outcome.ok.injEq] at h
        subst h
        exact ⟨tr, h1, h2, h3'⟩
      · simp only [Outcome.ok.injEq] at h
        subst h
        exact ⟨tr, by rw [retain_trace]; exact h1, h2, h3'⟩

/-- The `for` loop adds validation and solve events only, with at most as many
successful solves as iterations allowed. -/
theorem searchLoop_trace (env : Env σ T V P) (fuel : Nat) (debug : Bool) (bff : Int)
    (remaining : Nat) :
    ∀ (b : Best T) (s : RansacState σ V P) (res : Best T × RansacState σ V P),
      searchLoop env fuel debug bff remaining b s = Outcome.ok res →
      ∃ tr, res.2.trace = s.trace ++ tr ∧ (∀ e ∈ tr, e.isRefine = false) ∧
        hypothesesFound tr ≤ remaining := by
  induction remaining with
  | zero =>
    intro b s res h
    simp only [searchLoop, Outcome.ok.injEq] at h
    subst h
    exact ⟨[], by simp, by simp, by simp [hypothesesFound]⟩
  | succ remaining ih =>
    intro b s res h
    rw [searchLoop] at h
    cases hi : s.indices[0]? with
    | none => simp [hi] at h
    | some i0 =>
      simp only [hi] at h
      split at h
      · simp only [Outcome.ok.injEq] at h
        subst h
        exact ⟨[], by simp, by simp, by simp [hypothesesFound]⟩
      · cases hit : iteration env fuel debug bff b s with
        | fault => simp [hit] at h
        | timeout => simp [hit] at h
        | ok r =>
          obtain ⟨c, b1, s1⟩ := r
          obtain ⟨tr1, a1, a2, a3⟩ := iteration_trace env fuel debug bff b s _ hit
          cases c with
          | false =>
            simp only [hit, Outcome.ok.injEq] at h
            subst h
            exact ⟨tr1, a1, a2, by omega⟩
          | true =>
            simp only [hit] at h
            obtain ⟨tr2, b1', b2, b3⟩ := ih b1 s1 res h
            refine ⟨tr1 ++ tr2, ?_, ?_, ?_⟩
            · rw [b1', a1, List.append_assoc]
            · intro e he
              rcases List.mem_append.mp he with he | he
              · exact a2 e he
              · exact b2 e he
            · rw [hypothesesFound_append]; omega

/-- The result of the `for` loop does not change when it is resumed from a
configuration it reaches. -/
theorem loopReaches_searchLoop (env : Env σ T V P) (fuel : Nat) (debug : Bool) (bff : Int)
    (x y : Nat × Best T × RansacState σ V P) (h : LoopReaches env fuel debug bff x y) :
    searchLoop env fuel debug bff x.1 x.2.1 x.2.2 = searchLoop env fuel debug bff y.1 y.2.1 y.2.2 := by
  induction h with
  | here x => rfl
  | step remaining b b1 s s1 i0 y hi hg hit _ ih =>
    rw [← ih]
    simp only
    rw [searchLoop]
    simp only [hi, hg, if_false, hit]

end LoopFacts

/-! ## Auxiliary facts: the projector -/

section ProjectorFacts

variable {Pt D : Type} [LinearOrder D]

/-- Projecting one point keeps the dimensions of both images. -/
theorem projectPoint_dims (pp : CylindricalPointProjector Pt D) (i : Nat) (p : Pt)
    (im : Image Int × Image D) :
    (projectPoint pp i p im).1.rows = im.1.rows ∧ (projectPoint pp i p im).1.cols = im.1.cols ∧
    (projectPoint pp i p im).2.rows = im.2.rows ∧ (projectPoint pp i p im).2.cols = im.2.cols := by
  unfold projectPoint
  split
  · simp
  · split
    · simp
    · split <;> simp [Image.set]

/-- Projecting one point never raises a depth, brings the depth at a pixel
down to the depth of the point when the point projects there, and either
leaves a pixel alone or writes the depth of the point there. -/
theorem projectPoint_pixel (pp : CylindricalPointProjector Pt D) (i : Nat) (p : Pt)
    (im : Image Int × Image D) (x y : Int) :
    (projectPoint pp i p im).2.coeff x y ≤ im.2.coeff x y ∧
    (∀ d, ProjectsTo pp im.1.rows im.1.cols p x y d → (projectPoint pp i p im).2.coeff x y ≤ d) ∧
    (((projectPoint pp i p im).2.coeff x y = im.2.coeff x y ∧
        (projectPoint pp i p im).1.coeff x y = im.1.coeff x y) ∨
      ProjectsTo pp im.1.rows im.1.cols p x y ((projectPoint pp i p im).2.coeff x y)) := by
  unfold projectPoint
  cases hp : pp._project p with
  | none =>
    simp only [le_refl, true_and, and_self, true_or, and_true]
    intro d hd
    simp [ProjectsTo, hp] at hd
  | some r =>
    obtain ⟨x1, y1, d1⟩ := r
    simp only
    by_cases hbad : d1 < pp.minDistance ∨ d1 > pp.maxDistance ∨
        x1 < 0 ∨ x1 ≥ (im.1.rows : Int) ∨ y1 < 0 ∨ y1 ≥ (im.1.cols : Int)
    · simp only [hbad, if_true, le_refl, true_and, and_self, true_or, and_true]
      intro d hd
      obtain ⟨h1, h2, h3, h4, h5, h6, h7⟩ := hd
      rw [hp] at h1
      simp only [Option.some.injEq, Prod.mk.injEq] at h1
      obtain ⟨rfl, rfl, rfl⟩ := h1
      exfalso
      rcases hbad with h | h | h | h | h | h
      · exact absurd h (not_lt.mpr h2)
      · exact absurd h (not_lt.mpr h3)
      · omega
      · omega
      · omega
      · omega
    · simp only [hbad, if_false]
      have hgood : ∀ a b : Int, a = x1 → b = y1 → ProjectsTo pp im.1.rows im.1.cols p a b d1 := by
        intro a b ha hb
        subst ha hb
        simp only [not_or, not_lt, ge_iff_le, gt_iff_lt, not_le] at hbad
        exact ⟨hp, hbad.1, hbad.2.1, hbad.2.2.1, hbad.2.2.2.1, hbad.2.2.2.2.1, hbad.2.2.2.2.2⟩
      have hsame : ∀ d, ProjectsTo pp im.1.rows im.1.cols p x y d → x = x1 ∧ y = y1 ∧ d = d1 := by
        intro d hd
        have h1 := hd.1
        rw [hp] at h1
        simp only [Option.some.injEq, Prod.mk.injEq] at h1
        exact ⟨h1.1.symm, h1.2.1.symm, h1.2.2.symm⟩
      by_cases hcmp : im.2.coeff x1 y1 > d1
      · simp only [hcmp, if_true, Image.set]
        by_cases hxy : x = x1 ∧ y = y1
        · simp only [hxy, and_self, if_true]
          obtain ⟨rfl, rfl⟩ := hxy
          refine ⟨le_of_lt hcmp, ?_, Or.inr (hgood _ _ rfl rfl)⟩
          intro d hd
          exact le_of_eq (hsame d hd).2.2.symm
        · simp only [hxy, if_false, le_refl, true_and, and_self, true_or, and_true]
          intro d hd
          exact absurd ⟨(hsame d hd).1, (hsame d hd).2.1⟩ hxy
      · simp only [hcmp, if_false, le_refl, true_and, and_self, true_or, and_true]
        intro d hd
        obtain ⟨rfl, rfl, rfl⟩ := hsame d hd
        exact not_lt.mp hcmp

/-- The projection loop keeps the dimensions of both images. -/
theorem projectLoop_dims (pp : CylindricalPointProjector Pt D) (ps : List Pt) :
    ∀ (i : Nat) (im : Image Int × Image D),
      (projectLoop pp i ps im).1.rows = im.1.rows ∧ (projectLoop pp i ps im).1.cols = im.1.cols ∧
      (projectLoop pp i ps im).2.rows = im.2.rows ∧ (projectLoop pp i ps im).2.cols = im.2.cols := by
  induction ps with
  | nil => intro i im; simp [projectLoop]
  | cons p ps ih =>
    intro i im
    simp only [projectLoop]
    obtain ⟨h1, h2, h3, h4⟩ := ih (i + 1) (projectPoint pp i p im)
    obtain ⟨g1, g2, g3, g4⟩ := projectPoint_dims pp i p im
    exact ⟨h1.trans g1, h2.trans g2, h3.trans g3, h4.trans g4⟩

/-- The projection loop: the depth at a pixel never rises, ends no larger
than the depth of any point that projects there, and is either untouched
(together with the index) or the depth of a point that projects there. -/
theorem projectLoop_pixel (pp : CylindricalPointProjector Pt D) (x y : Int) (ps : List Pt) :
    ∀ (i : Nat) (im : Image Int × Image D),
      (projectLoop pp i ps im).2.coeff x y ≤ im.2.coeff x y ∧
      (∀ p ∈ ps, ∀ d, ProjectsTo pp im.1.rows im.1.cols p x y d →
        (projectLoop pp i ps im).2.coeff x y ≤ d) ∧
      (((projectLoop pp i ps im).2.coeff x y = im.2.coeff x y ∧
          (projectLoop pp i ps im).1.coeff x y = im.1.coeff x y) ∨
        ∃ p ∈ ps, ProjectsTo pp im.1.rows im.1.cols p x y ((projectLoop pp i ps im).2.coeff x y)) := by
  induction ps with
  | nil => intro i im; simp [projectLoop]
  | cons p ps ih =>
    intro i im
    simp only [projectLoop]
    obtain ⟨h1, h2, h3⟩ := ih (i + 1) (projectPoint pp i p im)
    obtain ⟨g1, g2, g3⟩ := projectPoint_pixel pp i p im x y
    obtain ⟨e1, e2, -, -⟩ := projectPoint_dims pp i p im
    rw [e1, e2] at h2 h3
    refine ⟨h1.trans g1, ?_, ?_⟩
    · intro q hq d hd
      rcases List.mem_cons.mp hq with rfl | hq
      · exact h1.trans (g2 d hd)
      · exact h2 q hq d hd
    · rcases h3 with ⟨h3a, h3b⟩ | ⟨q, hq, hqd⟩
      · rcases g3 with ⟨g3a, g3b⟩ | g3
        · exact Or.inl ⟨h3a.trans g3a, h3b.trans g3b⟩
        · refine Or.inr ⟨p, List.mem_cons_self _ _, ?_⟩
          rw [h3a]; exact g3
      · exact Or.inr ⟨q, List.mem_cons_of_mem _ hq, hqd⟩

end ProjectorFacts

/-! ## Auxiliary facts: termination of the search -/

section SearchTermination

variable {σ T V P : Type}

/-- Writing an entry that exists and reading it back. -/
theorem getElem?_set_self_of_some (l : List Int) (k : Nat) (a b : Int) (h : l[k]? = some a) :
    (l.set k b)[k]? = some b := by
  have hk : k < l.length := by
    rcases Nat.lt_or_ge k l.length with h' | h'
    · exact h'
    · rw [List.getElem?_eq_none h'] at h; cases h
  simp [List.getElem?_set, hk]

/-- A position below the length holds an entry. -/
theorem getElem?_some_of_lt (l : List Int) (k : Nat) (h : k < l.length) : ∃ a, l[k]? = some a :=
  ⟨l[k], List.getElem?_eq_getElem h⟩

/-- A position that holds an entry is below the length. -/
theorem lt_length_of_getElem? (l : List Int) (k : Nat) (a : Int) (h : l[k]? = some a) :
    k < l.length := by
  rcases Nat.lt_or_ge k l.length with h' | h'
  · exact h'
  · rw [List.getElem?_eq_none h'] at h; cases h

/-- Lines 152-155 at depth `k` leave entry `k` alone or raise it by one,
according to their test. -/
theorem carry_get_self (env : Env σ T V P) (k : Nat) (jk1 jk : Int) (s : RansacState σ V P)
    (h : s.indices[k]? = some jk) :
    (carry env k jk1 jk s).indices[k]? =
      some (if jk1 > (env.n : Int) - ((s.indices.length : Int) - (k : Int)) then jk + 1 else jk) := by
  unfold carry
  split
  · simp only [setIndex_indices]
    rw [List.getElem?_set_ne (by omega)]
    exact getElem?_set_self_of_some _ _ _ _ h
  · exact h

/-- Total correctness of the `while` loop of `computeMinimalSet`: at a depth
`k` below `minimalSetSize`, on an index vector of at least `minimalSetSize`
entries, a step budget of `max(0, n - _indices[k]) + 1 + (minimalSetSize - 1 - k)`
is enough for the loop to produce a result; when the result is false entry `k`
has reached `n`; and entry `k` is never lowered. -/
theorem computeMinimalSetLoop_terminates (env : Env σ T V P) :
    ∀ (fuel k : Nat) (tf : Bool) (t : T) (s : RansacState σ V P) (ik : Int),
      (k : Int) ≤ env.minimalSetSize - 1 → env.minimalSetSize ≤ (s.indices.length : Int) →
      s.indices[k]? = some ik →
      (if tf = true then 0 else ((env.n : Int) - ik).toNat) + 1 +
        (env.minimalSetSize - 1 - (k : Int)).toNat ≤ fuel →
      ∃ res, computeMinimalSetLoop env fuel k tf t s = Outcome.ok res ∧
        (res.1 = false → ∀ jk, res.2.2.indices[k]? = some jk → (env.n : Int) ≤ jk) ∧
        (∀ jk, res.2.2.indices[k]? = some jk → ik ≤ jk) := by
  intro fuel
  induction fuel with
  | zero =>
    intro k tf t s ik _ _ _ hf
    omega
  | succ fuel ih =>
    intro k tf t s ik hkm hlen hik hf
    have hklt : k < s.indices.length := lt_length_of_getElem? _ _ _ hik
    rw [computeMinimalSetLoop]
    simp only [hik]
    by_cases hc : ik < (env.n : Int) ∧ tf = false
    · obtain ⟨hlt, htf⟩ := hc
      subst htf
      simp only [hlt, and_self, if_true]
      simp only [Bool.false_eq_true, if_false] at hf
      by_cases hv : (validateCorrespondences env k s).1 = false
      · simp only [hv, if_true]
        obtain ⟨res, hres, p1, p2⟩ := ih k false t
          ((validateCorrespondences env k s).2.setIndex k (ik + 1)) (ik + 1) hkm
          (by simpa using hlen)
          (by simpa using getElem?_set_self_of_some _ _ _ _ hik)
          (by simp only [Bool.false_eq_true, if_false]; omega)
        exact ⟨res, hres, p1, fun jk hjk => by have := p2 jk hjk; omega⟩
      · simp only [hv, if_false]
        by_cases hm : (k : Int) = env.minimalSetSize - 1
        · simp only [hm, if_true]
          obtain ⟨res, hres, p1, p2⟩ := ih k
            (alignmentAlgorithm env t (validateCorrespondences env k s).2).1
            (alignmentAlgorithm env t (validateCorrespondences env k s).2).2.1
            ((alignmentAlgorithm env t (validateCorrespondences env k s).2).2.2.setIndex k
              (ik + 1)) (ik + 1) hkm
            (by simpa using hlen)
            (by simpa using getElem?_set_self_of_some _ _ _ _ hik)
            (by split <;> omega)
          exact ⟨res, hres, p1, fun jk hjk => by have := p2 jk hjk; omega⟩
        · simp only [hm, if_false]
          have hk1 : k + 1 < s.indices.length := by omega
          obtain ⟨ik1, hik1⟩ := getElem?_some_of_lt s.indices (k + 1) hk1
          simp only [validate_indices, hik1]
          -- the state handed to the recursive call
          have hs2 : ∃ s2 : RansacState σ V P,
              s2 = (if ik1 < ik then (validateCorrespondences env k s).2.setIndex (k + 1) (ik + 1)
                else (validateCorrespondences env k s).2) ∧
              s2.indices.length = s.indices.length ∧
              (∃ a, s2.indices[k + 1]? = some a ∧ ik ≤ a) ∧ s2.indices[k]? = some ik := by
            refine ⟨_, rfl, ?_, ?_, ?_⟩
            · split <;> simp
            · split
              · exact ⟨ik + 1, by simpa using getElem?_set_self_of_some _ _ _ _ hik1, by omega⟩
              · exact ⟨ik1, by simpa using hik1, by omega⟩
            · split
              · simp only [setIndex_indices, validate_indices]
                rw [List.getElem?_set_ne (by omega)]; exact hik
              · simpa using hik
          obtain ⟨s2, hs2def, hs2len, ⟨a, ha, hale⟩, hs2k⟩ := hs2
          rw [← hs2def]
          obtain ⟨res3, hres3, q1, -⟩ := ih (k + 1) false t s2 a (by push_cast; omega)
            (by rw [hs2len]; exact hlen) ha
            (by simp only [Bool.false_eq_true, if_false]; push_cast; omega)
          obtain ⟨found, t3, s3⟩ := res3
          obtain ⟨hlen3, hpre3⟩ := computeMinimalSetLoop_indices env fuel (k + 1) false t s2 _ hres3
          simp only at hlen3 hpre3 q1
          have hs3k : s3.indices[k]? = some ik := by rw [hpre3 k (by omega)]; exact hs2k
          obtain ⟨jk1, hjk1⟩ := getElem?_some_of_lt s3.indices (k + 1) (by omega)
          simp only [hres3, hjk1, hs3k]
          have hcarry := carry_get_self env k jk1 ik s3 hs3k
          cases found with
          | false =>
            have hn : (env.n : Int) ≤ jk1 := q1 rfl jk1 hjk1
            have hcond : jk1 > (env.n : Int) - ((s3.indices.length : Int) - (k : Int)) := by
              omega
            simp only [hcond, if_true] at hcarry
            obtain ⟨res, hres, p1, p2⟩ := ih k false t3 (carry env k jk1 ik s3) (ik + 1) hkm
              (by rw [carry_length]; omega) hcarry
              (by simp only [Bool.false_eq_true, if_false]; omega)
            exact ⟨res, hres, p1, fun jk hjk => by have := p2 jk hjk; omega⟩
          | true =>
            obtain ⟨res, hres, p1, p2⟩ := ih k true t3 (carry env k jk1 ik s3) _ hkm
              (by rw [carry_length]; omega) hcarry
              (by simp only [if_true]; omega)
            refine ⟨res, hres, p1, fun jk hjk => ?_⟩
            have := p2 jk hjk
            split at this <;> omega
    · simp only [hc, if_false]
      refine ⟨_, rfl, ?_, ?_⟩
      · intro htf jk hjk
        simp only at htf hjk
        rw [hik] at hjk
        cases hjk
        simp only [htf, and_true, not_lt] at hc
        exact hc
      · intro jk hjk
        simp only at hjk
        rw [hik] at hjk
        cases hjk
        exact le_refl _

/-- The retention test of lines 342-369 leaves the index vector alone. -/
@[simp] theorem retain_indices (env : Env σ T V P) (t : T) (inl : List Int) (e : ℚ)
    (ce : List ℚ) (b : Best T) (s : RansacState σ V P) :
    (retain env t inl e ce b s).2.2.indices = s.indices := by
  unfold retain
  by_cases h1 : inl.length > b.bestInliers.length
  · simp only [h1, if_true]
    by_cases h2 : e / (inl.length : ℚ) < b.bestError
    · simp only [h2, if_true]
      split <;> rfl
    · simp only [h2, if_false]
      split <;> rfl
  · simp only [h1, if_false]

/-- With enough step budget `computeMinimalSet(t, 0)` produces a result, keeps
the length of the index vector and does not lower its first entry. -/
theorem computeMinimalSet_terminates (env : Env σ T V P) (fuel : Nat) (t : T)
    (s : RansacState σ V P) (i0 : Int)
    (hm : 1 ≤ env.minimalSetSize) (hlen : env.minimalSetSize ≤ (s.indices.length : Int))
    (hi0 : s.indices[0]? = some i0)
    (hfuel : ((env.n : Int) - i0).toNat + env.minimalSetSize.toNat ≤ fuel) :
    ∃ found t1 s1, computeMinimalSet env fuel 0 t s = Outcome.ok (found, t1, s1) ∧
      s1.indices.length = s.indices.length ∧ ∃ j0, s1.indices[0]? = some j0 ∧ i0 ≤ j0 := by
  obtain ⟨res, hres, -, p2⟩ := computeMinimalSetLoop_terminates env fuel 0 false t s i0
    (by push_cast; omega) hlen hi0
    (by simp only [Bool.false_eq_true, if_false]; push_cast; omega)
  obtain ⟨found, t1, s1⟩ := res
  obtain ⟨hl, -⟩ := computeMinimalSetLoop_indices env fuel 0 false t s _ hres
  simp only at hl p2
  obtain ⟨j0, hj0⟩ := getElem?_some_of_lt s1.indices 0 (by omega)
  exact ⟨found, t1, s1, hres, hl, j0, hj0, p2 j0 hj0⟩

end SearchTermination

section LoopTermination

variable {σ T V P : Type} [DecidableEq V]

/-- Reachability between configurations of the `for` loop composes. -/
theorem loopReaches_trans (env : Env σ T V P) (fuel : Nat) (debug : Bool) (bff : Int)
    (x y z : Nat × Best T × RansacState σ V P)
    (h1 : LoopReaches env fuel debug bff x y) (h2 : LoopReaches env fuel debug bff y z) :
    LoopReaches env fuel debug bff x z := by
  induction h1 with
  | here x => exact h2
  | step remaining b b1 s s1 i0 y hi hg hit _ ih =>
    exact LoopReaches.step remaining b b1 s s1 i0 z hi hg hit (ih h2)

/-- Reachability extends by one more iteration that does not `break`. -/
theorem loopReaches_snoc (env : Env σ T V P) (fuel : Nat) (debug : Bool) (bff : Int)
    (x : Nat × Best T × RansacState σ V P) (remaining : Nat) (b b1 : Best T)
    (s s1 : RansacState σ V P) (i0 : Int)
    (h : LoopReaches env fuel debug bff x (remaining + 1, b, s))
    (hi : s.indices[0]? = some i0) (hg : ¬ i0 > (env.n : Int) - (s.indices.length : Int))
    (hit : iteration env fuel debug bff b s = Outcome.ok (true, b1, s1)) :
    LoopReaches env fuel debug bff x (remaining, b1, s1) :=
  loopReaches_trans env fuel debug bff _ _ _ h
    (LoopReaches.step remaining b b1 s s1 i0 _ hi hg hit (LoopReaches.here _))

/-- When no hypothesis scored by the `for` loop reaches the minimal inlier
count, the loop ends, given enough step budget, and leaves the incumbent as
it found it. -/
theorem searchLoop_without_inliers (env : Env σ T V P) (fuel : Nat) (debug : Bool) (bff : Int)
    (x : Nat × Best T × RansacState σ V P) (hm : 1 ≤ env.minimalSetSize)
    (hfew : ∀ remaining b s t s1, LoopReaches env fuel debug bff x (remaining + 1, b, s) →
      computeMinimalSet env fuel 0 env.defaultTransform s = Outcome.ok (true, t, s1) →
      ((applyBestFriendFilter env bff (scoreHypothesis env debug t s1.est)).length : Int) <
        env.minimalSetSize) :
    ∀ (remaining : Nat) (b : Best T) (s : RansacState σ V P) (i0 : Int),
      LoopReaches env fuel debug bff x (remaining, b, s) →
      env.minimalSetSize ≤ (s.indices.length : Int) → s.indices[0]? = some i0 →
      ((env.n : Int) - i0).toNat + env.minimalSetSize.toNat ≤ fuel →
      ∃ s1, searchLoop env fuel debug bff remaining b s = Outcome.ok (b, s1) := by
  intro remaining
  induction remaining with
  | zero => intro b s i0 _ _ _ _; exact ⟨s, rfl⟩
  | succ remaining ih =>
    intro b s i0 hreach hlen hi0 hfuel
    rw [searchLoop]
    simp only [hi0]
    by_cases hg : i0 > (env.n : Int) - (s.indices.length : Int)
    · simp only [hg, if_true]; exact ⟨s, rfl⟩
    · simp only [hg, if_false]
      obtain ⟨found, t1, s1, hcall, hl1, j0, hj0, hle⟩ :=
        computeMinimalSet_terminates env fuel env.defaultTransform s i0 hm hlen hi0 hfuel
      have hit : ∃ s2, iteration env fuel debug bff b s = Outcome.ok (true, b, s2) ∧
          s2.indices = s1.indices := by
        unfold iteration
        cases found with
        | false => simp only [hcall]; exact ⟨s1, rfl, rfl⟩
        | true =>
          have := hfew remaining b s t1 s1 hreach hcall
          simp only [hcall, this, if_true]
          exact ⟨_, rfl, rfl⟩
      obtain ⟨s2, hit, hs2⟩ := hit
      simp only [hit]
      exact ih b s2 j0 (loopReaches_snoc env fuel debug bff x remaining b b s s2 i0 hreach hi0 hg hit)
        (by rw [hs2, hl1]; exact hlen) (by rw [hs2]; exact hj0) (by omega)

end LoopTermination

/-! ## Auxiliary facts: the index image of `project` -/

section ProjectorIndexFacts

variable {Pt D : Type} [LinearOrder D]

/-- Projecting one point keeps, at every pixel, the alternative: index -1 and
depth at the sentinel, or index non-negative and depth below the sentinel. -/
theorem projectPoint_sentinel (pp : CylindricalPointProjector Pt D) (i : Nat) (p : Pt)
    (im : Image Int × Image D) (x y : Int)
    (h : (im.1.coeff x y = -1 ∧ im.2.coeff x y = pp.floatMax) ∨
      (0 ≤ im.1.coeff x y ∧ im.2.coeff x y < pp.floatMax)) :
    ((projectPoint pp i p im).1.coeff x y = -1 ∧
        (projectPoint pp i p im).2.coeff x y = pp.floatMax) ∨
      (0 ≤ (projectPoint pp i p im).1.coeff x y ∧
        (projectPoint pp i p im).2.coeff x y < pp.floatMax) := by
  unfold projectPoint
  cases hp : pp._project p with
  | none => exact h
  | some r =>
    obtain ⟨x1, y1, d1⟩ := r
    simp only
    split
    · exact h
    · split
      · rename_i hcmp
        simp only [Image.set]
        by_cases hxy : x = x1 ∧ y = y1
        · simp only [hxy, and_self, if_true]
          obtain ⟨rfl, rfl⟩ := hxy
          refine Or.inr ⟨Int.ofNat_nonneg i, ?_⟩
          rcases h with ⟨-, h2⟩ | ⟨-, h2⟩
          · rw [← h2]; exact hcmp
          · exact lt_trans hcmp h2
        · simp only [hxy, if_false]
          exact h
      · exact h

/-- The projection loop keeps the same alternative at every pixel. -/
theorem projectLoop_sentinel (pp : CylindricalPointProjector Pt D) (x y : Int) (ps : List Pt) :
    ∀ (i : Nat) (im : Image Int × Image D),
      ((im.1.coeff x y = -1 ∧ im.2.coeff x y = pp.floatMax) ∨
        (0 ≤ im.1.coeff x y ∧ im.2.coeff x y < pp.floatMax)) →
      (((projectLoop pp i ps im).1.coeff x y = -1 ∧
          (projectLoop pp i ps im).2.coeff x y = pp.floatMax) ∨
        (0 ≤ (projectLoop pp i ps im).1.coeff x y ∧
          (projectLoop pp i ps im).2.coeff x y < pp.floatMax)) := by
  induction ps with
  | nil => intro i im h; exact h
  | cons p ps ih =>
    intro i im h
    simp only [projectLoop]
    exact ih (i + 1) _ (projectPoint_sentinel pp i p im x y h)

/-- Projecting point number `i` either leaves a pixel alone or writes there
the number `i` and the depth of the point, which projects there. -/
theorem projectPoint_winner (pp : CylindricalPointProjector Pt D) (i : Nat) (p : Pt)
    (im : Image Int × Image D) (x y : Int) :
    ((projectPoint pp i p im).1.coeff x y = im.1.coeff x y ∧
        (projectPoint pp i p im).2.coeff x y = im.2.coeff x y) ∨
      ((projectPoint pp i p im).1.coeff x y = (i : Int) ∧
        ProjectsTo pp im.1.rows im.1.cols p x y ((projectPoint pp i p im).2.coeff x y)) := by
  unfold projectPoint
  cases hp : pp._project p with
  | none => exact Or.inl ⟨rfl, rfl⟩
  | some r =>
    obtain ⟨x1, y1, d1⟩ := r
    simp only
    by_cases hbad : d1 < pp.minDistance ∨ d1 > pp.maxDistance ∨
        x1 < 0 ∨ x1 ≥ (im.1.rows : Int) ∨ y1 < 0 ∨ y1 ≥ (im.1.cols : Int)
    · simp [hbad]
    · simp only [hbad, if_false]
      split
      · simp only [Image.set]
        by_cases hxy : x = x1 ∧ y = y1
        · simp only [hxy, and_self, if_true]
          obtain ⟨rfl, rfl⟩ := hxy
          simp only [not_or, not_lt, ge_iff_le, gt_iff_lt, not_le] at hbad
          exact Or.inr ⟨trivial, hp, hbad.1, hbad.2.1, hbad.2.2.1, hbad.2.2.2.1, hbad.2.2.2.2.1,
            hbad.2.2.2.2.2⟩
        · simp [hxy]
      · simp

/-- The projection loop either leaves a pixel alone or leaves there the
number and the depth of one of the points, which projects there. -/
theorem projectLoop_winner (pp : CylindricalPointProjector Pt D) (x y : Int) (ps : List Pt) :
    ∀ (i : Nat) (im : Image Int × Image D),
      (((projectLoop pp i ps im).1.coeff x y = im.1.coeff x y ∧
          (projectLoop pp i ps im).2.coeff x y = im.2.coeff x y) ∨
        ∃ j p, ps[j]? = some p ∧ (projectLoop pp i ps im).1.coeff x y = ((i + j : Nat) : Int) ∧
          ProjectsTo pp im.1.rows im.1.cols p x y ((projectLoop pp i ps im).2.coeff x y)) := by
  induction ps with
  | nil => intro i im; exact Or.inl ⟨rfl, rfl⟩
  | cons p ps ih =>
    intro i im
    simp only [projectLoop]
    obtain ⟨e1, e2, -, -⟩ := projectPoint_dims pp i p im
    rcases ih (i + 1) (projectPoint pp i p im) with ⟨h1, h2⟩ | ⟨j, q, hq, h1, h2⟩
    · rcases projectPoint_winner pp i p im x y with ⟨g1, g2⟩ | ⟨g1, g2⟩
      · exact Or.inl ⟨h1.trans g1, h2.trans g2⟩
      · refine Or.inr ⟨0, p, by simp, ?_, ?_⟩
        · rw [h1, g1]; rfl
        · rw [h2]; exact g2
    · refine Or.inr ⟨j + 1, q, ?_, ?_, ?_⟩
      · simpa using hq
      · rw [h1]; congr 1; omega
      · rw [e1, e2] at h2; exact h2

end ProjectorIndexFacts

/-! ## Auxiliary facts: lists and the scan order -/

section RankFacts

variable {α β : Type} [DecidableEq α]

/-- Two successful elements of a list with the same rank are equal. -/
theorem successesBefore_inj (ok : α → Bool) (l : List α) (x y : α) (hx : x ∈ l) (hy : y ∈ l)
    (hox : ok x = true) (hoy : ok y = true)
    (h : successesBefore ok l x = successesBefore ok l y) : x = y := by
  induction l with
  | nil => cases hx
  | cons a l ih =>
    by_cases hax : a = x
    · by_cases hay : a = y
      · exact hax.symm.trans hay
      · subst hax
        simp [successesBefore, hay, hox] at h
        omega
    · by_cases hay : a = y
      · subst hay
        simp [successesBefore, hax, hoy] at h
      · have hx' : x ∈ l := by
          rcases List.mem_cons.mp hx with h | h
          · exact absurd h.symm hax
          · exact h
        have hy' : y ∈ l := by
          rcases List.mem_cons.mp hy with h | h
          · exact absurd h.symm hay
          · exact h
        simp only [successesBefore, hax, hay, if_false] at h
        exact ih hx' hy' (by omega)

/-- In a list without repetition every number below the number of successes
is the rank of a successful element. -/
theorem successesBefore_surj (ok : α → Bool) (l : List α) (hnd : l.Nodup) (i : Nat)
    (hi : i < (l.filter ok).length) :
    ∃ x, x ∈ l ∧ ok x = true ∧ successesBefore ok l x = i := by
  induction l generalizing i with
  | nil => simp at hi
  | cons a l ih =>
    cases hoa : ok a with
    | false =>
      simp only [List.filter_cons, hoa] at hi
      obtain ⟨x, hx, hox, hsx⟩ := ih (List.nodup_cons.mp hnd).2 i (by simpa using hi)
      have hax : a ≠ x := by
        intro h; subst h; rw [hoa] at hox; cases hox
      exact ⟨x, List.mem_cons_of_mem _ hx, hox, by simp [successesBefore, hax, hoa, hsx]⟩
    | true =>
      cases i with
      | zero => exact ⟨a, List.mem_cons_self _ _, hoa, by simp [successesBefore]⟩
      | succ i =>
        simp only [List.filter_cons, hoa, if_true, List.length_cons] at hi
        obtain ⟨x, hx, hox, hsx⟩ := ih (List.nodup_cons.mp hnd).2 i (by omega)
        have hax : a ≠ x := by
          intro h; subst h; exact (List.nodup_cons.mp hnd).1 hx
        exact ⟨x, List.mem_cons_of_mem _ hx, hox, by simp [successesBefore, hax, hoa, hsx]; omega⟩

/-- The value of a successful element stands in the list of values at the
rank of the element. -/
theorem filterMap_get_successesBefore (f : α → Option β) (l : List α) (x : α) (b : β)
    (hx : x ∈ l) (hf : f x = some b) :
    (l.filterMap f)[successesBefore (fun a => (f a).isSome) l x]? = some b := by
  induction l with
  | nil => cases hx
  | cons a l ih =>
    by_cases ha : a = x
    · subst ha
      simp [successesBefore, List.filterMap_cons, hf]
    · have hx' : x ∈ l := by
        rcases List.mem_cons.mp hx with h | h
        · exact absurd h.symm ha
        · exact h
      cases hfa : f a with
      | none => simpa [successesBefore, ha, List.filterMap_cons, hfa] using ih hx'
      | some c =>
        simp only [successesBefore, ha, if_false, List.filterMap_cons, hfa, Option.isSome_some,
          if_true]
        rw [Nat.add_comm, List.getElem?_cons_succ]
        exact ih hx'

end RankFacts

section ScanFacts

variable {α β : Type}

/-- There are as many values as elements on which the function succeeds. -/
theorem filterMap_length_eq_filter (f : α → Option β) (l : List α) :
    (l.filterMap f).length = (l.filter (fun a => (f a).isSome)).length := by
  induction l with
  | nil => rfl
  | cons a l ih =>
    cases hfa : f a <;> simp [List.filterMap_cons, List.filter_cons, hfa, ih]

/-- Two lists of values computed from the same list by a partial function and
by the same function followed by a map correspond entry by entry. -/
theorem filterMap_map_get {α β γ : Type} (f : α → Option β) (G : α → β → γ) (l : List α) :
    ∀ (i : Nat) (b : β) (g : γ), (l.filterMap f)[i]? = some b →
      (l.filterMap (fun a => (f a).map (G a)))[i]? = some g → ∃ a, a ∈ l ∧ g = G a b := by
  induction l with
  | nil => intro i b g h; simp at h
  | cons a l ih =>
    intro i b g h1 h2
    cases hfa : f a with
    | none =>
      simp only [List.filterMap_cons, hfa, Option.map_none'] at h1 h2
      obtain ⟨a', ha', hg⟩ := ih i b g h1 h2
      exact ⟨a', List.mem_cons_of_mem _ ha', hg⟩
    | some c =>
      simp only [List.filterMap_cons, hfa, Option.map_some'] at h1 h2
      cases i with
      | zero =>
        simp only [List.getElem?_cons_zero, Option.some.injEq] at h1 h2
        exact ⟨a, List.mem_cons_self _ _, by rw [← h2, ← h1]⟩
      | succ i =>
        simp only [List.getElem?_cons_succ] at h1 h2
        obtain ⟨a', ha', hg⟩ := ih i b g h1 h2
        exact ⟨a', List.mem_cons_of_mem _ ha', hg⟩

/-- The scan order holds exactly the pixels inside the image. -/
theorem mem_scanOrder (rows cols r c : Nat) :
    (r, c) ∈ scanOrder rows cols ↔ r < rows ∧ c < cols := by
  unfold scanOrder
  simp only [List.mem_flatMap, List.mem_range, List.mem_map, Prod.mk.injEq]
  constructor
  · rintro ⟨c', hc, r', hr, rfl, rfl⟩
    exact ⟨hr, hc⟩
  · rintro ⟨hr, hc⟩
    exact ⟨c, hc, r, hr, rfl, rfl⟩

/-- The scan order visits no pixel twice. -/
theorem nodup_scanOrder (rows cols : Nat) : (scanOrder rows cols).Nodup := by
  unfold scanOrder
  induction cols with
  | zero => simp
  | succ n ih =>
    rw [List.range_succ, List.flatMap_append]
    refine List.Nodup.append ih ?_ ?_
    · simp only [List.flatMap_cons, List.flatMap_nil, List.append_nil]
      exact (List.nodup_range rows).map (fun a b h => by simpa using h)
    · intro q hq1 hq2
      obtain ⟨r, c⟩ := q
      simp only [List.mem_flatMap, List.mem_range, List.mem_map, Prod.mk.injEq] at hq1
      simp only [List.flatMap_cons, List.flatMap_nil, List.append_nil, List.mem_map,
        List.mem_range, Prod.mk.injEq] at hq2
      obtain ⟨c', hc', r', -, -, rfl⟩ := hq1
      obtain ⟨r'', -, -, rfl⟩ := hq2
      omega

/-- The two nested loops over columns and rows are one loop over the scan order. -/
theorem foldl_scanOrder {S : Type} (step : Nat → S → Nat → S) (rows cols : Nat) (st : S) :
    (List.range cols).foldl (fun st c => (List.range rows).foldl (step c) st) st =
      (scanOrder rows cols).foldl (fun st q => step q.2 st q.1) st := by
  unfold scanOrder
  generalize List.range cols = cs
  induction cs generalizing st with
  | nil => rfl
  | cons c cs ih =>
    simp only [List.foldl_cons, List.flatMap_cons, List.foldl_append, List.foldl_map]
    exact ih _

end ScanFacts

/-! ## Auxiliary facts: back-projection -/

section UnProjectFacts

variable {D : Type}

/-- The loop of `unProject` leaves the index image alone at the pixels it
does not visit. -/
theorem unProjectFold_untouched (bp : BackProjector D) (depthImage : Image D)
    (pix : List (Nat × Nat)) (x y : Int) :
    ∀ st : UnProjectState D, (∀ q ∈ pix, ¬ ((q.1 : Int) = x ∧ (q.2 : Int) = y)) →
      (pix.foldl (fun st q => unProjectPixel bp depthImage q.2 st q.1) st).indexImage.coeff x y =
        st.indexImage.coeff x y := by
  induction pix with
  | nil => intro st _; rfl
  | cons q pix ih =>
    intro st h
    simp only [List.foldl_cons]
    rw [ih _ (fun q' hq' => h q' (List.mem_cons_of_mem _ hq'))]
    have hq := h q (List.mem_cons_self _ _)
    have hq' : ¬ (x = (q.1 : Int) ∧ y = (q.2 : Int)) := fun hh => hq ⟨hh.1.symm, hh.2.symm⟩
    unfold unProjectPixel
    split <;> simp [Image.set, hq']

/-- The loop of `unProject` over a list of distinct pixels: the points are the
successful back-projections in order, `count` counts them, the dimensions of
the index image are kept, and each visited pixel holds -1 when its
back-projection fails and otherwise the value of `count` at the start plus its
rank among the successful pixels. -/
theorem unProjectFold_spec (bp : BackProjector D) (depthImage : Image D)
    (pix : List (Nat × Nat)) (hnd : pix.Nodup) :
    ∀ st : UnProjectState D,
      (pix.foldl (fun st q => unProjectPixel bp depthImage q.2 st q.1) st).points =
        st.points ++ pix.filterMap (backProjection bp depthImage) ∧
      (pix.foldl (fun st q => unProjectPixel bp depthImage q.2 st q.1) st).count =
        st.count + (pix.filterMap (backProjection bp depthImage)).length ∧
      (pix.foldl (fun st q => unProjectPixel bp depthImage q.2 st q.1) st).indexImage.rows =
        st.indexImage.rows ∧
      (pix.foldl (fun st q => unProjectPixel bp depthImage q.2 st q.1) st).indexImage.cols =
        st.indexImage.cols ∧
      ∀ q ∈ pix,
        (pix.foldl (fun st q => unProjectPixel bp depthImage q.2 st q.1) st).indexImage.coeff
            (q.1 : Int) (q.2 : Int) =
          (if (backProjection bp depthImage q).isSome then
            ((st.count + successesBefore (fun a => (backProjection bp depthImage a).isSome) pix q
              : Nat) : Int)
          else -1) := by
  induction pix with
  | nil => intro st; simp
  | cons a pix ih =>
    intro st
    obtain ⟨hna, hnd'⟩ := List.nodup_cons.mp hnd
    obtain ⟨h1, h2, h3, h4, h5⟩ := ih hnd' (unProjectPixel bp depthImage a.2 st a.1)
    simp only [List.foldl_cons]
    have hstep : (unProjectPixel bp depthImage a.2 st a.1).points =
          st.points ++ (match backProjection bp depthImage a with
            | none => [] | some p => [p]) ∧
        (unProjectPixel bp depthImage a.2 st a.1).count =
          st.count + (if (backProjection bp depthImage a).isSome then 1 else 0) ∧
        (unProjectPixel bp depthImage a.2 st a.1).indexImage.rows = st.indexImage.rows ∧
        (unProjectPixel bp depthImage a.2 st a.1).indexImage.cols = st.indexImage.cols ∧
        (unProjectPixel bp depthImage a.2 st a.1).indexImage.coeff (a.1 : Int) (a.2 : Int) =
          (if (backProjection bp depthImage a).isSome then (st.count : Int) else -1) := by
      unfold unProjectPixel backProjection
      cases bp._unProject (a.1 : Int) (a.2 : Int) (depthImage.coeff (a.1 : Int) (a.2 : Int)) <;>
        simp [Image.set]
    obtain ⟨g1, g2, g3, g4, g5⟩ := hstep
    refine ⟨?_, ?_, h3.trans g3, h4.trans g4, ?_⟩
    · rw [h1, g1]
      cases hb : backProjection bp depthImage a <;> simp [List.filterMap_cons, hb]
    · rw [h2, g2]
      cases hb : backProjection bp depthImage a <;> simp [List.filterMap_cons, hb]; omega
    · intro q hq
      by_cases hqa : a = q
      · subst hqa
        rw [unProjectFold_untouched bp depthImage pix _ _ _ (by
          intro q' hq' hh
          have : q' = a := Prod.ext (by exact_mod_cast hh.1) (by exact_mod_cast hh.2)
          exact hna (this ▸ hq'))]
        rw [g5]
        simp [successesBefore]
      · have hq' : q ∈ pix := by
          rcases List.mem_cons.mp hq with h | h
          · exact absurd h.symm hqa
          · exact h
        rw [h5 q hq', g2]
        simp only [successesBefore, hqa, if_false]
        split
        · congr 1; omega
        · rfl

/-- The method `unProject(points, indexImage, depthImage)`: the points are the
successful back-projections in scan order, and each pixel of the image holds
-1 or its rank among the successful pixels. -/
theorem unProject_spec (bp : BackProjector D) (points : List (Fin 4 → D))
    (indexImage : Image Int) (depthImage : Image D) :
    (unProject bp points indexImage depthImage).1 =
      (scanOrder depthImage.rows depthImage.cols).filterMap (backProjection bp depthImage) ∧
    (unProject bp points indexImage depthImage).2.rows = depthImage.rows ∧
    (unProject bp points indexImage depthImage).2.cols = depthImage.cols ∧
    ∀ q ∈ scanOrder depthImage.rows depthImage.cols,
      (unProject bp points indexImage depthImage).2.coeff (q.1 : Int) (q.2 : Int) =
        (if (backProjection bp depthImage q).isSome then
          ((successesBefore (fun a => (backProjection bp depthImage a).isSome)
              (scanOrder depthImage.rows depthImage.cols) q : Nat) : Int)
        else -1) := by
  unfold unProject
  simp only
  rw [foldl_scanOrder (fun c s r => unProjectPixel bp depthImage c s r)]
  obtain ⟨h1, -, h3, h4, h5⟩ := unProjectFold_spec bp depthImage
    (scanOrder depthImage.rows depthImage.cols) (nodup_scanOrder _ _)
    { points := [], indexImage := indexImage.resize depthImage.rows depthImage.cols, count := 0 }
  refine ⟨by simpa using h1, h3, h4, ?_⟩
  intro q hq
  simpa using h5 q hq

end UnProjectFacts

section GaussianFacts

variable {D : Type} [Field D]

/-- The loop of the `unProject` with Gaussians computes the same points and
the same index image as the loop of the `unProject` without. -/
theorem unProjectGaussianFold_sim (bp : BackProjector D) (depthImage : Image D)
    (pix : List (Nat × Nat)) :
    ∀ (sg : UnProjectGaussianState D) (st : UnProjectState D),
      sg.points = st.points → sg.indexImage = st.indexImage → sg.count = st.count →
      (pix.foldl (fun s q => unProjectGaussianPixel bp depthImage q.2 s q.1) sg).points =
        (pix.foldl (fun s q => unProjectPixel bp depthImage q.2 s q.1) st).points ∧
      (pix.foldl (fun s q => unProjectGaussianPixel bp depthImage q.2 s q.1) sg).indexImage =
        (pix.foldl (fun s q => unProjectPixel bp depthImage q.2 s q.1) st).indexImage := by
  induction pix with
  | nil => intro sg st h1 h2 _; exact ⟨h1, h2⟩
  | cons a pix ih =>
    intro sg st h1 h2 h3
    simp only [List.foldl_cons]
    apply ih
    · unfold unProjectGaussianPixel unProjectPixel
      cases bp._unProject (a.1 : Int) (a.2 : Int) (depthImage.coeff (a.1 : Int) (a.2 : Int)) <;>
        simp [h1]
    · unfold unProjectGaussianPixel unProjectPixel
      cases bp._unProject (a.1 : Int) (a.2 : Int) (depthImage.coeff (a.1 : Int) (a.2 : Int)) <;>
        simp [h2, h3]
    · unfold unProjectGaussianPixel unProjectPixel
      cases bp._unProject (a.1 : Int) (a.2 : Int) (depthImage.coeff (a.1 : Int) (a.2 : Int)) <;>
        simp [h3]

/-- The loop of the `unProject` with Gaussians appends the Gaussians of the
successful pixels in order. -/
theorem unProjectGaussianFold_gaussians (bp : BackProjector D) (depthImage : Image D)
    (pix : List (Nat × Nat)) :
    ∀ sg : UnProjectGaussianState D,
      (pix.foldl (fun s q => unProjectGaussianPixel bp depthImage q.2 s q.1) sg).gaussians =
        sg.gaussians ++ pix.filterMap (fun q => (backProjection bp depthImage q).map
          (pixelGaussian bp q.1 q.2 (depthImage.coeff (q.1 : Int) (q.2 : Int)))) := by
  induction pix with
  | nil => intro sg; simp
  | cons a pix ih =>
    intro sg
    simp only [List.foldl_cons]
    rw [ih]
    unfold unProjectGaussianPixel backProjection
    cases hb : bp._unProject (a.1 : Int) (a.2 : Int) (depthImage.coeff (a.1 : Int) (a.2 : Int)) <;>
      simp [List.filterMap_cons, backProjection, hb]

/-- The `unProject` with Gaussians returns the points and the index image of
the `unProject` without, and the Gaussians of the successful pixels in scan
order. -/
theorem unProjectGaussian_eq (bp : BackProjector D) (points : List (Fin 4 → D))
    (gaussians : List (Gaussian3f D)) (indexImage : Image Int) (depthImage : Image D) :
    (unProjectGaussian bp points gaussians indexImage depthImage).1 =
      (unProject bp points indexImage depthImage).1 ∧
    (unProjectGaussian bp points gaussians indexImage depthImage).2.2 =
      (unProject bp points indexImage depthImage).2 ∧
    (unProjectGaussian bp points gaussians indexImage depthImage).2.1 =
      (scanOrder depthImage.rows depthImage.cols).filterMap
        (fun q => (backProjection bp depthImage q).map
          (pixelGaussian bp q.1 q.2 (depthImage.coeff (q.1 : Int) (q.2 : Int)))) := by
  unfold unProjectGaussian unProject
  simp only
  rw [foldl_scanOrder (fun c s r => unProjectGaussianPixel bp depthImage c s r),
    foldl_scanOrder (fun c s r => unProjectPixel bp depthImage c s r)]
  obtain ⟨h1, h2⟩ := unProjectGaussianFold_sim bp depthImage
    (scanOrder depthImage.rows depthImage.cols)
    { points := [], gaussians := [],
      indexImage := indexImage.resize depthImage.rows depthImage.cols, count := 0 }
    { points := [], indexImage := indexImage.resize depthImage.rows depthImage.cols, count := 0 }
    rfl rfl rfl
  refine ⟨h1, h2, ?_⟩
  rw [unProjectGaussianFold_gaussians]
  simp

/-- The local `zVariation` of line 138, written with a square. -/
theorem zVariation_eq (bp : BackProjector D) (z : D) :
    zVariation bp z =
      bp._alpha * z ^ 2 / (bp._baseline * bp._cameraMatrix 0 0 + bp._alpha * z) := by
  unfold zVariation
  rw [mul_assoc, ← sq, mul_comm z bp._alpha]

end GaussianFacts

/-! ## Auxiliary facts: the incumbent and the estimates -/

section IncumbentFacts

variable {σ T V P : Type}

/-- The retention test of lines 342-369 leaves the vertex estimates alone. -/
theorem retain_est (env : Env σ T V P) (t : T) (inl : List Int) (e : ℚ)
    (ce : List ℚ) (b : Best T) (s : RansacState σ V P) :
    (retain env t inl e ce b s).2.2.est = s.est := by
  unfold retain
  by_cases h1 : inl.length > b.bestInliers.length
  · simp only [h1, if_true]
    by_cases h2 : e / (inl.length : ℚ) < b.bestError
    · simp only [h2, if_true]
      split <;> rfl
    · simp only [h2, if_false]
      split <;> rfl
  · simp only [h1, if_false]

/-- When the retention test leaves `transformFound` false it has left the
whole incumbent as it was. -/
theorem retain_unfound (env : Env σ T V P) (t : T) (inl : List Int) (e : ℚ)
    (ce : List ℚ) (b : Best T) (s : RansacState σ V P)
    (h : (retain env t inl e ce b s).2.1.transformFound = false) :
    (retain env t inl e ce b s).2.1 = b := by
  unfold retain at h ⊢
  by_cases h1 : inl.length > b.bestInliers.length
  · simp only [h1, if_true] at h ⊢
    by_cases h2 : e / (inl.length : ℚ) < b.bestError
    · simp only [h2, if_true] at h ⊢
      split at h <;> simp at h
    · simp only [h2, if_false] at h ⊢
      split at h
      · simp at h
      · rename_i h3
        simp only [h3, if_false]
  · simp only [h1, if_false]

end IncumbentFacts

section IncumbentLoopFacts

variable {σ T V P : Type} [DecidableEq V]

/-- When an iteration of the `for` loop leaves `transformFound` false it has
left the whole incumbent as it was. -/
theorem iteration_unfound (env : Env σ T V P) (fuel : Nat) (debug : Bool) (bff : Int)
    (b : Best T) (s : RansacState σ V P) (res : Bool × Best T × RansacState σ V P)
    (h : iteration env fuel debug bff b s = Outcome.ok res)
    (hf : res.2.1.transformFound = false) : res.2.1 = b := by
  unfold iteration at h
  cases hcall : computeMinimalSet env fuel 0 env.defaultTransform s with
  | fault => simp [hcall] at h
  | timeout => simp [hcall] at h
  | ok r =>
    obtain ⟨found, t, s1⟩ := r
    cases found with
    | false =>
      simp only [hcall, Outcome.ok.injEq] at h
      subst h
      rfl
    | true =>
      simp only [hcall] at h
      split at h
      · simp only [Outcome.ok.injEq] at h
        subst h
        rfl
      · simp only [Outcome.ok.injEq] at h
        subst h
        exact retain_unfound env _ _ _ _ _ _ hf

/-- When the `for` loop ends with `transformFound` false it has left the
whole incumbent as it was. -/
theorem searchLoop_unfound (env : Env σ T V P) (fuel : Nat) (debug : Bool) (bff : Int)
    (remaining : Nat) :
    ∀ (b : Best T) (s : RansacState σ V P) (res : Best T × RansacState σ V P),
      searchLoop env fuel debug bff remaining b s = Outcome.ok res →
      res.1.transformFound = false → res.1 = b := by
  induction remaining with
  | zero =>
    intro b s res h _
    simp only [searchLoop, Outcome.ok.injEq] at h
    subst h
    rfl
  | succ remaining ih =>
    intro b s res h hf
    rw [searchLoop] at h
    cases hi : s.indices[0]? with
    | none => simp [hi] at h
    | some i0 =>
      simp only [hi] at h
      by_cases hg : i0 > (env.n : Int) - (s.indices.length : Int)
      · simp only [hg, if_true, Outcome.ok.injEq] at h
        subst h
        rfl
      · simp only [hg, if_false] at h
        cases hit : iteration env fuel debug bff b s with
        | fault => simp [hit] at h
        | timeout => simp [hit] at h
        | ok r =>
          obtain ⟨c, b1, s1⟩ := r
          cases c with
          | true =>
            simp only [hit] at h
            have h1 := ih b1 s1 res h hf
            have h2 := iteration_unfound env fuel debug bff b s _ hit (by rw [← h1]; exact hf)
            rw [h1]
            exact h2
          | false =>
            simp only [hit, Outcome.ok.injEq] at h
            subst h
            exact iteration_unfound env fuel debug bff b s _ hit hf

end IncumbentLoopFacts

/-! ## Auxiliary facts: termination of the `for` loop -/

section ForLoopTermination

variable {σ T V P : Type} [DecidableEq V]

/-- The body of the `for` loop produces a result whenever its call of
`computeMinimalSet` does, and changes the index vector only through that
call. -/
theorem iteration_of_computeMinimalSet (env : Env σ T V P) (fuel : Nat) (debug : Bool)
    (bff : Int) (b : Best T) (s : RansacState σ V P) (found : Bool) (t1 : T)
    (s1 : RansacState σ V P)
    (hcall : computeMinimalSet env fuel 0 env.defaultTransform s = Outcome.ok (found, t1, s1)) :
    ∃ c b1 s2, iteration env fuel debug bff b s = Outcome.ok (c, b1, s2) ∧
      s2.indices = s1.indices := by
  unfold iteration
  cases found with
  | false => simp only [hcall]; exact ⟨true, b, s1, rfl, rfl⟩
  | true =>
    simp only [hcall]
    by_cases hfew : ((applyBestFriendFilter env bff (scoreHypothesis env debug t1 s1.est)).length
        : Int) < env.minimalSetSize
    · simp only [hfew, if_true]
      exact ⟨true, b, _, rfl, rfl⟩
    · simp only [hfew, if_false]
      exact ⟨(retain env t1 (applyBestFriendFilter env bff (scoreHypothesis env debug t1 s1.est))
          (scoreHypothesis env debug t1 s1.est).error
          (scoreHypothesis env debug t1 s1.est).currentErrors b
          { s1 with est := (scoreHypothesis env debug t1 s1.est).est }).1, _, _, rfl,
        retain_indices env _ _ _ _ _ _⟩

/-- The `for` loop of `operator()` produces a result: a step budget of
`max(0, n - _indices[0]) + minimalSetSize` is enough for each of its calls of
`computeMinimalSet`, whatever the number of iterations. -/
theorem searchLoop_terminates (env : Env σ T V P) (fuel : Nat) (debug : Bool) (bff : Int)
    (hm : 1 ≤ env.minimalSetSize) :
    ∀ (remaining : Nat) (b : Best T) (s : RansacState σ V P) (i0 : Int),
      env.minimalSetSize ≤ (s.indices.length : Int) → s.indices[0]? = some i0 →
      ((env.n : Int) - i0).toNat + env.minimalSetSize.toNat ≤ fuel →
      ∃ res, searchLoop env fuel debug bff remaining b s = Outcome.ok res := by
  intro remaining
  induction remaining with
  | zero => intro b s i0 _ _ _; exact ⟨(b, s), rfl⟩
  | succ remaining ih =>
    intro b s i0 hlen hi0 hfuel
    rw [searchLoop]
    simp only [hi0]
    by_cases hg : i0 > (env.n : Int) - (s.indices.length : Int)
    · simp only [hg, if_true]; exact ⟨(b, s), rfl⟩
    · simp only [hg, if_false]
      obtain ⟨found, t1, s1, hcall, hl1, j0, hj0, hle⟩ :=
        computeMinimalSet_terminates env fuel env.defaultTransform s i0 hm hlen hi0 hfuel
      obtain ⟨c, b1, s2, hit, hs2⟩ :=
        iteration_of_computeMinimalSet env fuel debug bff b s found t1 s1 hcall
      cases c with
      | false => simp only [hit]; exact ⟨(b1, s2), rfl⟩
      | true =>
        simp only [hit]
        exact ih b1 s2 j0 (by rw [hs2, hl1]; exact hlen) (by rw [hs2]; exact hj0) (by omega)

/-- Every configuration the `for` loop reaches has at most as many iterations
left as the configuration it started from: each iteration uses up one. -/
theorem loopReaches_le (env : Env σ T V P) (fuel : Nat) (debug : Bool) (bff : Int)
    (x y : Nat × Best T × RansacState σ V P) (h : LoopReaches env fuel debug bff x y) :
    y.1 ≤ x.1 := by
  induction h with
  | here x => exact Nat.le_refl _
  | step remaining b b1 s s1 i0 y _ _ _ _ ih => exact Nat.le_succ_of_le ih

end ForLoopTermination

/-! ## Auxiliary facts: index safety of the search -/

section IndexSafetyFacts

variable {σ T V P : Type}

/-- The events of a trace that are solver calls of `computeMinimalSet` are
those whose index vector is listed by `solveCalls`. -/
theorem mem_solveCalls (tr : List Event) (I : List Int) :
    I ∈ solveCalls tr ↔ ∃ r, Event.solve I r ∈ tr := by
  induction tr with
  | nil => simp [solveCalls]
  | cons e tr ih =>
    cases e with
    | validate k J b => simp [solveCalls, ih]
    | solve J b =>
      simp only [solveCalls, List.mem_cons, ih, Event.solve.injEq]
      constructor
      · rintro (rfl | ⟨r, hr⟩)
        · exact ⟨b, Or.inl ⟨rfl, rfl⟩⟩
        · exact ⟨r, Or.inr hr⟩
      · rintro ⟨r, ⟨rfl, -⟩ | hr⟩
        · exact Or.inl rfl
        · exact Or.inr ⟨r, hr⟩
    | refine J b => simp [solveCalls, ih]

/-- The solver calls of two traces put end to end. -/
theorem solveCalls_append (a b : List Event) :
    solveCalls (a ++ b) = solveCalls a ++ solveCalls b := by
  induction a with
  | nil => rfl
  | cons e a ih =>
    cases e with
    | validate k J r => simpa [solveCalls] using ih
    | solve J r => simpa [solveCalls] using ih
    | refine J r => simpa [solveCalls] using ih

/-- Writing a non-negative value into a vector of non-negative entries. -/
theorem nonneg_set (l : List Int) (k : Nat) (w : Int) (h : ∀ v ∈ l, 0 ≤ v) (hw : 0 ≤ w) :
    ∀ v ∈ l.set k w, 0 ≤ v := by
  intro v hv
  rcases List.mem_or_eq_of_mem_set hv with h1 | h1
  · exact h v h1
  · rw [h1]; exact hw

/-- Lines 152-155 keep the entries of the index vector non-negative. -/
theorem carry_nonneg (env : Env σ T V P) (k : Nat) (jk1 jk : Int) (s : RansacState σ V P)
    (h : ∀ v ∈ s.indices, 0 ≤ v) (hjk : 0 ≤ jk) :
    ∀ v ∈ (carry env k jk1 jk s).indices, 0 ≤ v := by
  unfold carry
  split
  · simp only [setIndex_indices]
    exact nonneg_set _ _ _ (nonneg_set _ _ _ h (by omega)) (by omega)
  · exact h

/-- No run of the `while` loop of `computeMinimalSet` at a depth below
`minimalSetSize`, on an index vector of at least `minimalSetSize` entries,
reads `_indices` outside its bounds, whatever the step budget. -/
theorem computeMinimalSetLoop_no_fault (env : Env σ T V P) :
    ∀ (fuel k : Nat) (tf : Bool) (t : T) (s : RansacState σ V P),
      (k : Int) ≤ env.minimalSetSize - 1 → env.minimalSetSize ≤ (s.indices.length : Int) →
      computeMinimalSetLoop env fuel k tf t s ≠ Outcome.fault := by
  intro fuel
  induction fuel with
  | zero =>
    intro k tf t s _ _
    simp [computeMinimalSetLoop]
  | succ fuel ih =>
    intro k tf t s hkm hlen
    obtain ⟨ik, hik⟩ := getElem?_some_of_lt s.indices k (by omega)
    rw [computeMinimalSetLoop]
    simp only [hik]
    by_cases hc : ik < (env.n : Int) ∧ tf = false
    · simp only [hc, and_self, if_true]
      by_cases hv : (validateCorrespondences env k s).1 = false
      · simp only [hv, if_true]
        exact ih _ _ _ _ hkm (by simpa using hlen)
      · simp only [hv, if_false]
        by_cases hm : (k : Int) = env.minimalSetSize - 1
        · simp only [hm, if_true]
          exact ih _ _ _ _ hkm (by simpa using hlen)
        · simp only [hm, if_false]
          obtain ⟨ik1, hik1⟩ := getElem?_some_of_lt s.indices (k + 1) (by omega)
          simp only [validate_indices, hik1]
          have hs2len : (if ik1 < ik then
              (validateCorrespondences env k s).2.setIndex (k + 1) (ik + 1)
              else (validateCorrespondences env k s).2).indices.length = s.indices.length := by
            split <;> simp
          cases hres3 : computeMinimalSetLoop env fuel (k + 1) false t
              (if ik1 < ik then (validateCorrespondences env k s).2.setIndex (k + 1) (ik + 1)
                else (validateCorrespondences env k s).2) with
          | fault =>
            exact absurd hres3 (ih (k + 1) false t _ (by push_cast; omega)
              (by rw [hs2len]; exact hlen))
          | timeout => simp
          | ok res3 =>
            obtain ⟨found, t3, s3⟩ := res3
            obtain ⟨hlen3, -⟩ := computeMinimalSetLoop_indices env fuel (k + 1) false t _ _ hres3
            simp only at hlen3
            rw [hs2len] at hlen3
            obtain ⟨jk1, hjk1⟩ := getElem?_some_of_lt s3.indices (k + 1) (by omega)
            obtain ⟨jk, hjk⟩ := getElem?_some_of_lt s3.indices k (by omega)
            simp only [hjk1, hjk]
            exact ih k found t3 _ hkm (by rw [carry_length, hlen3]; exact hlen)
    · simp only [hc, if_false]
      simp

/-- Every index vector passed to the solver during a run of the `while` loop
of `computeMinimalSet` at depth `k` has its first `minimalSetSize` entries
between 0 and the correspondence count, provided the entries before position
`k` are below the correspondence count and all entries are non-negative at
the start; the entries are still non-negative at the end. -/
theorem computeMinimalSetLoop_range (env : Env σ T V P) (fuel k : Nat) (tf : Bool) (t : T)
    (s : RansacState σ V P) (res : Bool × T × RansacState σ V P)
    (h : computeMinimalSetLoop env fuel k tf t s = Outcome.ok res) :
    (∀ j, j < k → ∃ v, s.indices[j]? = some v ∧ v < (env.n : Int)) →
    (∀ v ∈ s.indices, 0 ≤ v) →
    ∃ tr, res.2.2.trace = s.trace ++ tr ∧
      (∀ I r, Event.solve I r ∈ tr → ∀ j : Nat, (j : Int) < env.minimalSetSize →
        ∃ v, I[j]? = some v ∧ 0 ≤ v ∧ v < (env.n : Int)) ∧
      (∀ v ∈ res.2.2.indices, 0 ≤ v) := by
  refine computeMinimalSetLoop_induct env
    (fun k _ _ s res =>
      (∀ j, j < k → ∃ v, s.indices[j]? = some v ∧ v < (env.n : Int)) →
      (∀ v ∈ s.indices, 0 ≤ v) →
      ∃ tr, res.2.2.trace = s.trace ++ tr ∧
        (∀ I r, Event.solve I r ∈ tr → ∀ j : Nat, (j : Int) < env.minimalSetSize →
          ∃ v, I[j]? = some v ∧ 0 ≤ v ∧ v < (env.n : Int)) ∧
        (∀ v ∈ res.2.2.indices, 0 ≤ v)) ?_ ?_ ?_ ?_ fuel k tf t s res h
  · intro k tf t s ik _ _ _ hpos
    exact ⟨[], by simp, by simp, hpos⟩
  · intro k t s ik res hik _ hv _ ih hpre hpos
    have hik0 : 0 ≤ ik := hpos ik (List.getElem?_mem hik)
    obtain ⟨tr, h1, h2, h3⟩ := ih
      (fun j hj => by
        simp only [setIndex_indices, validate_indices]
        rw [List.getElem?_set_ne (by omega)]
        exact hpre j hj)
      (by
        simp only [setIndex_indices, validate_indices]
        exact nonneg_set _ _ _ hpos (by omega))
    refine ⟨Event.validate k s.indices false :: tr, ?_, ?_, h3⟩
    · rw [h1, setIndex_trace, validate_trace, hv]; simp
    · intro I r hI
      rcases List.mem_cons.mp hI with hI | hI
      · cases hI
      · exact h2 I r hI
  · intro k t s ik res hik hlt hv hkm _ ih hpre hpos
    have hik0 : 0 ≤ ik := hpos ik (List.getElem?_mem hik)
    obtain ⟨tr, h1, h2, h3⟩ := ih
      (fun j hj => by
        simp only [setIndex_indices, solver_indices, validate_indices]
        rw [List.getElem?_set_ne (by omega)]
        exact hpre j hj)
      (by
        simp only [setIndex_indices, solver_indices, validate_indices]
        exact nonneg_set _ _ _ hpos (by omega))
    refine ⟨Event.validate k s.indices true ::
      Event.solve s.indices (alignmentAlgorithm env t (validateCorrespondences env k s).2).1 :: tr,
      ?_, ?_, h3⟩
    · rw [h1, setIndex_trace, solver_trace, validate_trace, hv]; simp
    · intro I r hI
      rcases List.mem_cons.mp hI with hI | hI
      · cases hI
      · rcases List.mem_cons.mp hI with hI | hI
        · cases hI
          intro j hj
          by_cases hjk : j < k
          · obtain ⟨v, hv1, hv2⟩ := hpre j hjk
            exact ⟨v, hv1, hpos v (List.getElem?_mem hv1), hv2⟩
          · have : j = k := by omega
            subst this
            exact ⟨ik, hik, hik0, hlt⟩
        · exact h2 I r hI
  · intro k t s ik ik1 found t3 s3 jk1 jk res hik hlt hv hkm hik1 hrun3 ih3 hjk1 hjk _ ih
      hpre hpos
    have hik0 : 0 ≤ ik := hpos ik (List.getElem?_mem hik)
    obtain ⟨fuel3, hrun3⟩ := hrun3
    obtain ⟨-, hpre3⟩ := computeMinimalSetLoop_indices env fuel3 (k + 1) false t _ _ hrun3
    simp only at hpre3
    obtain ⟨tr3, g1, g2, g3⟩ := ih3
      (fun j hj => by
        by_cases hjk' : j < k
        · obtain ⟨v, hv1, hv2⟩ := hpre j hjk'
          refine ⟨v, ?_, hv2⟩
          split
          · simp only [setIndex_indices, validate_indices]
            rw [List.getElem?_set_ne (by omega)]
            exact hv1
          · simpa using hv1
        · have : j = k := by omega
          subst this
          refine ⟨ik, ?_, hlt⟩
          split
          · simp only [setIndex_indices, validate_indices]
            rw [List.getElem?_set_ne (by omega)]
            exact hik
          · simpa using hik)
      (by
        split
        · simp only [setIndex_indices, validate_indices]
          exact nonneg_set _ _ _ hpos (by omega)
        · simpa using hpos)
    simp only at g1 g3
    have hjk0 : 0 ≤ jk := g3 jk (List.getElem?_mem hjk)
    obtain ⟨tr, h1, h2, h3⟩ := ih
      (fun j hj => by
        rw [carry_get_lt env k jk1 jk s3 j hj, hpre3 j (by omega)]
        obtain ⟨v, hv1, hv2⟩ := hpre j hj
        refine ⟨v, ?_, hv2⟩
        split
        · simp only [setIndex_indices, validate_indices]
          rw [List.getElem?_set_ne (by omega)]
          exact hv1
        · simpa using hv1)
      (carry_nonneg env k jk1 jk s3 g3 hjk0)
    refine ⟨Event.validate k s.indices true :: (tr3 ++ tr), ?_, ?_, h3⟩
    · rw [h1, carry_trace, g1]
      have : (if ik1 < ik then (validateCorrespondences env k s).2.setIndex (k + 1) (ik + 1)
          else (validateCorrespondences env k s).2).trace =
          s.trace ++ [Event.validate k s.indices true] := by
        split
        · rw [setIndex_trace, validate_trace, hv]
        · rw [validate_trace, hv]
      rw [this]; simp
    · intro I r hI
      rcases List.mem_cons.mp hI with hI | hI
      · cases hI
      · rcases List.mem_append.mp hI with hI | hI
        · exact g2 I r hI
        · exact h2 I r hI

end IndexSafetyFacts

/-! ## Auxiliary facts: the order of the solver calls -/

section LexFacts

/-- The lexicographic order is transitive. -/
theorem lexLess_trans : ∀ (a b c : List Int),
    lexLess a b = true → lexLess b c = true → lexLess a c = true := by
  intro a
  induction a with
  | nil =>
    intro b c hab hbc
    cases b with
    | nil => simp [lexLess] at hab
    | cons y b =>
      cases c with
      | nil => simp [lexLess] at hbc
      | cons z c => simp [lexLess]
  | cons x a ih =>
    intro b c hab hbc
    cases b with
    | nil => simp [lexLess] at hab
    | cons y b =>
      cases c with
      | nil => simp [lexLess] at hbc
      | cons z c =>
        simp only [lexLess, Bool.or_eq_true, Bool.and_eq_true, decide_eq_true_eq] at hab hbc ⊢
        rcases hab with hab | ⟨hab, hab2⟩
        · rcases hbc with hbc | ⟨hbc, -⟩
          · exact Or.inl (by omega)
          · exact Or.inl (by omega)
        · rcases hbc with hbc | ⟨hbc, hbc2⟩
          · exact Or.inl (by omega)
          · exact Or.inr ⟨by omega, ih b c hab2 hbc2⟩

/-- A vector stands before every vector that agrees with it up to some
position and has a larger entry there. -/
theorem lexLess_of_agree : ∀ (k : Nat) (l l' : List Int) (v w : Int),
    (∀ j, j < k → l[j]? = l'[j]?) → l[k]? = some v → l'[k]? = some w → v < w →
    lexLess l l' = true := by
  intro k
  induction k with
  | zero =>
    intro l l' v w _ hv hw hlt
    cases l with
    | nil => simp at hv
    | cons x l =>
      cases l' with
      | nil => simp at hw
      | cons y l' =>
        simp only [List.getElem?_cons_zero, Option.some.injEq] at hv hw
        subst hv hw
        simp [lexLess, hlt]
  | succ k ih =>
    intro l l' v w hag hv hw hlt
    cases l with
    | nil => simp at hv
    | cons x l =>
      cases l' with
      | nil => simp at hw
      | cons y l' =>
        have h0 := hag 0 (Nat.succ_pos k)
        simp only [List.getElem?_cons_zero, Option.some.injEq] at h0
        simp only [List.getElem?_cons_succ] at hv hw
        have := ih l l' v w
          (fun j hj => by simpa using hag (j + 1) (Nat.succ_lt_succ hj)) hv hw hlt
        simp [lexLess, h0, this]

/-- Raising one entry of a vector gives a vector that stands after it. -/
theorem lexLess_set (l : List Int) (k : Nat) (v w : Int) (h : l[k]? = some v) (hlt : v < w) :
    lexLess l (l.set k w) = true :=
  lexLess_of_agree k l (l.set k w) v w
    (fun j hj => by rw [List.getElem?_set_ne (by omega)]) h
    (getElem?_set_self_of_some l k v w h) hlt

/-- Adding a vector that stands after all of a strictly increasing sequence
keeps the sequence strictly increasing. -/
theorem pairwise_lexLess_snoc (prior : List (List Int)) (I : List Int)
    (h1 : ∀ J ∈ prior, lexLess J I = true)
    (h2 : List.Pairwise (fun a b => lexLess a b = true) prior) :
    List.Pairwise (fun a b => lexLess a b = true) (prior ++ [I]) := by
  rw [List.pairwise_append]
  refine ⟨h2, List.pairwise_singleton _ _, ?_⟩
  intro a ha b hb
  rw [List.mem_singleton.mp hb]
  exact h1 a ha

end LexFacts

section IncreasingFacts

variable {σ T V P : Type}

/-- Lines 152-155 leave the index vector alone or move it forward in the
lexicographic order. -/
theorem carry_lexLess (env : Env σ T V P) (k : Nat) (jk1 jk : Int) (s : RansacState σ V P)
    (h : s.indices[k]? = some jk) :
    (carry env k jk1 jk s).indices = s.indices ∨
      lexLess s.indices (carry env k jk1 jk s).indices = true := by
  unfold carry
  split
  · right
    simp only [setIndex_indices]
    refine lexLess_of_agree k _ _ jk (jk + 1) ?_ h ?_ (by omega)
    · intro j hj
      rw [List.getElem?_set_ne (by omega), List.getElem?_set_ne (by omega)]
    · rw [List.getElem?_set_ne (by omega)]
      exact getElem?_set_self_of_some _ _ _ _ h
  · left; rfl

/-- During a run of the `while` loop of `computeMinimalSet` the index vectors
passed to the solver continue a strictly increasing sequence: when every
vector of a strictly increasing sequence `prior` stands before the index
vector at the start, the sequence `prior` followed by the vectors passed to
the solver during the run is strictly increasing, and all of it stands before
the index vector at the end. -/
theorem computeMinimalSetLoop_increasing (env : Env σ T V P) (fuel k : Nat) (tf : Bool) (t : T)
    (s : RansacState σ V P) (res : Bool × T × RansacState σ V P)
    (h : computeMinimalSetLoop env fuel k tf t s = Outcome.ok res) :
    ∀ prior : List (List Int), (∀ I ∈ prior, lexLess I s.indices = true) →
      List.Pairwise (fun a b => lexLess a b = true) prior →
      ∃ tr, res.2.2.trace = s.trace ++ tr ∧
        (∀ I ∈ prior ++ solveCalls tr, lexLess I res.2.2.indices = true) ∧
        List.Pairwise (fun a b => lexLess a b = true) (prior ++ solveCalls tr) := by
  refine computeMinimalSetLoop_induct env
    (fun _ _ _ s res =>
      ∀ prior : List (List Int), (∀ I ∈ prior, lexLess I s.indices = true) →
        List.Pairwise (fun a b => lexLess a b = true) prior →
        ∃ tr, res.2.2.trace = s.trace ++ tr ∧
          (∀ I ∈ prior ++ solveCalls tr, lexLess I res.2.2.indices = true) ∧
          List.Pairwise (fun a b => lexLess a b = true) (prior ++ solveCalls tr))
    ?_ ?_ ?_ ?_ fuel k tf t s res h
  · intro k tf t s ik _ _ prior hprior hpw
    exact ⟨[], by simp, by simpa [solveCalls] using hprior, by simpa [solveCalls] using hpw⟩
  · intro k t s ik res hik _ hv _ ih prior hprior hpw
    have hstep : lexLess s.indices (s.indices.set k (ik + 1)) = true :=
      lexLess_set _ _ _ _ hik (by omega)
    obtain ⟨tr, h1, h2, h3⟩ := ih prior
      (fun I hI => by
        simp only [setIndex_indices, validate_indices]
        exact lexLess_trans _ _ _ (hprior I hI) hstep) hpw
    refine ⟨Event.validate k s.indices false :: tr, ?_, ?_, ?_⟩
    · rw [h1, setIndex_trace, validate_trace, hv]; simp
    · simpa [solveCalls] using h2
    · simpa [solveCalls] using h3
  · intro k t s ik res hik _ hv _ _ ih prior hprior hpw
    have hstep : lexLess s.indices (s.indices.set k (ik + 1)) = true :=
      lexLess_set _ _ _ _ hik (by omega)
    obtain ⟨tr, h1, h2, h3⟩ := ih (prior ++ [s.indices])
      (fun I hI => by
        simp only [setIndex_indices, solver_indices, validate_indices]
        rcases List.mem_append.mp hI with hI | hI
        · exact lexLess_trans _ _ _ (hprior I hI) hstep
        · rw [List.mem_singleton.mp hI]; exact hstep)
      (pairwise_lexLess_snoc prior s.indices hprior hpw)
    refine ⟨Event.validate k s.indices true ::
      Event.solve s.indices (alignmentAlgorithm env t (validateCorrespondences env k s).2).1 :: tr,
      ?_, ?_, ?_⟩
    · rw [h1, setIndex_trace, solver_trace, validate_trace, hv]; simp
    · simpa [solveCalls] using h2
    · simpa [solveCalls] using h3
  · intro k t s ik ik1 found t3 s3 jk1 jk res hik _ hv _ hik1 _ ih3 _ hjk _ ih
      prior hprior hpw
    have hs2 : ∀ I ∈ prior, lexLess I
        (if ik1 < ik then (validateCorrespondences env k s).2.setIndex (k + 1) (ik + 1)
          else (validateCorrespondences env k s).2).indices = true := by
      intro I hI
      split
      · rename_i hlt
        simp only [setIndex_indices, validate_indices]
        exact lexLess_trans _ _ _ (hprior I hI)
          (lexLess_set _ _ _ _ (by simpa using hik1) (by omega))
      · simpa using hprior I hI
    obtain ⟨tr3, g1, g2, g3⟩ := ih3 prior hs2 hpw
    simp only at g1 g2
    obtain ⟨tr, h1, h2, h3⟩ := ih (prior ++ solveCalls tr3)
      (fun I hI => by
        rcases carry_lexLess env k jk1 jk s3 hjk with hc | hc
        · rw [hc]; exact g2 I hI
        · exact lexLess_trans _ _ _ (g2 I hI) hc) g3
    refine ⟨Event.validate k s.indices true :: (tr3 ++ tr), ?_, ?_, ?_⟩
    · rw [h1, carry_trace, g1]
      have : (if ik1 < ik then (validateCorrespondences env k s).2.setIndex (k + 1) (ik + 1)
          else (validateCorrespondences env k s).2).trace =
          s.trace ++ [Event.validate k s.indices true] := by
        split
        · rw [setIndex_trace, validate_trace, hv]
        · rw [validate_trace, hv]
      rw [this]; simp
    · simpa [solveCalls, solveCalls_append] using h2
    · simpa [solveCalls, solveCalls_append] using h3

end IncreasingFacts

section IncreasingLoopFacts

variable {σ T V P : Type} [DecidableEq V]

/-- An iteration of the `for` loop that produces a result has run
`computeMinimalSet(t, 0)` to a result, and leaves the index vector and the
trace as that call left them. -/
theorem iteration_search (env : Env σ T V P) (fuel : Nat) (debug : Bool) (bff : Int)
    (b : Best T) (s : RansacState σ V P) (res : Bool × Best T × RansacState σ V P)
    (h : iteration env fuel debug bff b s = Outcome.ok res) :
    ∃ found t s1, computeMinimalSet env fuel 0 env.defaultTransform s = Outcome.ok (found, t, s1) ∧
      res.2.2.indices = s1.indices ∧ res.2.2.trace = s1.trace := by
  unfold iteration at h
  cases hcall : computeMinimalSet env fuel 0 env.defaultTransform s with
  | fault => simp [hcall] at h
  | timeout => simp [hcall] at h
  | ok r =>
    obtain ⟨found, t, s1⟩ := r
    refine ⟨found, t, s1, rfl, ?_⟩
    cases found with
    | false =>
      simp only [hcall, Outcome.ok.injEq] at h
      subst h
      exact ⟨rfl, rfl⟩
    | true =>
      simp only [hcall] at h
      split at h
      · simp only [Outcome.ok.injEq] at h
        subst h
        exact ⟨rfl, rfl⟩
      · simp only [Outcome.ok.injEq] at h
        subst h
        exact ⟨retain_indices env _ _ _ _ _ _, retain_trace env _ _ _ _ _ _⟩

/-- During the `for` loop of `operator()` the index vectors passed to the
solver continue a strictly increasing sequence. -/
theorem searchLoop_increasing (env : Env σ T V P) (fuel : Nat) (debug : Bool) (bff : Int)
    (remaining : Nat) :
    ∀ (b : Best T) (s : RansacState σ V P) (res : Best T × RansacState σ V P),
      searchLoop env fuel debug bff remaining b s = Outcome.ok res →
      ∀ prior : List (List Int), (∀ I ∈ prior, lexLess I s.indices = true) →
        List.Pairwise (fun a b => lexLess a b = true) prior →
        ∃ tr, res.2.trace = s.trace ++ tr ∧
          List.Pairwise (fun a b => lexLess a b = true) (prior ++ solveCalls tr) := by
  induction remaining with
  | zero =>
    intro b s res h prior _ hpw
    simp only [searchLoop, Outcome.ok.injEq] at h
    subst h
    exact ⟨[], by simp, by simpa [solveCalls] using hpw⟩
  | succ remaining ih =>
    intro b s res h prior hprior hpw
    rw [searchLoop] at h
    cases hi : s.indices[0]? with
    | none => simp [hi] at h
    | some i0 =>
      simp only [hi] at h
      by_cases hg : i0 > (env.n : Int) - (s.indices.length : Int)
      · simp only [hg, if_true, Outcome.ok.injEq] at h
        subst h
        exact ⟨[], by simp, by simpa [solveCalls] using hpw⟩
      · simp only [hg, if_false] at h
        cases hit : iteration env fuel debug bff b s with
        | fault => simp [hit] at h
        | timeout => simp [hit] at h
        | ok r =>
          obtain ⟨c, b1, s2⟩ := r
          obtain ⟨found, t, s1, hcall, hidx, htr⟩ := iteration_search env fuel debug bff b s _ hit
          obtain ⟨tr1, g1, g2, g3⟩ := computeMinimalSetLoop_increasing env fuel 0 false
            env.defaultTransform s _ hcall prior hprior hpw
          simp only at hidx htr g1 g2
          cases c with
          | true =>
            simp only [hit] at h
            obtain ⟨tr2, h1, h2⟩ := ih b1 s2 res h (prior ++ solveCalls tr1)
              (by rw [hidx]; exact g2) g3
            refine ⟨tr1 ++ tr2, ?_, ?_⟩
            · rw [h1, htr, g1]; simp
            · simpa [solveCalls_append] using h2
          | false =>
            simp only [hit, Outcome.ok.injEq] at h
            subst h
            exact ⟨tr1, by rw [htr, g1], g3⟩

end IncreasingLoopFacts

/-! ## Auxiliary facts: homogeneous matrices -/

section TransformFacts

variable {D : Type} [CommRing D]

/-- The two block assignments of `_updateMatrices` on an identity matrix
build the matrix `[M | v; 0 0 0 1]`. -/
theorem setBlock_eq_homogeneous (M : Matrix (Fin 3) (Fin 3) D) (v : Fin 3 → D) :
    setBlock31 (setBlock33 1 M) v = homogeneous M v := by
  ext i j
  fin_cases i <;> fin_cases j <;> rfl

/-- The upper left block of `[M | v; 0 0 0 1]`. -/
theorem linear_homogeneous (M : Matrix (Fin 3) (Fin 3) D) (v : Fin 3 → D) :
    linear (homogeneous M v) = M := by
  ext i j
  fin_cases i <;> fin_cases j <;> rfl

/-- The last column of `[M | v; 0 0 0 1]`. -/
theorem translation_homogeneous (M : Matrix (Fin 3) (Fin 3) D) (v : Fin 3 → D) :
    translation (homogeneous M v) = v := by
  ext i
  fin_cases i <;> rfl

/-- The identity matrix is `[1 | 0; 0 0 0 1]`. -/
theorem homogeneous_one : homogeneous (1 : Matrix (Fin 3) (Fin 3) D) 0 = 1 := by
  ext i j
  fin_cases i <;> fin_cases j <;> rfl

/-- A matrix with last row `[0,0,0,1]` is `[linear | translation; 0 0 0 1]`. -/
theorem eq_homogeneous_of_last_row (m : Matrix (Fin 4) (Fin 4) D) (h : m 3 = ![0, 0, 0, 1]) :
    m = homogeneous (linear m) (translation m) := by
  ext i j
  fin_cases i
  · fin_cases j <;> rfl
  · fin_cases j <;> rfl
  · fin_cases j <;> rfl
  · show m 3 j = homogeneous (linear m) (translation m) 3 j
    rw [h]
    fin_cases j <;> rfl

/-- Product of two matrices of the form `[M | v; 0 0 0 1]`. -/
theorem homogeneous_mul (M N : Matrix (Fin 3) (Fin 3) D) (v w : Fin 3 → D) :
    homogeneous M v * homogeneous N w = homogeneous (M * N) (M.mulVec w + v) := by
  have c2 : Fin.castSucc (2 : Fin 3) = (2 : Fin 4) := rfl
  ext i j
  fin_cases i <;> fin_cases j <;>
    simp [homogeneous, Matrix.mul_apply, Matrix.mulVec, Matrix.dotProduct, Fin.sum_univ_succ, c2] <;>
    ring

/-- Overwriting the last row of a left inverse of a matrix with last row
`[0,0,0,1]` gives a left inverse again. -/
theorem setLastRow_mul_eq_one (a m : Matrix (Fin 4) (Fin 4) D) (h : m 3 = ![0, 0, 0, 1])
    (ha : a * m = 1) : setLastRow a * m = 1 := by
  ext i j
  by_cases hi : i = 3
  · subst hi
    have : (setLastRow a * m) 3 j = m 3 j := by
      simp [Matrix.mul_apply, setLastRow, Fin.sum_univ_succ]
    rw [this, h]
    fin_cases j <;> rfl
  · have : (setLastRow a * m) i j = (a * m) i j := by
      simp [Matrix.mul_apply, setLastRow, hi]
    rw [this, ha]

/-- What `_updateMatrices` computes when the two `inverse()` calls return
left inverses and the sensor transform has last row `[0,0,0,1]`: the linear
part of `_iT` is a left inverse of the linear part of `_transform`, and the
translation of `_iT` is minus that inverse applied to the translation. -/
theorem inverse_blocks (a m : Matrix (Fin 4) (Fin 4) D) (h : m 3 = ![0, 0, 0, 1])
    (ha : a * m = 1) :
    linear (setLastRow a) * linear m = 1 ∧
    translation (setLastRow a) = -((linear (setLastRow a)).mulVec (translation m)) := by
  have h1 := setLastRow_mul_eq_one a m h ha
  have hrow : setLastRow a 3 = ![0, 0, 0, 1] := by
    funext j
    fin_cases j <;> simp [setLastRow]
  rw [eq_homogeneous_of_last_row (setLastRow a) hrow, eq_homogeneous_of_last_row m h,
    homogeneous_mul] at h1
  have h2 := congrArg linear h1
  have h3 := congrArg translation h1
  rw [linear_homogeneous, ← homogeneous_one, linear_homogeneous] at h2
  rw [translation_homogeneous, ← homogeneous_one, translation_homogeneous] at h3
  exact ⟨h2, eq_neg_of_add_eq_zero_right h3⟩

/-- On a transform with last row `[0,0,0,1]` whose linear part `R` satisfies
`Rᵀ R = 1`, the operation `inverse()` of an isometry returns an inverse. -/
theorem isometryInverse_mul_self (m : Matrix (Fin 4) (Fin 4) D) (h : m 3 = ![0, 0, 0, 1])
    (hR : (linear m).transpose * linear m = 1) : isometryInverse m * m = 1 := by
  have hm : isometryInverse m * m =
      isometryInverse m * homogeneous (linear m) (translation m) := by
    rw [← eq_homogeneous_of_last_row m h]
  rw [hm]
  unfold isometryInverse
  rw [homogeneous_mul, hR, add_neg_cancel, homogeneous_one]

/-- What `_updateMatrices` caches when the two `inverse()` calls return
inverses of the sensor transform and of the camera matrix, for a sensor
transform with last row `[0,0,0,1]`: the linear part of `_iT` and `_iK` are
two-sided inverses, `_KRt` and `_iKRt` have the block forms
`[K*R⁻¹ | K*(-R⁻¹*t); 0 0 0 1]` and `[R*K⁻¹ | t; 0 0 0 1]`, and they are
inverse to each other. -/
theorem updateMatrices_of_inverses
    (transformInverse : Matrix (Fin 4) (Fin 4) D → Matrix (Fin 4) (Fin 4) D)
    (matrixInverse : Matrix (Fin 3) (Fin 3) D → Matrix (Fin 3) (Fin 3) D)
    (p : ProjectorMatrices D)
    (hrow : p._transform 3 = ![0, 0, 0, 1])
    (hT : transformInverse p._transform * p._transform = 1)
    (hK : matrixInverse p._cameraMatrix * p._cameraMatrix = 1) :
    linear (_updateMatrices transformInverse matrixInverse p)._iT * linear p._transform = 1 ∧
    linear p._transform * linear (_updateMatrices transformInverse matrixInverse p)._iT = 1 ∧
    (_updateMatrices transformInverse matrixInverse p)._iK * p._cameraMatrix = 1 ∧
    p._cameraMatrix * (_updateMatrices transformInverse matrixInverse p)._iK = 1 ∧
    (_updateMatrices transformInverse matrixInverse p)._KRt =
      homogeneous
        (p._cameraMatrix * linear (_updateMatrices transformInverse matrixInverse p)._iT)
        (p._cameraMatrix.mulVec
          (-((linear (_updateMatrices transformInverse matrixInverse p)._iT).mulVec
            (translation p._transform)))) ∧
    (_updateMatrices transformInverse matrixInverse p)._iKRt =
      homogeneous
        (linear p._transform * (_updateMatrices transformInverse matrixInverse p)._iK)
        (translation p._transform) ∧
    (_updateMatrices transformInverse matrixInverse p)._iKRt *
      (_updateMatrices transformInverse matrixInverse p)._KRt = 1 ∧
    (_updateMatrices transformInverse matrixInverse p)._KRt *
      (_updateMatrices transformInverse matrixInverse p)._iKRt = 1 := by
  obtain ⟨hR, ht⟩ := inverse_blocks (transformInverse p._transform) p._transform hrow hT
  have hR2 : linear p._transform * linear (setLastRow (transformInverse p._transform)) = 1 :=
    Matrix.mul_eq_one_comm.mp hR
  have hK2 : p._cameraMatrix * matrixInverse p._cameraMatrix = 1 := Matrix.mul_eq_one_comm.mp hK
  have hKRt : (_updateMatrices transformInverse matrixInverse p)._KRt =
      homogeneous (p._cameraMatrix * linear (setLastRow (transformInverse p._transform)))
        (p._cameraMatrix.mulVec
          (-((linear (setLastRow (transformInverse p._transform))).mulVec
            (translation p._transform)))) := by
    simp only [_updateMatrices, setBlock_eq_homogeneous]
    rw [ht]
  have hiKRt : (_updateMatrices transformInverse matrixInverse p)._iKRt =
      homogeneous (linear p._transform * matrixInverse p._cameraMatrix)
        (translation p._transform) := by
    simp only [_updateMatrices, setBlock_eq_homogeneous]
  refine ⟨hR, hR2, hK, hK2, hKRt, hiKRt, ?_, ?_⟩
  · have hM : linear p._transform * matrixInverse p._cameraMatrix *
        (p._cameraMatrix * linear (setLastRow (transformInverse p._transform))) = 1 := by
      calc linear p._transform * matrixInverse p._cameraMatrix *
            (p._cameraMatrix * linear (setLastRow (transformInverse p._transform)))
          = linear p._transform * (matrixInverse p._cameraMatrix * p._cameraMatrix) *
              linear (setLastRow (transformInverse p._transform)) := by
            simp only [Matrix.mul_assoc]
        _ = 1 := by rw [hK, Matrix.mul_one, hR2]
    have hv : (linear p._transform * matrixInverse p._cameraMatrix).mulVec
        (p._cameraMatrix.mulVec
          (-((linear (setLastRow (transformInverse p._transform))).mulVec
            (translation p._transform)))) + translation p._transform = 0 := by
      rw [Matrix.mulVec_mulVec, Matrix.mulVec_neg, Matrix.mulVec_mulVec,
        Matrix.mul_assoc (linear p._transform * matrixInverse p._cameraMatrix), hM,
        Matrix.one_mulVec]
      exact neg_add_cancel _
    rw [hKRt, hiKRt, homogeneous_mul, hM, hv, homogeneous_one]
  · have hM : p._cameraMatrix * linear (setLastRow (transformInverse p._transform)) *
        (linear p._transform * matrixInverse p._cameraMatrix) = 1 := by
      calc p._cameraMatrix * linear (setLastRow (transformInverse p._transform)) *
            (linear p._transform * matrixInverse p._cameraMatrix)
          = p._cameraMatrix * (linear (setLastRow (transformInverse p._transform)) *
              linear p._transform) * matrixInverse p._cameraMatrix := by
            simp only [Matrix.mul_assoc]
        _ = 1 := by rw [hR, Matrix.mul_one, hK2]
    have hv : (p._cameraMatrix * linear (setLastRow (transformInverse p._transform))).mulVec
        (translation p._transform) +
        p._cameraMatrix.mulVec
          (-((linear (setLastRow (transformInverse p._transform))).mulVec
            (translation p._transform))) = 0 := by
      rw [Matrix.mulVec_neg, ← Matrix.mulVec_mulVec]
      exact add_neg_cancel _
    rw [hKRt, hiKRt, homogeneous_mul, hM, hv, homogeneous_one]

end TransformFacts

/-! ## The claims -/

section ClaimsOperatorA

variable {σ T V P : Type} [DecidableEq V]

/-- Claim C1, as amended: when the correspondence count is smaller than
`minimalSetSize`, `operator()` returns false for every step budget, inlier
list and transform passed in, and leaves the inlier list, the transform and
the object exactly as they were at the call (so the list is empty on return
only if the caller passed an empty list). -/
theorem operator_too_few_correspondences (env : Env σ T V P) (fuel : Nat) (treturn : T)
    (inliers_ : List Int) (debug : Bool) (bestFriendFilter : Int) (s : RansacState σ V P)
    (h : (env.n : Int) < env.minimalSetSize) :
    operator env fuel treturn inliers_ debug bestFriendFilter s =
      Outcome.ok { returned := false, treturn := treturn, inliers := inliers_, state := s } := by
  unfold operator
  simp only [h, if_true]

/-- Claim C1, instance of the amended statement: no correspondence, minimal
sets of size 1, and a caller's list `[7]`. -/
theorem operator_too_few_correspondences_witness :
    (envDegenerate.n : Int) < envDegenerate.minimalSetSize ∧
    operator envDegenerate 0 0 [7] false 0 (exampleState []) =
      Outcome.ok { returned := false, treturn := 0, inliers := [7], state := exampleState [] } :=
  ⟨by decide, operator_too_few_correspondences envDegenerate 0 0 [7] false 0 (exampleState [])
    (by decide)⟩

/-- Claim C1, counterexample to the statement as written: with no
correspondence, minimal sets of size 1 and the caller's list `[7]`,
`operator()` returns false and the list on return is `[7]`, not empty. -/
theorem operator_too_few_keeps_inlier_list :
    (envDegenerate.n : Int) < envDegenerate.minimalSetSize ∧
    (operator envDegenerate 0 0 [7] false 0 (exampleState [])).toOption.map
      (fun r => (r.returned, r.inliers)) = some (false, [7]) := by
  decide

end ClaimsOperatorA

section ClaimsProjector

variable {Pt D : Type} [LinearOrder D]

/-- Claim C2: after `project(indexImage, depthImage, points)` both images have
the dimensions of `indexImage`; at every pixel `(x, y)` to which at least one
point projects with a depth inside `[minDistance, maxDistance]` and inside
the image bounds, the depth image holds the minimum depth over those points
(the depth of one of them, and no larger than the depth of any of them); at
every other pixel the depth image holds the sentinel
`std::numeric_limits<float>::max()` and the index image holds -1.  Depths
are the elements of a linear order; `maxDistance` is assumed not to exceed the
sentinel, as every finite `float` does. -/
theorem project_zbuffer (pp : CylindricalPointProjector Pt D)
    (hmax : pp.maxDistance ≤ pp.floatMax)
    (indexImage : Image Int) (depthImage : Image D) (points : List Pt) (x y : Int) :
    (project pp indexImage depthImage points).2.rows = indexImage.rows ∧
    (project pp indexImage depthImage points).2.cols = indexImage.cols ∧
    (project pp indexImage depthImage points).1.rows = indexImage.rows ∧
    (project pp indexImage depthImage points).1.cols = indexImage.cols ∧
    ((∃ p ∈ points, ∃ d, ProjectsTo pp indexImage.rows indexImage.cols p x y d) →
      (∃ p ∈ points, ProjectsTo pp indexImage.rows indexImage.cols p x y
          ((project pp indexImage depthImage points).2.coeff x y)) ∧
      ∀ p ∈ points, ∀ d, ProjectsTo pp indexImage.rows indexImage.cols p x y d →
        (project pp indexImage depthImage points).2.coeff x y ≤ d) ∧
    ((¬ ∃ p ∈ points, ∃ d, ProjectsTo pp indexImage.rows indexImage.cols p x y d) →
      (project pp indexImage depthImage points).2.coeff x y = pp.floatMax ∧
      (project pp indexImage depthImage points).1.coeff x y = -1) := by
  have hd := projectLoop_dims pp points 0
    (indexImage.fill (-1), (depthImage.resize indexImage.rows indexImage.cols).fill pp.floatMax)
  have hp := projectLoop_pixel pp x y points 0
    (indexImage.fill (-1), (depthImage.resize indexImage.rows indexImage.cols).fill pp.floatMax)
  simp only [Image.fill, Image.resize] at hd hp
  obtain ⟨d1, d2, d3, d4⟩ := hd
  obtain ⟨-, p2, p3⟩ := hp
  unfold project
  simp only [Image.fill, Image.resize]
  refine ⟨d3, d4, d1, d2, ?_, ?_⟩
  · rintro ⟨p, hp, d, hpd⟩
    refine ⟨?_, p2⟩
    rcases p3 with ⟨p3a, -⟩ | p3
    · refine ⟨p, hp, ?_⟩
      have h1 := p2 p hp d hpd
      rw [p3a] at h1 ⊢
      have : d = pp.floatMax := le_antisymm (hpd.2.2.1.trans hmax) h1
      rw [← this]; exact hpd
    · exact p3
  · intro hno
    rcases p3 with p3 | ⟨p, hp, hpd⟩
    · exact p3
    · exact absurd ⟨p, hp, _, hpd⟩ hno

/-- Claim C2, instance: two points at pixel (0,0) with depths 5 and 3 and one
point out of range; the depth at (0,0) is at most 3. -/
theorem project_zbuffer_witness :
    exampleProjector.maxDistance ≤ exampleProjector.floatMax ∧
    (project exampleProjector exampleImage exampleImage [(0, 0, 5), (0, 0, 3), (1, 1, 20)]).2.coeff
      0 0 ≤ 3 :=
  ⟨by decide,
   ((project_zbuffer exampleProjector (by decide) exampleImage exampleImage
      [(0, 0, 5), (0, 0, 3), (1, 1, 20)] 0 0).2.2.2.2.1
        ⟨(0, 0, 3), by decide, 3, by decide⟩).2 (0, 0, 3) (by decide) 3 (by decide)⟩

end ClaimsProjector

section ClaimsOperatorB

variable {σ T V P : Type} [DecidableEq V]

/-- Claim C3: in an iteration of the `for` loop of `operator()` in which
`computeMinimalSet` produced hypothesis `t` and the scored inlier list `inl`
has at least `minimalSetSize` elements, the incumbent (best inlier list, best
mean error, best transform, stored errors `_errors`) is replaced by the
hypothesis exactly when `inl` is strictly longer than the incumbent's list and
its mean error `error / inl.size()` is strictly lower than the incumbent's;
in every other case the four are unchanged.  Here `error` is the sum of the
recomputed errors of the scoring inliers, and without the best-friend filter
`inl` is the list of those inliers. -/
theorem iteration_retention_rule (env : Env σ T V P) (fuel : Nat) (debug : Bool)
    (bestFriendFilter : Int) (b : Best T) (s s1 : RansacState σ V P) (t : T)
    (sc : Score V P) (inl : List Int)
    (hcall : computeMinimalSet env fuel 0 env.defaultTransform s = Outcome.ok (true, t, s1))
    (hsc : sc = scoreHypothesis env debug t s1.est)
    (hinl : inl = applyBestFriendFilter env bestFriendFilter sc)
    (hmin : env.minimalSetSize ≤ (inl.length : Int)) :
    ∃ c b1 s2, iteration env fuel debug bestFriendFilter b s = Outcome.ok (c, b1, s2) ∧
      ((inl.length > b.bestInliers.length ∧ sc.error / (inl.length : ℚ) < b.bestError) →
        b1.bestInliers = inl ∧ b1.bestError = sc.error / (inl.length : ℚ) ∧
        b1.bestTransform = t ∧ s2.errors = sc.currentErrors) ∧
      (¬ (inl.length > b.bestInliers.length ∧ sc.error / (inl.length : ℚ) < b.bestError) →
        b1.bestInliers = b.bestInliers ∧ b1.bestError = b.bestError ∧
        b1.bestTransform = b.bestTransform ∧ s2.errors = s.errors) ∧
      sc.error = ((inlierPositions env t s1.est).map (chi2Under env t s1.est)).sum ∧
      (bestFriendFilter = 0 → inl = (inlierPositions env t s1.est).map (fun k : Nat => (k : Int))) := by
  obtain ⟨-, -, -, -, -, herr⟩ := computeMinimalSetLoop_trace env fuel 0 false _ s _ hcall
  obtain ⟨-, hi, he⟩ := scoreHypothesis_spec env debug t s1.est
  have hmin' : ¬ (inl.length : Int) < env.minimalSetSize := not_lt.mpr hmin
  subst hsc hinl
  have hit : iteration env fuel debug bestFriendFilter b s = Outcome.ok
      (retain env t (applyBestFriendFilter env bestFriendFilter (scoreHypothesis env debug t s1.est))
        (scoreHypothesis env debug t s1.est).error
        (scoreHypothesis env debug t s1.est).currentErrors b
        { s1 with est := (scoreHypothesis env debug t s1.est).est }) := by
    unfold iteration
    simp only [hcall, hmin', if_false]
  have hr := retain_spec env t
    (applyBestFriendFilter env bestFriendFilter (scoreHypothesis env debug t s1.est))
    (scoreHypothesis env debug t s1.est).error
    (scoreHypothesis env debug t s1.est).currentErrors b
    { s1 with est := (scoreHypothesis env debug t s1.est).est }
  refine ⟨_, _, _, hit, hr.1, ?_, he, ?_⟩
  · intro hc
    have := hr.2 hc
    simp only at herr
    rw [← herr.2]
    exact this
  · intro h0
    simp only [applyBestFriendFilter, h0, ne_eq, not_true_eq_false, if_false]
    exact hi

/-- Claim C3, instance: the first hypothesis on `envOk`, against the initial
incumbent. -/
theorem iteration_retention_rule_witness :
    computeMinimalSet envOk 20 0 envOk.defaultTransform (exampleState [0, 1]) =
      Outcome.ok (true, 5, exampleHypothesisState) ∧
    envOk.minimalSetSize ≤ ((applyBestFriendFilter envOk 0 exampleScore).length : Int) ∧
    ∃ c b1 s2, iteration envOk 20 false 0 (initialBest envOk 0) (exampleState [0, 1]) =
        Outcome.ok (c, b1, s2) ∧
      (((applyBestFriendFilter envOk 0 exampleScore).length >
            (initialBest envOk 0).bestInliers.length ∧
          exampleScore.error / ((applyBestFriendFilter envOk 0 exampleScore).length : ℚ) <
            (initialBest envOk 0).bestError) →
        b1.bestInliers = applyBestFriendFilter envOk 0 exampleScore ∧
        b1.bestError =
          exampleScore.error / ((applyBestFriendFilter envOk 0 exampleScore).length : ℚ) ∧
        b1.bestTransform = 5 ∧ s2.errors = exampleScore.currentErrors) ∧
      (¬ ((applyBestFriendFilter envOk 0 exampleScore).length >
            (initialBest envOk 0).bestInliers.length ∧
          exampleScore.error / ((applyBestFriendFilter envOk 0 exampleScore).length : ℚ) <
            (initialBest envOk 0).bestError) →
        b1.bestInliers = (initialBest envOk 0).bestInliers ∧
        b1.bestError = (initialBest envOk 0).bestError ∧
        b1.bestTransform = (initialBest envOk 0).bestTransform ∧
        s2.errors = (exampleState [0, 1]).errors) ∧
      exampleScore.error =
        ((inlierPositions envOk 5 exampleHypothesisState.est).map
          (chi2Under envOk 5 exampleHypothesisState.est)).sum ∧
      ((0 : Int) = 0 → applyBestFriendFilter envOk 0 exampleScore =
        (inlierPositions envOk 5 exampleHypothesisState.est).map (fun k : Nat => (k : Int))) :=
  ⟨rfl, by with_unfolding_all decide,
    iteration_retention_rule envOk 20 false 0 (initialBest envOk 0) (exampleState [0, 1])
      exampleHypothesisState 5 exampleScore (applyBestFriendFilter envOk 0 exampleScore)
      rfl rfl rfl (by with_unfolding_all decide)⟩

end ClaimsOperatorB

section ClaimsSearch

variable {σ T V P : Type}

/-- Claim C4, evaluation at the failing input: three correspondences, minimal
sets of size 2, search started from `[0,1]`, validators that reject at depth 0
the vectors starting with 0.  The solver is called on `[1,1]`, which is not
strictly increasing, and then on `[1,2]`. -/
theorem computeMinimalSet_passes_repeated_index :
    (envRejectFirst.n : Int) ≥ envRejectFirst.minimalSetSize ∧
    (computeMinimalSet envRejectFirst 30 0 0 (exampleState [0, 1])).toOption.map
      (fun r => solveCalls r.2.2.trace) = some [[1, 1], [1, 2]] := by
  decide

/-- Claim C5, evaluation at the failing input: four correspondences, minimal
sets of size 3, search started from `[0,1,2]`, accepting validators and a
solver that always fails.  `computeMinimalSet(t, 0)` returns false after
calling the solver on `[0,1,2]`, `[0,1,3]` and `[0,2,3]` only: the subset
`[1,2,3]` is never tried. -/
theorem computeMinimalSet_skips_combination :
    (computeMinimalSet envAllFail 60 0 0 (exampleState [0, 1, 2])).toOption.map
      (fun r => (r.1, solveCalls r.2.2.trace)) =
      some (false, [[0, 1, 2], [0, 1, 3], [0, 2, 3]]) := by
  decide

/-- Claim C6: in a call `computeMinimalSet(t, 0)`, every call of the
minimal-set solver on an index vector `I` is preceded, for every depth `k`
below `minimalSetSize`, by a call `validateCorrespondences(k)` of the same
search that returned true on an index vector agreeing with `I` on positions
`0..k`.  Consequently, when the result of the validators depends only on the
depth `k` and on positions `0..k` of the index vector, the solver is never
called on a vector that agrees on positions `0..k` with a vector rejected at
depth `k`. -/
theorem computeMinimalSet_solver_calls_validated (env : Env σ T V P) (fuel : Nat) (t : T)
    (s : RansacState σ V P) (res : Bool × T × RansacState σ V P)
    (h : computeMinimalSet env fuel 0 t s = Outcome.ok res) :
    ∃ tr, res.2.2.trace = s.trace ++ tr ∧
      (∀ pre I r post, tr = pre ++ Event.solve I r :: post →
        ∀ k : Nat, (k : Int) < env.minimalSetSize →
          ∃ J, Event.validate k J true ∈ pre ∧ AgreeUpTo k J I) ∧
      ((∀ x y J I k, AgreeUpTo k J I → (env.validators x J k).1 = (env.validators y I k).1) →
        ∀ (k : Nat) (J I : List Int) (r : Bool), (k : Int) < env.minimalSetSize →
          Event.validate k J false ∈ tr → Event.solve I r ∈ tr → ¬ AgreeUpTo k J I) := by
  obtain ⟨tr, h1, -⟩ := computeMinimalSetLoop_trace env fuel 0 false t s res h
  have hj := computeMinimalSetLoop_justified env fuel 0 false t s res h []
    (fun j hj => absurd hj (Nat.not_lt_zero j)) tr h1
  have ht := computeMinimalSetLoop_truthful env fuel 0 false t s res h tr h1
  have hfirst : ∀ pre I r post, tr = pre ++ Event.solve I r :: post →
      ∀ k : Nat, (k : Int) < env.minimalSetSize →
        ∃ J, Event.validate k J true ∈ pre ∧ AgreeUpTo k J I := by
    intro pre I r post hsplit k hk
    simpa using hj pre I r post hsplit k hk
  refine ⟨tr, h1, hfirst, ?_⟩
  intro hdet k J I r hk hrej hsol hag
  obtain ⟨pre, post, hsplit⟩ := List.append_of_mem hsol
  obtain ⟨J', hJ', hag'⟩ := hfirst pre I r post hsplit k hk
  have hJ'tr : Event.validate k J' true ∈ tr := by
    rw [hsplit]; exact List.mem_append_left _ hJ'
  obtain ⟨x, hx⟩ := ht k J false hrej
  obtain ⟨y, hy⟩ := ht k J' true hJ'tr
  have hJJ' : AgreeUpTo k J J' := fun i hi => (hag i hi).trans (hag' i hi).symm
  have := hdet x y J J' k hJJ'
  rw [hx, hy] at this
  exact Bool.noConfusion this

/-- Claim C6, instance: the search on `envRejectFirst`, whose validators
reject at depth 0 the vectors starting with 0. -/
theorem computeMinimalSet_solver_calls_validated_witness :
    computeMinimalSet envRejectFirst 30 0 0 (exampleState [0, 1]) =
        Outcome.ok (false, 5, exampleRejectState) ∧
      ∃ tr, exampleRejectState.trace = (exampleState [0, 1]).trace ++ tr ∧
        (∀ pre I r post, tr = pre ++ Event.solve I r :: post →
          ∀ k : Nat, (k : Int) < envRejectFirst.minimalSetSize →
            ∃ J, Event.validate k J true ∈ pre ∧ AgreeUpTo k J I) ∧
        ((∀ x y J I k, AgreeUpTo k J I →
            (envRejectFirst.validators x J k).1 = (envRejectFirst.validators y I k).1) →
          ∀ (k : Nat) (J I : List Int) (r : Bool), (k : Int) < envRejectFirst.minimalSetSize →
            Event.validate k J false ∈ tr → Event.solve I r ∈ tr → ¬ AgreeUpTo k J I) :=
  ⟨rfl, computeMinimalSet_solver_calls_validated envRejectFirst 30 0 (exampleState [0, 1])
    (false, 5, exampleRejectState) rfl⟩

end ClaimsSearch

section ClaimsOperatorC

variable {σ T V P : Type} [DecidableEq V]

/-- Claim C8: when `operator()` returns true, the events after the `for` loop
consist of exactly one call of the solver, on the best inlier list (the list
returned to the caller) and seeded with `bestTransform`, and the transform
returned is the one that call leaves; the loop itself makes no refinement
call.  When `operator()` returns false no refinement call is made at all. -/
theorem operator_final_refinement (env : Env σ T V P) (fuel : Nat) (treturn : T)
    (inliers_ : List Int) (debug : Bool) (bestFriendFilter : Int) (s : RansacState σ V P)
    (r : CallResult σ T V P)
    (h : operator env fuel treturn inliers_ debug bestFriendFilter s = Outcome.ok r) :
    (r.returned = true →
      ∃ idx b s1 tr, env.initIndices = some idx ∧
        searchLoop env fuel debug bestFriendFilter env.maxIterations.toNat
          (initialBest env treturn) { s with indices := idx } = Outcome.ok (b, s1) ∧
        s1.trace = s.trace ++ tr ∧ (∀ e ∈ tr, e.isRefine = false) ∧
        r.inliers = b.bestInliers ∧
        r.state.trace = s1.trace ++
          [Event.refine r.inliers (env.solver s1.ext b.bestTransform r.inliers).1] ∧
        r.treturn = (env.solver s1.ext b.bestTransform r.inliers).2.1) ∧
    (r.returned = false →
      ∃ tr, r.state.trace = s.trace ++ tr ∧ ∀ e ∈ tr, e.isRefine = false) := by
  unfold operator at h
  by_cases hn : (env.n : Int) < env.minimalSetSize
  · simp only [hn, if_true, Outcome.ok.injEq] at h
    subst h
    exact ⟨fun hf => Bool.noConfusion hf, fun _ => ⟨[], by simp, by simp⟩⟩
  · simp only [hn, if_false] at h
    cases hinit : env.initIndices with
    | none => simp [hinit] at h
    | some idx =>
      simp only [hinit] at h
      cases hloop : searchLoop env fuel debug bestFriendFilter env.maxIterations.toNat
          (initialBest env treturn) { s with indices := idx } with
      | fault => simp [hloop] at h
      | timeout => simp [hloop] at h
      | ok bs =>
        obtain ⟨b, s1⟩ := bs
        obtain ⟨tr, h1, h2, -⟩ := searchLoop_trace env fuel debug bestFriendFilter _ _ _ _ hloop
        simp only at h1
        simp only [hloop, finish] at h
        by_cases hc : env.cleanupOk = true
        · simp only [hc, if_true, Outcome.ok.injEq] at h
          subst h
          cases hf : b.transformFound with
          | false =>
            simp only [hf]
            exact ⟨fun hx => Bool.noConfusion hx, fun _ => ⟨tr, h1, h2⟩⟩
          | true =>
            simp only [hf]
            refine ⟨fun _ => ⟨idx, b, s1, tr, rfl, hloop, h1, h2, rfl, ?_, ?_⟩,
              fun hx => Bool.noConfusion hx⟩
            · simp
            · simp
        · simp [hc] at h

/-- Claim C8, instance: the call on `envOk`, which returns true. -/
theorem operator_final_refinement_witness :
    operator envOk 20 0 [] false 0 (exampleState []) = Outcome.ok exampleCallResult ∧
    (exampleCallResult.returned = false →
      ∃ tr, exampleCallResult.state.trace = (exampleState []).trace ++ tr ∧
        ∀ e ∈ tr, e.isRefine = false) :=
  ⟨by with_unfolding_all rfl,
   (operator_final_refinement envOk 20 0 [] false 0 (exampleState []) exampleCallResult
      (by with_unfolding_all rfl)).2⟩

/-- Claim C9: suppose the `for` loop of a call of `operator()` arrives at an
iteration in which `computeMinimalSet` produces a hypothesis `t` whose scored
inlier list `inl` has at least `minimalSetSize` elements, is retained as best
(strictly more inliers and strictly lower mean error than the incumbent) and
satisfies `inl.size() / n > inlierStopFraction`.  Then the call returns true
with inlier list `inl`, and the only event after the search that produced `t`
is the refinement call: no further minimal set is generated or scored. -/
theorem operator_stops_on_inlier_fraction (env : Env σ T V P) (fuel : Nat) (treturn : T)
    (inliers_ : List Int) (debug : Bool) (bestFriendFilter : Int) (s0 : RansacState σ V P)
    (idx : List Int) (remaining : Nat) (b : Best T) (s s1 : RansacState σ V P) (i0 : Int) (t : T)
    (sc : Score V P) (inl : List Int)
    (hn : ¬ (env.n : Int) < env.minimalSetSize)
    (hinit : env.initIndices = some idx)
    (hclean : env.cleanupOk = true)
    (hreach : LoopReaches env fuel debug bestFriendFilter
      (env.maxIterations.toNat, initialBest env treturn, { s0 with indices := idx })
      (remaining + 1, b, s))
    (hi0 : s.indices[0]? = some i0)
    (hguard : ¬ i0 > (env.n : Int) - (s.indices.length : Int))
    (hcall : computeMinimalSet env fuel 0 env.defaultTransform s = Outcome.ok (true, t, s1))
    (hsc : sc = scoreHypothesis env debug t s1.est)
    (hinl : inl = applyBestFriendFilter env bestFriendFilter sc)
    (hmin : env.minimalSetSize ≤ (inl.length : Int))
    (hmore : inl.length > b.bestInliers.length)
    (hbetter : sc.error / (inl.length : ℚ) < b.bestError)
    (hfrac : (inl.length : ℚ) / (env.n : ℚ) > env.inlierStopFraction) :
    operator env fuel treturn inliers_ debug bestFriendFilter s0 =
      Outcome.ok
        { returned := true
          treturn := (env.solver s1.ext t inl).2.1
          inliers := inl
          state :=
            { indices := s1.indices
              errors := sc.currentErrors
              est := sc.est
              ext := (env.solver s1.ext t inl).2.2
              trace := s1.trace ++ [Event.refine inl (env.solver s1.ext t inl).1] } } := by
  have hmin' : ¬ (inl.length : Int) < env.minimalSetSize := not_lt.mpr hmin
  subst hsc hinl
  have hit : iteration env fuel debug bestFriendFilter b s = Outcome.ok
      (false,
        { bestInliers := applyBestFriendFilter env bestFriendFilter
            (scoreHypothesis env debug t s1.est),
          bestError := (scoreHypothesis env debug t s1.est).error /
            ((applyBestFriendFilter env bestFriendFilter
              (scoreHypothesis env debug t s1.est)).length : ℚ),
          bestTransform := t, transformFound := true },
        { s1 with est := (scoreHypothesis env debug t s1.est).est,
                  errors := (scoreHypothesis env debug t s1.est).currentErrors }) := by
    unfold iteration
    simp only [hcall, hmin', if_false, retain, hmore, if_true, hbetter, hfrac]
  have hloop := loopReaches_searchLoop env fuel debug bestFriendFilter _ _ hreach
  simp only at hloop
  unfold operator
  simp only [hn, if_false, hinit, hloop]
  rw [searchLoop]
  simp only [hi0, hguard, if_false, hit, finish, if_true, hclean]

/-- Claim C9, instance: on `envTwoRounds` the first hypothesis has a single
inlier and is dropped; the second has three inliers out of four
correspondences, is retained, and exceeds the stop fraction one half, so the
call returns true with the inliers `[0,1,2]` right after the second search. -/
theorem operator_stops_on_inlier_fraction_witness :
    iteration envTwoRounds 20 false 0 (initialBest envTwoRounds 0) (exampleState [0, 1]) =
      Outcome.ok (true, initialBest envTwoRounds 0, exampleFirstRoundState) ∧
    computeMinimalSet envTwoRounds 20 0 envTwoRounds.defaultTransform exampleFirstRoundState =
      Outcome.ok (true, 5, exampleSecondRoundState) ∧
    applyBestFriendFilter envTwoRounds 0 exampleSecondScore = [0, 1, 2] ∧
    operator envTwoRounds 20 0 [] false 0 (exampleState []) =
      Outcome.ok
        { returned := true
          treturn := (envTwoRounds.solver exampleSecondRoundState.ext 5
            (applyBestFriendFilter envTwoRounds 0 exampleSecondScore)).2.1
          inliers := applyBestFriendFilter envTwoRounds 0 exampleSecondScore
          state :=
            { indices := exampleSecondRoundState.indices
              errors := exampleSecondScore.currentErrors
              est := exampleSecondScore.est
              ext := (envTwoRounds.solver exampleSecondRoundState.ext 5
                (applyBestFriendFilter envTwoRounds 0 exampleSecondScore)).2.2
              trace := exampleSecondRoundState.trace ++
                [Event.refine (applyBestFriendFilter envTwoRounds 0 exampleSecondScore)
                  (envTwoRounds.solver exampleSecondRoundState.ext 5
                    (applyBestFriendFilter envTwoRounds 0 exampleSecondScore)).1] } } :=
  ⟨by with_unfolding_all rfl, rfl, by with_unfolding_all decide,
   operator_stops_on_inlier_fraction envTwoRounds 20 0 [] false 0 (exampleState []) [0, 1] 8
    (initialBest envTwoRounds 0) exampleFirstRoundState exampleSecondRoundState 0 5
    exampleSecondScore (applyBestFriendFilter envTwoRounds 0 exampleSecondScore)
    (by decide) rfl rfl
    (LoopReaches.step 9 (initialBest envTwoRounds 0) (initialBest envTwoRounds 0)
      (exampleState [0, 1]) exampleFirstRoundState 0 _ rfl (by decide)
      (by with_unfolding_all rfl) (LoopReaches.here _))
    rfl (by decide) rfl rfl rfl
    (by with_unfolding_all decide) (by with_unfolding_all decide)
    (by with_unfolding_all decide) (by with_unfolding_all decide)⟩

/-- Claim C10, as amended: during one call of `operator()` the search produces
at most `maxIterations` hypotheses, that is, at most `maxIterations` of the
solver calls made by `computeMinimalSet` return true (the refinement call is
not counted).  Solver calls that fail are not counted by the loop. -/
theorem operator_hypotheses_le_maxIterations (env : Env σ T V P) (fuel : Nat) (treturn : T)
    (inliers_ : List Int) (debug : Bool) (bestFriendFilter : Int) (s : RansacState σ V P)
    (r : CallResult σ T V P)
    (h : operator env fuel treturn inliers_ debug bestFriendFilter s = Outcome.ok r) :
    ∃ tr, r.state.trace = s.trace ++ tr ∧ hypothesesFound tr ≤ env.maxIterations.toNat := by
  unfold operator at h
  by_cases hn : (env.n : Int) < env.minimalSetSize
  · simp only [hn, if_true, Outcome.ok.injEq] at h
    subst h
    exact ⟨[], by simp, by simp [hypothesesFound]⟩
  · simp only [hn, if_false] at h
    cases hinit : env.initIndices with
    | none => simp [hinit] at h
    | some idx =>
      simp only [hinit] at h
      cases hloop : searchLoop env fuel debug bestFriendFilter env.maxIterations.toNat
          (initialBest env treturn) { s with indices := idx } with
      | fault => simp [hloop] at h
      | timeout => simp [hloop] at h
      | ok bs =>
        obtain ⟨b, s1⟩ := bs
        obtain ⟨tr, h1, -, h3⟩ := searchLoop_trace env fuel debug bestFriendFilter _ _ _ _ hloop
        simp only at h1
        simp only [hloop, finish] at h
        by_cases hc : env.cleanupOk = true
        · simp only [hc, if_true, Outcome.ok.injEq] at h
          subst h
          cases hf : b.transformFound with
          | false =>
            simp only [hf]
            exact ⟨tr, h1, h3⟩
          | true =>
            simp only [hf]
            refine ⟨tr ++ [Event.refine b.bestInliers
              (env.solver s1.ext b.bestTransform b.bestInliers).1], ?_, ?_⟩
            · simp [h1]
            · rw [hypothesesFound_append]
              simpa [hypothesesFound] using h3
        · simp [hc] at h

/-- Claim C10, instance of the amended statement: the call on `envOk`. -/
theorem operator_hypotheses_le_maxIterations_witness :
    operator envOk 20 0 [] false 0 (exampleState []) = Outcome.ok exampleCallResult ∧
    ∃ tr, exampleCallResult.state.trace = (exampleState []).trace ++ tr ∧
      hypothesesFound tr ≤ envOk.maxIterations.toNat :=
  ⟨by with_unfolding_all rfl,
   operator_hypotheses_le_maxIterations envOk 20 0 [] false 0 (exampleState [])
      exampleCallResult (by with_unfolding_all rfl)⟩

/-- Claim C10, counterexample to the statement as written: with
`maxIterations = 1`, three correspondences, minimal sets of size 2 and a
solver that always fails, one call of `operator()` invokes the solver on three
candidate minimal sets. -/
theorem operator_solver_calls_exceed_maxIterations :
    envCapOne.maxIterations = 1 ∧
    (operator envCapOne 30 0 [] false 0 (exampleState [])).toOption.map
      (fun r => (r.returned, solveCalls r.state.trace)) =
      some (false, [[0, 1], [0, 2], [1, 2]]) := by
  decide

end ClaimsOperatorC

section ClaimsOperatorD

variable {σ T V P : Type} [DecidableEq V]

/-- Claim C11: if no hypothesis scored during the search of a call of
`operator()` has at least `minimalSetSize` inliers (in every iteration the
`for` loop reaches, a hypothesis produced by `computeMinimalSet` has fewer
inliers than `minimalSetSize`), the call returns false.  The call is shown to
return: `minimalSetSize` is at least 1, `_init()` leaves an index vector of at
least `minimalSetSize` entries, `_cleanup()` succeeds, and the step budget is
at least `max(0, n - _indices[0]) + minimalSetSize`. -/
theorem operator_fails_without_enough_inliers (env : Env σ T V P) (fuel : Nat) (treturn : T)
    (inliers_ : List Int) (debug : Bool) (bestFriendFilter : Int) (s : RansacState σ V P)
    (idx : List Int) (i0 : Int)
    (hm : 1 ≤ env.minimalSetSize)
    (hinit : env.initIndices = some idx)
    (hlen : env.minimalSetSize ≤ (idx.length : Int))
    (hi0 : idx[0]? = some i0)
    (hclean : env.cleanupOk = true)
    (hfuel : ((env.n : Int) - i0).toNat + env.minimalSetSize.toNat ≤ fuel)
    (hfew : ∀ remaining b s1 t s2,
      LoopReaches env fuel debug bestFriendFilter
        (env.maxIterations.toNat, initialBest env treturn, { s with indices := idx })
        (remaining + 1, b, s1) →
      computeMinimalSet env fuel 0 env.defaultTransform s1 = Outcome.ok (true, t, s2) →
      ((applyBestFriendFilter env bestFriendFilter (scoreHypothesis env debug t s2.est)).length
        : Int) < env.minimalSetSize) :
    ∃ r, operator env fuel treturn inliers_ debug bestFriendFilter s = Outcome.ok r ∧
      r.returned = false := by
  unfold operator
  by_cases hn : (env.n : Int) < env.minimalSetSize
  · simp only [hn, if_true]
    exact ⟨_, rfl, rfl⟩
  · simp only [hn, if_false, hinit]
    obtain ⟨s1, hloop⟩ := searchLoop_without_inliers env fuel debug bestFriendFilter
      (env.maxIterations.toNat, initialBest env treturn, { s with indices := idx }) hm hfew
      env.maxIterations.toNat (initialBest env treturn) { s with indices := idx } i0
      (LoopReaches.here _) hlen hi0 hfuel
    simp only [hloop]
    simp only [finish, initialBest, hclean, if_true, Bool.false_eq_true, if_false]
    exact ⟨_, rfl, rfl⟩

/-- Claim C11, instance: on `envNoInliers` four hypotheses are produced and
none has an inlier. -/
theorem operator_fails_without_enough_inliers_witness :
    ∃ r, operator envNoInliers 20 0 [7] false 0 (exampleState []) = Outcome.ok r ∧
      r.returned = false :=
  operator_fails_without_enough_inliers envNoInliers 20 0 [7] false 0 (exampleState []) [0, 1] 0
    (by decide) rfl (by decide) rfl rfl (by decide)
    (by
      intro remaining b s1 t s2 _ _
      have h := (scoreHypothesis_spec envNoInliers false t s2.est).2.1
      have hpos : inlierPositions envNoInliers t s2.est = [] := by
        unfold inlierPositions
        rw [List.filter_eq_nil_iff]
        intro k _
        simp only [decide_eq_true_eq, not_lt]
        show (0 : ℚ) ≤ _
        unfold chi2Under
        exact Nat.cast_nonneg _
      simp only [applyBestFriendFilter, ne_eq, not_true_eq_false, if_false, h, hpos,
        List.map_nil, List.length_nil]
      decide)

/-- Claim C12, evaluation at the failing input: one correspondence, minimal
sets of size 1, a hypothesis whose single inlier has an error equal to the
initial `bestError`, and a negative `inlierStopFraction`.  The hypothesis is
not retained, line 363 sets `transformFound`, and `operator()` returns true
with an empty inlier list, shorter than `minimalSetSize`. -/
theorem operator_true_with_empty_inliers :
    (operator envEmptySuccess 20 0 [] false 0 (exampleState [])).toOption.map
      (fun r => (r.returned, r.inliers, decide ((r.inliers.length : Int) < envEmptySuccess.minimalSetSize))) =
      some (true, [], true) := by
  with_unfolding_all decide

/-- Claim C13, evaluation at the failing input: four correspondences, minimal
sets of size 2, accepting validators, a solver that always succeeds and
hypotheses without inliers.  During one call of `operator()` the solver is
called on `[0,1]`, `[0,2]`, `[1,2]`, `[2,3]`: after `[0,2]` the next set is
`[1,2]`, not its successor `[0,3]`, and `[1,3]` is skipped as well. -/
theorem operator_skips_combination_after_success :
    (operator envNoInliers 20 0 [] false 0 (exampleState [])).toOption.map
      (fun r => solveCalls r.state.trace) = some [[0, 1], [0, 2], [1, 2], [2, 3]] := by
  with_unfolding_all decide

end ClaimsOperatorD

section ClaimsProjectorB

variable {Pt D : Type} [LinearOrder D]

/-- Claim C14: after `project(indexImage, depthImage, points)`, at every pixel
the index image holds -1 exactly when the depth image holds the sentinel
`std::numeric_limits<float>::max()`, and the two images have the same
dimensions. -/
theorem project_index_sentinel_iff (pp : CylindricalPointProjector Pt D)
    (indexImage : Image Int) (depthImage : Image D) (points : List Pt) :
    (∀ x y : Int, (project pp indexImage depthImage points).1.coeff x y = -1 ↔
      (project pp indexImage depthImage points).2.coeff x y = pp.floatMax) ∧
    (project pp indexImage depthImage points).1.rows =
      (project pp indexImage depthImage points).2.rows ∧
    (project pp indexImage depthImage points).1.cols =
      (project pp indexImage depthImage points).2.cols := by
  have hd := projectLoop_dims pp points 0
    (indexImage.fill (-1), (depthImage.resize indexImage.rows indexImage.cols).fill pp.floatMax)
  simp only [Image.fill, Image.resize] at hd
  obtain ⟨d1, d2, d3, d4⟩ := hd
  refine ⟨?_, ?_, ?_⟩
  · intro x y
    have h := projectLoop_sentinel pp x y points 0
      (indexImage.fill (-1), (depthImage.resize indexImage.rows indexImage.cols).fill pp.floatMax)
      (Or.inl ⟨rfl, rfl⟩)
    unfold project
    rcases h with ⟨h1, h2⟩ | ⟨h1, h2⟩
    · exact ⟨fun _ => h2, fun _ => h1⟩
    · constructor
      · intro h; rw [h] at h1; omega
      · intro h; rw [h] at h2; exact absurd h2 (lt_irrefl _)
  · unfold project; simp only [Image.fill, Image.resize]; rw [d1, d3]
  · unfold project; simp only [Image.fill, Image.resize]; rw [d2, d4]

/-- Claim C15: after `project(indexImage, depthImage, points)`, at every pixel
`(x, y)` whose index `i` is not -1, `i` lies in `0 .. points.size()-1`, and
point `i` projects successfully to exactly the pixel `(x, y)`, inside the
image, with a depth inside `[minDistance, maxDistance]` that equals the depth
image at `(x, y)`.  So no point whose projection fails, is out of range or out
of bounds appears in the index image. -/
theorem project_index_is_winner (pp : CylindricalPointProjector Pt D)
    (indexImage : Image Int) (depthImage : Image D) (points : List Pt) (x y i : Int)
    (hi : (project pp indexImage depthImage points).1.coeff x y = i) (hne : i ≠ -1) :
    0 ≤ i ∧ i < (points.length : Int) ∧
    ∃ p, points[i.toNat]? = some p ∧
      ProjectsTo pp indexImage.rows indexImage.cols p x y
        ((project pp indexImage depthImage points).2.coeff x y) := by
  have h := projectLoop_winner pp x y points 0
    (indexImage.fill (-1), (depthImage.resize indexImage.rows indexImage.cols).fill pp.floatMax)
  unfold project at hi ⊢
  rcases h with ⟨h1, -⟩ | ⟨j, p, hp, h1, h2⟩
  · rw [hi] at h1
    exact absurd h1 hne
  · rw [hi] at h1
    simp only [zero_add] at h1
    subst h1
    have hj : j < points.length := by
      rcases Nat.lt_or_ge j points.length with h | h
      · exact h
      · rw [List.getElem?_eq_none h] at hp; cases hp
    refine ⟨Int.ofNat_nonneg j, by exact_mod_cast hj, p, ?_, ?_⟩
    · simpa using hp
    · simpa [Image.fill, Image.resize] using h2

/-- Claim C15, instance: of two points at pixel (0,0) with depths 5 and 3 the
second one, number 1, is recorded. -/
theorem project_index_is_winner_witness :
    (project exampleProjector exampleImage exampleImage
      [(0, 0, 5), (0, 0, 3), (1, 1, 20)]).1.coeff 0 0 = 1 ∧
    (0 : Int) ≤ 1 ∧ (1 : Int) < (([(0, 0, 5), (0, 0, 3), (1, 1, 20)] :
      List (Int × Int × Int)).length : Int) ∧
    ∃ p, ([(0, 0, 5), (0, 0, 3), (1, 1, 20)] : List (Int × Int × Int))[(1 : Int).toNat]? = some p ∧
      ProjectsTo exampleProjector exampleImage.rows exampleImage.cols p 0 0
        ((project exampleProjector exampleImage exampleImage
          [(0, 0, 5), (0, 0, 3), (1, 1, 20)]).2.coeff 0 0) :=
  ⟨by decide,
   project_index_is_winner exampleProjector exampleImage exampleImage
    [(0, 0, 5), (0, 0, 3), (1, 1, 20)] 0 0 1 (by decide) (by decide)⟩

end ClaimsProjectorB

section ClaimsBackProjection

variable {D : Type} [Field D]

/-- Claim C16: for every pixel `(r, c)` of the depth image that back-projects
successfully, with depth `z`, the image-space covariance used by the
`unProject` with Gaussians is the diagonal matrix with entries 1, 1 and
`alpha*z^2 / (baseline*focal + alpha*z)`, where `focal` is the entry (0,0) of
the camera matrix, and the Gaussian stored for the pixel (at the index the
index image holds there) has covariance `J * imageCovariance * Jᵀ`.
Arithmetic is exact, in an arbitrary field. -/
theorem unProjectGaussian_depth_variance (bp : BackProjector D) (points : List (Fin 4 → D))
    (gaussians : List (Gaussian3f D)) (indexImage : Image Int) (depthImage : Image D)
    (r c : Nat) (p : Fin 4 → D) (hr : r < depthImage.rows) (hc : c < depthImage.cols)
    (hp : bp._unProject (r : Int) (c : Int) (depthImage.coeff (r : Int) (c : Int)) = some p) :
    imageCovariance bp (depthImage.coeff (r : Int) (c : Int)) =
      Matrix.diagonal ![1, 1,
        bp._alpha * depthImage.coeff (r : Int) (c : Int) ^ 2 /
          (bp._baseline * bp._cameraMatrix 0 0 +
            bp._alpha * depthImage.coeff (r : Int) (c : Int))] ∧
    ∃ (i : Nat) (g : Gaussian3f D),
      (unProjectGaussian bp points gaussians indexImage depthImage).2.2.coeff (r : Int) (c : Int) =
        (i : Int) ∧
      (unProjectGaussian bp points gaussians indexImage depthImage).2.1[i]? = some g ∧
      g.covariance =
        pixelJacobian bp r c (depthImage.coeff (r : Int) (c : Int)) *
          imageCovariance bp (depthImage.coeff (r : Int) (c : Int)) *
          (pixelJacobian bp r c (depthImage.coeff (r : Int) (c : Int))).transpose := by
  constructor
  · unfold imageCovariance
    rw [zVariation_eq]
  · obtain ⟨-, h2, h3⟩ := unProjectGaussian_eq bp points gaussians indexImage depthImage
    obtain ⟨-, -, -, h4⟩ := unProject_spec bp points indexImage depthImage
    have hq : (r, c) ∈ scanOrder depthImage.rows depthImage.cols :=
      (mem_scanOrder _ _ _ _).mpr ⟨hr, hc⟩
    have hb : backProjection bp depthImage (r, c) = some p := hp
    refine ⟨successesBefore (fun a => (backProjection bp depthImage a).isSome)
      (scanOrder depthImage.rows depthImage.cols) (r, c),
      pixelGaussian bp r c (depthImage.coeff (r : Int) (c : Int)) p, ?_, ?_, rfl⟩
    · rw [h2]
      have := h4 (r, c) hq
      simpa [hb] using this
    · rw [h3]
      have := filterMap_get_successesBefore
        (fun q => (backProjection bp depthImage q).map
          (pixelGaussian bp q.1 q.2 (depthImage.coeff (q.1 : Int) (q.2 : Int))))
        (scanOrder depthImage.rows depthImage.cols) (r, c)
        (pixelGaussian bp r c (depthImage.coeff (r : Int) (c : Int)) p) hq (by simp [hb])
      simpa using this

/-- Claim C16, instance: pixel (1,0) of `exampleDepthImage`, of depth 5,
back-projects to `(1, 0, 5, 1)`; its depth variance is `3*5^2 / (2*1 + 3*5)`. -/
theorem unProjectGaussian_depth_variance_witness :
    exampleBackProjector._unProject ((1 : Nat) : Int) ((0 : Nat) : Int)
        (exampleDepthImage.coeff ((1 : Nat) : Int) ((0 : Nat) : Int)) = some ![1, 0, 5, 1] ∧
    (imageCovariance exampleBackProjector (exampleDepthImage.coeff ((1 : Nat) : Int) ((0 : Nat) : Int)) =
      Matrix.diagonal ![1, 1,
        exampleBackProjector._alpha * exampleDepthImage.coeff ((1 : Nat) : Int) ((0 : Nat) : Int) ^ 2 /
          (exampleBackProjector._baseline * exampleBackProjector._cameraMatrix 0 0 +
            exampleBackProjector._alpha *
              exampleDepthImage.coeff ((1 : Nat) : Int) ((0 : Nat) : Int))] ∧
    ∃ (i : Nat) (g : Gaussian3f ℚ),
      (unProjectGaussian exampleBackProjector [] [] exampleImage exampleDepthImage).2.2.coeff
        ((1 : Nat) : Int) ((0 : Nat) : Int) = (i : Int) ∧
      (unProjectGaussian exampleBackProjector [] [] exampleImage exampleDepthImage).2.1[i]? =
        some g ∧
      g.covariance =
        pixelJacobian exampleBackProjector 1 0
            (exampleDepthImage.coeff ((1 : Nat) : Int) ((0 : Nat) : Int)) *
          imageCovariance exampleBackProjector
            (exampleDepthImage.coeff ((1 : Nat) : Int) ((0 : Nat) : Int)) *
          (pixelJacobian exampleBackProjector 1 0
            (exampleDepthImage.coeff ((1 : Nat) : Int) ((0 : Nat) : Int))).transpose) :=
  ⟨by simp [exampleBackProjector, exampleDepthImage],
   unProjectGaussian_depth_variance exampleBackProjector [] [] exampleImage exampleDepthImage
      1 0 ![1, 0, 5, 1] (by decide) (by decide)
      (by simp [exampleBackProjector, exampleDepthImage])⟩

/-- Claim C17: after `unProject(points, gaussians, indexImage, depthImage)`,
`points` and `gaussians` have the same length, which is the number of pixels
of the depth image whose back-projection succeeds, and the mean of
`gaussians[i]` is the first three coefficients of `points[i]` for every `i`. -/
theorem unProjectGaussian_parallel (bp : BackProjector D) (points : List (Fin 4 → D))
    (gaussians : List (Gaussian3f D)) (indexImage : Image Int) (depthImage : Image D) :
    (unProjectGaussian bp points gaussians indexImage depthImage).1.length =
      (unProjectGaussian bp points gaussians indexImage depthImage).2.1.length ∧
    (unProjectGaussian bp points gaussians indexImage depthImage).1.length =
      ((scanOrder depthImage.rows depthImage.cols).filter
        (fun q => (backProjection bp depthImage q).isSome)).length ∧
    ∀ (i : Nat) (p : Fin 4 → D) (g : Gaussian3f D),
      (unProjectGaussian bp points gaussians indexImage depthImage).1[i]? = some p →
      (unProjectGaussian bp points gaussians indexImage depthImage).2.1[i]? = some g →
      g.mean = head3 p := by
  obtain ⟨h1, -, h3⟩ := unProjectGaussian_eq bp points gaussians indexImage depthImage
  obtain ⟨h4, -⟩ := unProject_spec bp points indexImage depthImage
  rw [h1, h3, h4]
  refine ⟨?_, filterMap_length_eq_filter _ _, ?_⟩
  · rw [filterMap_length_eq_filter, filterMap_length_eq_filter]
    congr 2
    funext q
    simp
  · intro i p g hp hg
    obtain ⟨a, -, rfl⟩ := filterMap_map_get (backProjection bp depthImage)
      (fun q => pixelGaussian bp q.1 q.2 (depthImage.coeff (q.1 : Int) (q.2 : Int)))
      _ i p g hp hg
    rfl

end ClaimsBackProjection

section ClaimsIndexAndTransforms

variable {D : Type}

/-- Claim C18: after `unProject(points, indexImage, depthImage)` the index
image has the dimensions of the depth image; inside the image it holds -1
exactly at the pixels whose back-projection fails; at every other pixel it
holds the rank of the pixel among the successful pixels in the scan order
(column after column), and `points` holds at that rank the back-projection of
the pixel at its depth; two successful pixels with the same entry are the same
pixel; and every number below `points.size()` is the entry of a successful
pixel. -/
theorem unProject_index_image (bp : BackProjector D) (points : List (Fin 4 → D))
    (indexImage : Image Int) (depthImage : Image D) :
    (unProject bp points indexImage depthImage).2.rows = depthImage.rows ∧
    (unProject bp points indexImage depthImage).2.cols = depthImage.cols ∧
    (∀ r c : Nat, r < depthImage.rows → c < depthImage.cols →
      ((unProject bp points indexImage depthImage).2.coeff (r : Int) (c : Int) = -1 ↔
        backProjection bp depthImage (r, c) = none)) ∧
    (∀ (r c : Nat) (p : Fin 4 → D), r < depthImage.rows → c < depthImage.cols →
      backProjection bp depthImage (r, c) = some p →
      (unProject bp points indexImage depthImage).2.coeff (r : Int) (c : Int) =
        ((successesBefore (fun a => (backProjection bp depthImage a).isSome)
          (scanOrder depthImage.rows depthImage.cols) (r, c) : Nat) : Int) ∧
      (unProject bp points indexImage depthImage).1[
        successesBefore (fun a => (backProjection bp depthImage a).isSome)
          (scanOrder depthImage.rows depthImage.cols) (r, c)]? = some p) ∧
    (∀ r c r2 c2 : Nat, r < depthImage.rows → c < depthImage.cols →
      r2 < depthImage.rows → c2 < depthImage.cols →
      backProjection bp depthImage (r, c) ≠ none →
      backProjection bp depthImage (r2, c2) ≠ none →
      (unProject bp points indexImage depthImage).2.coeff (r : Int) (c : Int) =
        (unProject bp points indexImage depthImage).2.coeff (r2 : Int) (c2 : Int) →
      r = r2 ∧ c = c2) ∧
    (∀ i : Nat, i < (unProject bp points indexImage depthImage).1.length →
      ∃ r c : Nat, r < depthImage.rows ∧ c < depthImage.cols ∧
        backProjection bp depthImage (r, c) ≠ none ∧
        (unProject bp points indexImage depthImage).2.coeff (r : Int) (c : Int) = (i : Int)) := by
  obtain ⟨h1, h2, h3, h4⟩ := unProject_spec bp points indexImage depthImage
  have hidx : ∀ r c : Nat, r < depthImage.rows → c < depthImage.cols →
      (unProject bp points indexImage depthImage).2.coeff (r : Int) (c : Int) =
        (if (backProjection bp depthImage (r, c)).isSome then
          ((successesBefore (fun a => (backProjection bp depthImage a).isSome)
              (scanOrder depthImage.rows depthImage.cols) (r, c) : Nat) : Int)
        else -1) := fun r c hr hc => h4 (r, c) ((mem_scanOrder _ _ _ _).mpr ⟨hr, hc⟩)
  refine ⟨h2, h3, ?_, ?_, ?_, ?_⟩
  · intro r c hr hc
    rw [hidx r c hr hc]
    cases hb : backProjection bp depthImage (r, c) with
    | none => simp
    | some p =>
      simp only [Option.isSome_some, if_true]
      constructor
      · intro h; omega
      · intro h; cases h
  · intro r c p hr hc hb
    rw [hidx r c hr hc, h1]
    refine ⟨by simp [hb], ?_⟩
    exact filterMap_get_successesBefore (backProjection bp depthImage) _ (r, c) p
      ((mem_scanOrder _ _ _ _).mpr ⟨hr, hc⟩) hb
  · intro r c r2 c2 hr hc hr2 hc2 hb hb2 heq
    rw [hidx r c hr hc, hidx r2 c2 hr2 hc2] at heq
    have hs : (backProjection bp depthImage (r, c)).isSome = true :=
      Option.isSome_iff_ne_none.mpr hb
    have hs2 : (backProjection bp depthImage (r2, c2)).isSome = true :=
      Option.isSome_iff_ne_none.mpr hb2
    simp only [hs, hs2, if_true] at heq
    have := successesBefore_inj (fun a => (backProjection bp depthImage a).isSome)
      (scanOrder depthImage.rows depthImage.cols) (r, c) (r2, c2)
      ((mem_scanOrder _ _ _ _).mpr ⟨hr, hc⟩) ((mem_scanOrder _ _ _ _).mpr ⟨hr2, hc2⟩)
      hs hs2 (by exact_mod_cast heq)
    exact ⟨congrArg Prod.fst this, congrArg Prod.snd this⟩
  · intro i hi
    rw [h1, filterMap_length_eq_filter] at hi
    obtain ⟨q, hq, hok, hsb⟩ := successesBefore_surj
      (fun a => (backProjection bp depthImage a).isSome)
      (scanOrder depthImage.rows depthImage.cols) (nodup_scanOrder _ _) i hi
    obtain ⟨r, c⟩ := q
    obtain ⟨hr, hc⟩ := (mem_scanOrder _ _ _ _).mp hq
    refine ⟨r, c, hr, hc, Option.isSome_iff_ne_none.mp hok, ?_⟩
    rw [hidx r c hr hc]
    have hok2 : (backProjection bp depthImage (r, c)).isSome = true := hok
    simp only [hok2, if_true, hsb]

/-- Claim C19: after `Linearizer::setT(T_)`, for every 4 by 4 matrix `T_`, the
transform returned by `T()` has last row `[0,0,0,1]` and its other three rows
are those of `T_`; `setT(T())` then changes nothing; and the matrix `_iT`
stored by `CylindricalPointProjector::_updateMatrices` has last row
`[0,0,0,1]`, whatever `Isometry3f::inverse()` returns. -/
theorem setT_last_row [CommRing D] (l : Linearizer D) (T_ : Matrix (Fin 4) (Fin 4) D)
    (transformInverse : Matrix (Fin 4) (Fin 4) D → Matrix (Fin 4) (Fin 4) D)
    (matrixInverse : Matrix (Fin 3) (Fin 3) D → Matrix (Fin 3) (Fin 3) D)
    (p : ProjectorMatrices D) :
    (l.setT T_).T 3 = ![0, 0, 0, 1] ∧
    (∀ i : Fin 4, i ≠ 3 → (l.setT T_).T i = T_ i) ∧
    (l.setT T_).setT (l.setT T_).T = l.setT T_ ∧
    (_updateMatrices transformInverse matrixInverse p)._iT 3 = ![0, 0, 0, 1] := by
  have hrow : ∀ m : Matrix (Fin 4) (Fin 4) D, setLastRow m 3 = ![0, 0, 0, 1] := by
    intro m
    funext j
    fin_cases j <;> simp [setLastRow]
  refine ⟨hrow T_, ?_, ?_, hrow (transformInverse p._transform)⟩
  · intro i hi
    funext j
    simp [Linearizer.setT, Linearizer.T, setLastRow, hi]
  · simp only [Linearizer.setT, Linearizer.T]
    congr 1
    funext i j
    simp only [setLastRow]
    split <;> rfl

end ClaimsIndexAndTransforms

section ClaimsCorrespondence

/-- Claim C21, evaluation at the failing input: for correspondences `a` and
`b` with scores 1 and 2, `a < b` is false although `a.score() < b.score()`,
and `b < a` is true; the vector `[a, b]`, ascending in score, is not arranged
by `operator<`, and the vector `[b, a]`, descending in score, is. -/
theorem operatorLess_is_descending :
    (exampleCorrespondences.map Correspondence.score = [1, 2]) ∧
    (Correspondence.operatorLess (⟨(), 1⟩ : Correspondence Unit Int) ⟨(), 2⟩ = false) ∧
    (Correspondence.operatorLess (⟨(), 2⟩ : Correspondence Unit Int) ⟨(), 1⟩ = true) ∧
    ¬ ArrangedBy Correspondence.operatorLess exampleCorrespondences ∧
    ArrangedBy Correspondence.operatorLess exampleCorrespondences.reverse := by
  refine ⟨rfl, by decide, by decide, ?_, ?_⟩
  · unfold ArrangedBy exampleCorrespondences
    simp [Correspondence.operatorLess, Correspondence.score]
  · unfold ArrangedBy exampleCorrespondences
    simp [Correspondence.operatorLess, Correspondence.score]

end ClaimsCorrespondence

section ClaimsRejection

/-- Claim C22: there are a correspondence set and a sequence of hypotheses on
which `operator()` scores a hypothesis with strictly more inliers than the
incumbent, and at least `minimalSetSize` of them, and drops it because its
mean inlier error is not strictly lower; the inlier list finally returned is
strictly shorter than the inlier list of that hypothesis.  On
`envMoreInliers` the incumbent has the inliers `[0,1]` with mean error 0, the
second hypothesis has the inliers `[0,1,2,3]` with mean error 1, and the call
returns true with the list `[0,1]`. -/
theorem operator_rejects_larger_inlier_set :
    ∃ (remaining : Nat) (b : Best Int) (s1 s2 : RansacState Unit Nat Int) (t : Int)
      (sc : Score Nat Int),
      LoopReaches envMoreInliers 20 false 0
        (envMoreInliers.maxIterations.toNat, initialBest envMoreInliers 0,
          { exampleMixedState with indices := [0, 1] })
        (remaining + 1, b, s1) ∧
      computeMinimalSet envMoreInliers 20 0 envMoreInliers.defaultTransform s1 =
        Outcome.ok (true, t, s2) ∧
      sc = scoreHypothesis envMoreInliers false t s2.est ∧
      sc.inliers.length > b.bestInliers.length ∧
      envMoreInliers.minimalSetSize ≤ (sc.inliers.length : Int) ∧
      ¬ (sc.error / (sc.inliers.length : ℚ) < b.bestError) ∧
      (iteration envMoreInliers 20 false 0 b s1).toOption.map
        (fun x => (x.1, x.2.1.bestInliers, x.2.1.bestTransform)) =
        some (true, b.bestInliers, b.bestTransform) ∧
      (operator envMoreInliers 20 0 [] false 0 exampleMixedState).toOption.map
        (fun r => (r.returned, r.inliers)) = some (true, b.bestInliers) ∧
      b.bestInliers.length < sc.inliers.length := by
  refine ⟨8, exampleIncumbent, exampleIncumbentState, exampleChallengerState, 4, _,
    ?_, ?_, rfl, ?_, ?_, ?_, ?_, ?_, ?_⟩
  · exact LoopReaches.step 9 (initialBest envMoreInliers 0) exampleIncumbent
      { exampleMixedState with indices := [0, 1] } exampleIncumbentState 0 _ rfl (by decide)
      (by with_unfolding_all rfl) (LoopReaches.here _)
  · rfl
  · with_unfolding_all decide
  · with_unfolding_all decide
  · with_unfolding_all decide
  · with_unfolding_all decide
  · with_unfolding_all decide
  · with_unfolding_all decide

end ClaimsRejection

section ClaimsOrder

variable {σ T V P : Type} [DecidableEq V]

/-- Claim C23: no minimal set is evaluated twice.  For every validator and
solver, every input and every step budget, the index vectors on which the
solver is invoked by `computeMinimalSet` during one call of `operator()`, in
the order of the calls, form a strictly increasing sequence in the
lexicographic order: each of them stands strictly before every later one. -/
theorem operator_solver_calls_increasing (env : Env σ T V P) (fuel : Nat) (treturn : T)
    (inliers_ : List Int) (debug : Bool) (bestFriendFilter : Int) (s : RansacState σ V P)
    (r : CallResult σ T V P)
    (h : operator env fuel treturn inliers_ debug bestFriendFilter s = Outcome.ok r) :
    ∃ tr, r.state.trace = s.trace ++ tr ∧
      List.Pairwise (fun I J => lexLess I J = true) (solveCalls tr) := by
  unfold operator at h
  by_cases hn : (env.n : Int) < env.minimalSetSize
  · simp only [hn, if_true, Outcome.ok.injEq] at h
    subst h
    exact ⟨[], by simp, by simp [solveCalls]⟩
  · simp only [hn, if_false] at h
    cases hinit : env.initIndices with
    | none => simp [hinit] at h
    | some idx =>
      simp only [hinit] at h
      cases hloop : searchLoop env fuel debug bestFriendFilter env.maxIterations.toNat
          (initialBest env treturn) { s with indices := idx } with
      | fault => simp [hloop] at h
      | timeout => simp [hloop] at h
      | ok bs =>
        obtain ⟨b, s1⟩ := bs
        obtain ⟨tr, h1, h2⟩ := searchLoop_increasing env fuel debug bestFriendFilter _ _ _ _
          hloop [] (by simp) List.Pairwise.nil
        simp only [List.nil_append] at h1 h2
        simp only [hloop, finish] at h
        by_cases hc : env.cleanupOk = true
        · simp only [hc, if_true, Outcome.ok.injEq] at h
          subst h
          cases hf : b.transformFound with
          | false =>
            simp only [hf]
            exact ⟨tr, h1, h2⟩
          | true =>
            simp only [hf]
            refine ⟨tr ++ [Event.refine b.bestInliers
              (env.solver s1.ext b.bestTransform b.bestInliers).1], ?_, ?_⟩
            · simp [h1]
            · simpa [solveCalls_append, solveCalls] using h2
        · simp [hc] at h

/-- Claim C23, instance: on `envNoInliers` the solver is invoked on `[0,1]`,
`[0,2]`, `[1,2]`, `[2,3]`, a strictly increasing sequence. -/
theorem operator_solver_calls_increasing_witness :
    ∃ r, operator envNoInliers 20 0 [] false 0 (exampleState []) = Outcome.ok r ∧
      solveCalls r.state.trace = [[0, 1], [0, 2], [1, 2], [2, 3]] ∧
      ∃ tr, r.state.trace = (exampleState []).trace ++ tr ∧
        List.Pairwise (fun I J => lexLess I J = true) (solveCalls tr) := by
  have hev : (operator envNoInliers 20 0 [] false 0 (exampleState [])).toOption.map
      (fun r => solveCalls r.state.trace) = some [[0, 1], [0, 2], [1, 2], [2, 3]] := by
    with_unfolding_all decide
  cases h : operator envNoInliers 20 0 [] false 0 (exampleState []) with
  | fault => rw [h] at hev; cases hev
  | timeout => rw [h] at hev; cases hev
  | ok r =>
    rw [h] at hev
    exact ⟨r, rfl, by simpa [Outcome.toOption] using hev,
      operator_solver_calls_increasing envNoInliers 20 0 [] false 0 (exampleState []) r h⟩

end ClaimsOrder

section ClaimsTermination

variable {σ T V P : Type} [DecidableEq V]

/-- Claim C24: termination.  For every correspondence count, every
`minimalSetSize` at least 1, every validator and solver (total functions),
(1) from every state whose index vector has length `minimalSetSize`, and for
every depth `k` below `minimalSetSize`, the call `computeMinimalSet(t, k)`
produces a result for every large enough step budget, does not lower
`_indices[k]`, and when it returns false `_indices[k]` has reached the
correspondence count; (2) when `_init()` leaves an index vector of length
`minimalSetSize` and `_cleanup()` succeeds, `operator()` produces a result for
every large enough step budget; and (3) every configuration its `for` loop
reaches has used up at most `maxIterations` iterations. -/
theorem search_terminates (env : Env σ T V P) (hm : 1 ≤ env.minimalSetSize) :
    (∀ (k : Nat) (t : T) (s : RansacState σ V P),
      (s.indices.length : Int) = env.minimalSetSize → (k : Int) < env.minimalSetSize →
      ∃ fuel0 ik, s.indices[k]? = some ik ∧ ∀ fuel, fuel0 ≤ fuel →
        ∃ res, computeMinimalSet env fuel k t s = Outcome.ok res ∧
          (∀ jk, res.2.2.indices[k]? = some jk → ik ≤ jk) ∧
          (res.1 = false → ∀ jk, res.2.2.indices[k]? = some jk → (env.n : Int) ≤ jk)) ∧
    (∀ (idx : List Int) (treturn : T) (inliers_ : List Int) (debug : Bool)
      (bestFriendFilter : Int) (s : RansacState σ V P),
      env.initIndices = some idx → (idx.length : Int) = env.minimalSetSize →
      env.cleanupOk = true →
      ∃ fuel0, ∀ fuel, fuel0 ≤ fuel →
        ∃ r, operator env fuel treturn inliers_ debug bestFriendFilter s = Outcome.ok r) ∧
    (∀ (fuel : Nat) (idx : List Int) (treturn : T) (debug : Bool) (bestFriendFilter : Int)
      (s : RansacState σ V P) (remaining : Nat) (b : Best T) (s1 : RansacState σ V P),
      LoopReaches env fuel debug bestFriendFilter
        (env.maxIterations.toNat, initialBest env treturn, { s with indices := idx })
        (remaining, b, s1) →
      remaining ≤ env.maxIterations.toNat) := by
  refine ⟨?_, ?_, ?_⟩
  · intro k t s hlen hk
    obtain ⟨ik, hik⟩ := getElem?_some_of_lt s.indices k (by omega)
    refine ⟨((env.n : Int) - ik).toNat + env.minimalSetSize.toNat, ik, hik, ?_⟩
    intro fuel hfuel
    obtain ⟨res, hres, p1, p2⟩ := computeMinimalSetLoop_terminates env fuel k false t s ik
      (by omega) (by omega) hik
      (by simp only [Bool.false_eq_true, if_false]; omega)
    exact ⟨res, hres, p2, p1⟩
  · intro idx treturn inliers_ debug bff s hinit hlen hclean
    obtain ⟨i0, hi0⟩ := getElem?_some_of_lt idx 0 (by omega)
    refine ⟨((env.n : Int) - i0).toNat + env.minimalSetSize.toNat, ?_⟩
    intro fuel hfuel
    unfold operator
    by_cases hn : (env.n : Int) < env.minimalSetSize
    · simp only [hn, if_true]
      exact ⟨_, rfl⟩
    · simp only [hn, if_false, hinit]
      obtain ⟨res, hres⟩ := searchLoop_terminates env fuel debug bff hm env.maxIterations.toNat
        (initialBest env treturn) { s with indices := idx } i0 (by simp only; omega) hi0 hfuel
      simp only [hres, finish, hclean, if_true]
      exact ⟨_, rfl⟩
  · intro fuel idx treturn debug bff s remaining b s1 h
    exact loopReaches_le env fuel debug bff _ _ h

/-- Claim C24, instance: on `envAllFail` (four correspondences, minimal sets
of size 3, a solver that always fails) the call `computeMinimalSet(t, 0)` from
the index vector `[0,1,2]`, and the call of `operator()`, produce a result for
every large enough step budget. -/
theorem search_terminates_witness :
    1 ≤ envAllFail.minimalSetSize ∧
    (∃ fuel0 ik, (exampleState [0, 1, 2]).indices[0]? = some ik ∧ ∀ fuel, fuel0 ≤ fuel →
      ∃ res, computeMinimalSet envAllFail fuel 0 0 (exampleState [0, 1, 2]) = Outcome.ok res ∧
        (∀ jk, res.2.2.indices[0]? = some jk → ik ≤ jk) ∧
        (res.1 = false → ∀ jk, res.2.2.indices[0]? = some jk → (envAllFail.n : Int) ≤ jk)) ∧
    (∃ fuel0, ∀ fuel, fuel0 ≤ fuel →
      ∃ r, operator envAllFail fuel 0 [] false 0 (exampleState []) = Outcome.ok r) :=
  ⟨by decide,
   (search_terminates envAllFail (by decide)).1 0 0 (exampleState [0, 1, 2]) rfl (by decide),
   (search_terminates envAllFail (by decide)).2.1 [0, 1, 2] 0 [] false 0 (exampleState [])
     rfl rfl rfl⟩

end ClaimsTermination

section ClaimsFailure

variable {σ T V P : Type} [DecidableEq V]

/-- Claim C25: whenever `operator()` returns false the argument `treturn` has
on return the value it had at the call; and when moreover the correspondence
count is at least `minimalSetSize`, the inlier list returned is empty. -/
theorem operator_failure_keeps_transform (env : Env σ T V P) (fuel : Nat) (treturn : T)
    (inliers_ : List Int) (debug : Bool) (bestFriendFilter : Int) (s : RansacState σ V P)
    (r : CallResult σ T V P)
    (h : operator env fuel treturn inliers_ debug bestFriendFilter s = Outcome.ok r)
    (hfalse : r.returned = false) :
    r.treturn = treturn ∧ (env.minimalSetSize ≤ (env.n : Int) → r.inliers = []) := by
  unfold operator at h
  by_cases hn : (env.n : Int) < env.minimalSetSize
  · simp only [hn, if_true, Outcome.ok.injEq] at h
    subst h
    exact ⟨rfl, fun hle => absurd hn (not_lt.mpr hle)⟩
  · simp only [hn, if_false] at h
    cases hinit : env.initIndices with
    | none => simp [hinit] at h
    | some idx =>
      simp only [hinit] at h
      cases hloop : searchLoop env fuel debug bestFriendFilter env.maxIterations.toNat
          (initialBest env treturn) { s with indices := idx } with
      | fault => simp [hloop] at h
      | timeout => simp [hloop] at h
      | ok bs =>
        obtain ⟨b, s1⟩ := bs
        simp only [hloop, finish] at h
        by_cases hc : env.cleanupOk = true
        · simp only [hc, if_true, Outcome.ok.injEq] at h
          subst h
          simp only at hfalse
          have hb := searchLoop_unfound env fuel debug bestFriendFilter _ _ _ _ hloop hfalse
          simp only at hb
          subst hb
          simp [initialBest]
        · simp [hc] at h

/-- Claim C25, instance: on `envNoInliers` four hypotheses are scored, none is
retained, and the call returns false with the caller's transform `0` and an
empty inlier list in place of the caller's `[7]`. -/
theorem operator_failure_keeps_transform_witness :
    ∃ r, operator envNoInliers 20 0 [7] false 0 (exampleState []) = Outcome.ok r ∧
      r.returned = false ∧ r.treturn = 0 ∧
      (envNoInliers.minimalSetSize ≤ (envNoInliers.n : Int) → r.inliers = []) := by
  have hev : (operator envNoInliers 20 0 [7] false 0 (exampleState [])).toOption.map
      (fun r => r.returned) = some false := by with_unfolding_all decide
  cases h : operator envNoInliers 20 0 [7] false 0 (exampleState []) with
  | fault => rw [h] at hev; cases hev
  | timeout => rw [h] at hev; cases hev
  | ok r =>
    rw [h] at hev
    have hfalse : r.returned = false := by simpa [Outcome.toOption] using hev
    have hthm := operator_failure_keeps_transform envNoInliers 20 0 [7] false 0
      (exampleState []) r h hfalse
    exact ⟨r, rfl, hfalse, hthm.1, hthm.2⟩

end ClaimsFailure

section ClaimsScoring

variable {σ T V P : Type} [DecidableEq V]

/-- Claim C26: scoring a hypothesis leaves the graph as it found it.  For both
values of `debug`, every transform and every correspondence `k`, inlier or
not, one pass of the scoring loop leaves every vertex estimate, the one of the
second vertex of `k` included, at the value it had before the pass; so after
the whole scoring loop the estimate of the second vertex of every
correspondence is the one it had before scoring; and an iteration of the
`for` loop of `operator()` that produces a result leaves the estimates as
they were. -/
theorem scoring_restores_estimates (env : Env σ T V P) :
    (∀ (debug : Bool) (t : T) (k : Nat) (a : Score V P),
      (scoreCorrespondence env debug t k a).est = a.est) ∧
    (∀ (debug : Bool) (t : T) (est : V → P) (k : Nat),
      (scoreHypothesis env debug t est).est (env.vertex2 k) = est (env.vertex2 k)) ∧
    (∀ (fuel : Nat) (debug : Bool) (bestFriendFilter : Int) (b : Best T)
      (s : RansacState σ V P) (res : Bool × Best T × RansacState σ V P),
      iteration env fuel debug bestFriendFilter b s = Outcome.ok res → res.2.2.est = s.est) := by
  refine ⟨fun debug t k a => (scoreCorrespondence_spec env debug t k a).1,
    fun debug t est k => by rw [(scoreHypothesis_spec env debug t est).1], ?_⟩
  intro fuel debug bff b s res h
  unfold iteration at h
  cases hcall : computeMinimalSet env fuel 0 env.defaultTransform s with
  | fault => simp [hcall] at h
  | timeout => simp [hcall] at h
  | ok r =>
    obtain ⟨found, t, s1⟩ := r
    obtain ⟨tr, -, -, -, -, hest, -⟩ := computeMinimalSetLoop_trace env fuel 0 false
      env.defaultTransform s _ hcall
    simp only at hest
    cases found with
    | false =>
      simp only [hcall, Outcome.ok.injEq] at h
      subst h
      exact hest
    | true =>
      simp only [hcall] at h
      have hsc := (scoreHypothesis_spec env debug t s1.est).1
      split at h
      · simp only [Outcome.ok.injEq] at h
        subst h
        show (scoreHypothesis env debug t s1.est).est = s.est
        rw [hsc, hest]
      · simp only [Outcome.ok.injEq] at h
        subst h
        rw [retain_est]
        show (scoreHypothesis env debug t s1.est).est = s.est
        rw [hsc, hest]

end ClaimsScoring

section ClaimsIndexSafety

variable {σ T V P : Type}

/-- Claim C27: index safety of the search.  For every correspondence count,
every `minimalSetSize` at least 1 and every validator and solver, a call
`computeMinimalSet(t, 0)` on an index vector of length `minimalSetSize` with
non-negative entries (1) never reads or writes `_indices[k]` or
`_indices[k+1]` outside the vector, whatever the step budget; (2) produces a
result for some step budget; and (3) when it produces a result, each of the
first `minimalSetSize` entries of every index vector it has passed to the
solver lies in `[0, n)`, and the index vector still has length
`minimalSetSize` and non-negative entries, so the next call is safe too. -/
theorem computeMinimalSet_index_safety (env : Env σ T V P) (t : T) (s : RansacState σ V P)
    (hm : 1 ≤ env.minimalSetSize) (hlen : (s.indices.length : Int) = env.minimalSetSize)
    (hpos : ∀ v ∈ s.indices, 0 ≤ v) :
    (∀ fuel, computeMinimalSet env fuel 0 t s ≠ Outcome.fault) ∧
    (∃ fuel res, computeMinimalSet env fuel 0 t s = Outcome.ok res) ∧
    (∀ fuel res, computeMinimalSet env fuel 0 t s = Outcome.ok res →
      ∃ tr, res.2.2.trace = s.trace ++ tr ∧
        (∀ I ∈ solveCalls tr, ∀ j : Nat, (j : Int) < env.minimalSetSize →
          ∃ v, I[j]? = some v ∧ 0 ≤ v ∧ v < (env.n : Int)) ∧
        (res.2.2.indices.length : Int) = env.minimalSetSize ∧
        (∀ v ∈ res.2.2.indices, 0 ≤ v)) := by
  refine ⟨?_, ?_, ?_⟩
  · intro fuel
    exact computeMinimalSetLoop_no_fault env fuel 0 false t s (by push_cast; omega) (by omega)
  · obtain ⟨i0, hi0⟩ := getElem?_some_of_lt s.indices 0 (by omega)
    obtain ⟨found, t1, s1, hcall, -⟩ := computeMinimalSet_terminates env
      (((env.n : Int) - i0).toNat + env.minimalSetSize.toNat) t s i0 hm (by omega) hi0
      (Nat.le_refl _)
    exact ⟨_, _, hcall⟩
  · intro fuel res h
    obtain ⟨tr, h1, h2, h3⟩ := computeMinimalSetLoop_range env fuel 0 false t s res h
      (fun j hj => absurd hj (Nat.not_lt_zero j)) hpos
    obtain ⟨hl, -⟩ := computeMinimalSetLoop_indices env fuel 0 false t s res h
    refine ⟨tr, h1, ?_, by rw [hl]; exact hlen, h3⟩
    intro I hI
    obtain ⟨r, hr⟩ := (mem_solveCalls tr I).mp hI
    exact h2 I r hr

/-- Claim C27, instance: the call on `envOk` (four correspondences, minimal
sets of size 2) from the index vector `[0,1]`. -/
theorem computeMinimalSet_index_safety_witness :
    1 ≤ envOk.minimalSetSize ∧
    ((exampleState [0, 1]).indices.length : Int) = envOk.minimalSetSize ∧
    (∀ v ∈ (exampleState [0, 1]).indices, 0 ≤ v) ∧
    (∀ fuel, computeMinimalSet envOk fuel 0 0 (exampleState [0, 1]) ≠ Outcome.fault) ∧
    (∃ fuel res, computeMinimalSet envOk fuel 0 0 (exampleState [0, 1]) = Outcome.ok res) ∧
    (∀ fuel res, computeMinimalSet envOk fuel 0 0 (exampleState [0, 1]) = Outcome.ok res →
      ∃ tr, res.2.2.trace = (exampleState [0, 1]).trace ++ tr ∧
        (∀ I ∈ solveCalls tr, ∀ j : Nat, (j : Int) < envOk.minimalSetSize →
          ∃ v, I[j]? = some v ∧ 0 ≤ v ∧ v < (envOk.n : Int)) ∧
        (res.2.2.indices.length : Int) = envOk.minimalSetSize ∧
        (∀ v ∈ res.2.2.indices, 0 ≤ v)) :=
  ⟨by decide, by decide, by decide,
   computeMinimalSet_index_safety envOk 0 (exampleState [0, 1]) (by decide) (by decide)
    (by decide)⟩

end ClaimsIndexSafety

section ClaimsInverse

variable {D : Type} [CommRing D]

/-- Claim C28, as amended: after `_updateMatrices`, for every camera matrix
`K` that `inverse()` inverts and every sensor transform with last row
`[0,0,0,1]` whose linear part `R` is orthogonal (`Rᵀ R = 1`, a rotation, as
an isometry holds), with `t` its translation: the linear part of `_iT` is
`Rᵀ` and is the inverse of `R`, `_iK` is the inverse of `K`,
`_KRt = [K*R⁻¹ | K*(-R⁻¹*t); 0 0 0 1]`, `_iKRt = [R*K⁻¹ | t; 0 0 0 1]`, and
`_iKRt * _KRt = _KRt * _iKRt = 1`, in exact arithmetic over a commutative
ring. -/
theorem updateMatrices_mutually_inverse
    (matrixInverse : Matrix (Fin 3) (Fin 3) D → Matrix (Fin 3) (Fin 3) D)
    (p : ProjectorMatrices D)
    (hrow : p._transform 3 = ![0, 0, 0, 1])
    (hR : (linear p._transform).transpose * linear p._transform = 1)
    (hK : matrixInverse p._cameraMatrix * p._cameraMatrix = 1) :
    linear (_updateMatrices isometryInverse matrixInverse p)._iT =
      (linear p._transform).transpose ∧
    linear (_updateMatrices isometryInverse matrixInverse p)._iT * linear p._transform = 1 ∧
    linear p._transform * linear (_updateMatrices isometryInverse matrixInverse p)._iT = 1 ∧
    (_updateMatrices isometryInverse matrixInverse p)._iK * p._cameraMatrix = 1 ∧
    p._cameraMatrix * (_updateMatrices isometryInverse matrixInverse p)._iK = 1 ∧
    (_updateMatrices isometryInverse matrixInverse p)._KRt =
      homogeneous
        (p._cameraMatrix * linear (_updateMatrices isometryInverse matrixInverse p)._iT)
        (p._cameraMatrix.mulVec
          (-((linear (_updateMatrices isometryInverse matrixInverse p)._iT).mulVec
            (translation p._transform)))) ∧
    (_updateMatrices isometryInverse matrixInverse p)._iKRt =
      homogeneous
        (linear p._transform * (_updateMatrices isometryInverse matrixInverse p)._iK)
        (translation p._transform) ∧
    (_updateMatrices isometryInverse matrixInverse p)._iKRt *
      (_updateMatrices isometryInverse matrixInverse p)._KRt = 1 ∧
    (_updateMatrices isometryInverse matrixInverse p)._KRt *
      (_updateMatrices isometryInverse matrixInverse p)._iKRt = 1 := by
  refine ⟨?_, updateMatrices_of_inverses isometryInverse matrixInverse p hrow
    (isometryInverse_mul_self p._transform hrow hR) hK⟩
  show linear (setLastRow (isometryInverse p._transform)) = (linear p._transform).transpose
  ext i j
  fin_cases i <;> fin_cases j <;> rfl

/-- Claim C28, instance of the amended statement: a quarter turn about the
third axis with translation `(1, 2, 3)` and a camera matrix with focal
length 2. -/
theorem updateMatrices_mutually_inverse_witness :
    exampleProjectorMatrices._transform 3 = ![0, 0, 0, 1] ∧
    (linear exampleProjectorMatrices._transform).transpose *
      linear exampleProjectorMatrices._transform = 1 ∧
    exampleCameraInverse exampleProjectorMatrices._cameraMatrix *
      exampleProjectorMatrices._cameraMatrix = 1 ∧
    linear exampleUpdatedMatrices._iT = (linear exampleProjectorMatrices._transform).transpose ∧
    linear exampleUpdatedMatrices._iT * linear exampleProjectorMatrices._transform = 1 ∧
    linear exampleProjectorMatrices._transform * linear exampleUpdatedMatrices._iT = 1 ∧
    exampleUpdatedMatrices._iK * exampleProjectorMatrices._cameraMatrix = 1 ∧
    exampleProjectorMatrices._cameraMatrix * exampleUpdatedMatrices._iK = 1 ∧
    exampleUpdatedMatrices._KRt =
      homogeneous (exampleProjectorMatrices._cameraMatrix * linear exampleUpdatedMatrices._iT)
        (exampleProjectorMatrices._cameraMatrix.mulVec
          (-((linear exampleUpdatedMatrices._iT).mulVec
            (translation exampleProjectorMatrices._transform)))) ∧
    exampleUpdatedMatrices._iKRt =
      homogeneous (linear exampleProjectorMatrices._transform * exampleUpdatedMatrices._iK)
        (translation exampleProjectorMatrices._transform) ∧
    exampleUpdatedMatrices._iKRt * exampleUpdatedMatrices._KRt = 1 ∧
    exampleUpdatedMatrices._KRt * exampleUpdatedMatrices._iKRt = 1 :=
  ⟨by with_unfolding_all decide, by with_unfolding_all decide, by with_unfolding_all decide,
   updateMatrices_mutually_inverse exampleCameraInverse exampleProjectorMatrices
    (by with_unfolding_all decide) (by with_unfolding_all decide)
    (by with_unfolding_all decide)⟩

/-- Claim C28, counterexample to the statement as written: the sensor
transform with linear part `diag(2, 1, 1)` and translation `(1, 2, 3)` has
last row `[0,0,0,1]` and an invertible linear part (inverse
`diag(1/2, 1, 1)`), and the camera matrix is invertible; yet after
`_updateMatrices` neither `_iKRt * _KRt` nor `_KRt * _iKRt` is the identity,
because `inverse()` transposes the linear part. -/
theorem updateMatrices_not_inverse_for_stretch :
    exampleStretchedMatrices._transform 3 = ![0, 0, 0, 1] ∧
    linear exampleStretchedMatrices._transform * !![1 / 2, 0, 0; 0, 1, 0; 0, 0, 1] = 1 ∧
    !![1 / 2, 0, 0; 0, 1, 0; 0, 0, 1] * linear exampleStretchedMatrices._transform = 1 ∧
    exampleCameraInverse exampleStretchedMatrices._cameraMatrix *
      exampleStretchedMatrices._cameraMatrix = 1 ∧
    exampleStretchedMatrices._cameraMatrix *
      exampleCameraInverse exampleStretchedMatrices._cameraMatrix = 1 ∧
    (_updateMatrices isometryInverse exampleCameraInverse exampleStretchedMatrices)._iKRt *
      (_updateMatrices isometryInverse exampleCameraInverse exampleStretchedMatrices)._KRt ≠ 1 ∧
    (_updateMatrices isometryInverse exampleCameraInverse exampleStretchedMatrices)._KRt *
      (_updateMatrices isometryInverse exampleCameraInverse exampleStretchedMatrices)._iKRt ≠ 1 := by
  refine ⟨?_, ?_, ?_, ?_, ?_, ?_, ?_⟩ <;> with_unfolding_all decide

end ClaimsInverse

end G2oFrontend
